import Mathlib

/-!
# ceid-json-parsing: the tweet JSON value model, string decoder and validators

A shallow embedding of `src/flex_util.h` (the C implementation; `src/json_classes.h`
declares the same data model as C++ classes).

Conventions of the embedding

* A byte (`char`) is a `Nat` below 256.  A C string handed to a function is the list of
  its bytes in front of the terminating NUL; reading at or past the end of that list
  yields the terminator `0`.
* A `VecDefine` vector is the list `data[0 .. size)`.  The allocators (`Alloc_JString`,
  `Alloc_JArray`, `Alloc_JArrayRange`, `Alloc_JObject`) only set `slack = 0`; `size` is
  first written by `VecDefine`'s add function, and no function removes an entry.  So the
  empty list stands for a vector whose `size` no statement has written, and reading that
  member (`Vec_size`) is a fault.  The validators read `size` through `Vec_size`.  The
  two print loops are embedded for a vector that holds an entry; for a vector that was
  never added to they are taken to make no pass, although the source reads the unwritten
  `size` there too.  The vectors of the global `database` are zero-initialised, so their
  `size` is 0 before the first add.
* `int` / `unsigned int` counters that are bounded by the length of a string or of a
  vector held in memory are natural numbers.  Where the source converts between integer
  types of different width or signedness the conversion is written out (`% 2 ^ 32`),
  and a signed overflow is reported as a fault.
* Code whose behaviour the C standard leaves undefined, that reads an object no statement
  has written, or whose result holds bytes that were never written, returns
  `Except.error` with the `Fault` that names the cause.
-/

/-! ## Faults -/

/-- The ways in which a run of the C code leaves defined behaviour. -/
inductive Fault where
  /-- A null pointer is read through (`strlen(NULL)`, `p->field` with `p == NULL`). -/
  | nullDeref
  /-- The text container ends up holding bytes that no statement has written. -/
  | indeterminate
  /-- A fixed-size stack buffer is written past its end. -/
  | bufferOverflow
  /-- A signed integer operation overflows. -/
  | signedOverflow
  /-- An object is read that no statement has written: the `size` member of a vector
  whose allocator set `slack = 0` only.  The value read is indeterminate. -/
  | unwritten
deriving DecidableEq, Repr

deriving instance DecidableEq for Except

/-! ## Text Container (`Str_c`) -/

/-- The C string that starts at the first byte of a buffer: the bytes in front of the
first NUL.  This is what `strlen`, `strdup`, `strcat`, `strcmp` and `%s` read. -/
def cstr (p : List Nat) : List Nat := p.takeWhile (fun b => b != 0)

/-- A string literal of the source, as the bytes a `const char*` to it points at. -/
def lit (s : String) : List Nat := s.toList.map Char.toNat

/-- Text container `Str_c` with members `char* ptr; int len;`.
`ptr = none` is the null pointer, and then `len` is 0.  `ptr = some bs` is a heap buffer
whose first `len = bs.length` bytes are `bs`, followed by a terminating NUL.  Every
function of the source that writes a `Str_c` keeps `len` equal to the number of payload
bytes, so `len` is read off the payload. -/
structure Str_c where
  ptr : Option (List Nat)
deriving DecidableEq, Repr

/-- The payload bytes of a container (none for the null pointer). -/
def Str_c.bytes (str : Str_c) : List Nat := str.ptr.getD []

/-- Member `len` of `Str_c`. -/
def Str_c.len (str : Str_c) : Nat := str.bytes.length

/-- `STR_makeEmpty` (through `STR_init`, `flex_util.h` 22-38): `ptr = NULL; len = 0`. -/
def STR_makeEmpty : Str_c := ⟨none⟩

/-- `STR_make(text)` (`flex_util.h` 27-32): `len = strlen(text); ptr = strdup(text)`.
A null `text` is read through by `strlen`. -/
def STR_make (text : Option (List Nat)) : Except Fault Str_c :=
  match text with
  | none => .error .nullDeref
  | some t => .ok ⟨some (cstr t)⟩

/-- `STR_addChar(str, c)` (`flex_util.h` 52-57): grow by one,
`ptr[len - 1] = c; ptr[len] = 0`.
`realloc(NULL, n)` allocates, so the null container is a valid argument. -/
def STR_addChar (str : Str_c) (c : Nat) : Str_c := ⟨some (str.bytes ++ [c])⟩

/-- `STR_append(str, text)` (`flex_util.h` 40-50).
* `text == NULL`: `strdup` / `strlen` read through the null pointer.
* `str->len == 0`: `ptr = strdup(text); len = strlen(text)`.
* otherwise `len += strlen(text)`, the buffer is reallocated and `strcat(ptr, text)`
  copies `text` to the first NUL of the buffer.  When the payload holds no NUL byte that
  is its end and the payload becomes `bytes ++ text`.  When the payload holds a NUL byte
  (written by `STR_addChar(str, 0)`) `strcat` writes in the middle of the payload and the
  bytes at the new end are never written: `Fault.indeterminate` (unless `text` is empty,
  when nothing changes). -/
def STR_append (str : Str_c) (text : Option (List Nat)) : Except Fault Str_c :=
  match text with
  | none => .error .nullDeref
  | some t =>
    if str.len = 0 then .ok ⟨some (cstr t)⟩
    else if 0 ∈ str.bytes ∧ cstr t ≠ [] then .error .indeterminate
    else .ok ⟨some (str.bytes ++ cstr t)⟩

/-- `STR_appendAsUtf8(str, ucode)` (`flex_util.h` 67-80) for a `long ucode`.  The
argument of every `STR_addChar` is converted to `char`, which keeps the low 8 bits. -/
def STR_appendAsUtf8 (str : Str_c) (ucode : Int) : Str_c :=
  if ucode < 0x80 then
    STR_addChar str (ucode % 256).toNat
  else if ucode < 0x800 then
    let u := ucode.toNat
    STR_addChar (STR_addChar str (((u >>> 6) ||| 0xC0) % 256)) (((u &&& 0x3F) ||| 0x80) % 256)
  else
    let u := ucode.toNat
    STR_addChar
      (STR_addChar (STR_addChar str (((u >>> 12) ||| 0xE0) % 256))
        ((((u >>> 6) &&& 0x3F) ||| 0x80) % 256))
      (((u &&& 0x3F) ||| 0x80) % 256)

/-! ## `strtol(p, NULL, 16)` of the C library (LP64: `long` has 64 bits) -/

/-- `isspace` in the C locale. -/
def isspace (b : Nat) : Bool := b == 32 || (9 ≤ b && b ≤ 13)

/-- The value of a hexadecimal digit, `none` for any other byte. -/
def hexDigitVal (b : Nat) : Option Nat :=
  if 48 ≤ b ∧ b ≤ 57 then some (b - 48)
  else if 97 ≤ b ∧ b ≤ 102 then some (b - 87)
  else if 65 ≤ b ∧ b ≤ 70 then some (b - 55)
  else none

/-- The digit loop of `strtol`: consume hexadecimal digits as long as there are any. -/
def strtolDigits : List Nat → Nat → Nat
  | [], acc => acc
  | b :: rest, acc =>
    match hexDigitVal b with
    | some d => strtolDigits rest (acc * 16 + d)
    | none => acc

/-- The optional `0x` / `0X` in front of the digits of `strtol` with base 16. -/
def strtolSkip0x : List Nat → List Nat
  | 48 :: x :: rest => if x = 120 ∨ x = 88 then rest else 48 :: x :: rest
  | p => p

/-- `strtol(p, NULL, 16)`: skip white space, read an optional sign (45 `-`, 43 `+`) and
an optional `0x` / `0X`, then all hexadecimal digits that follow (not a fixed number of
them); the result saturates at `LONG_MIN` / `LONG_MAX`. -/
def strtol16 (p : List Nat) : Int :=
  let p1 := p.dropWhile isspace
  let neg := p1.head? = some 45
  let p2 := if p1.head? = some 45 ∨ p1.head? = some 43 then p1.tail else p1
  let v := strtolDigits (strtolSkip0x p2) 0
  if neg then (if v > 2 ^ 63 then -(2 ^ 63) else -(v : Int))
  else (if v > 2 ^ 63 - 1 then 2 ^ 63 - 1 else (v : Int))

/-! ## Decoded String (`JString`) -/

/-- Marker `HashTagData` with members `Str_c Tag; unsigned int Begin;`.
`Tag` holds the payload bytes of the tag's buffer: both places that store a marker store
one whose buffer exists (`Alloc_JString` only when `Tag.len > 0`, `ExtractHashtags` the
result of `STR_make`). -/
structure HashTagData where
  Tag : List Nat
  Begin : Nat
deriving DecidableEq, Repr

/-- `VecDefine`'s add function (`flex_util.h` 89-106; `VH_add`, `VVP_add`, `VMP_add`,
`VS_add`, `VLL_add`):
`v->data[v->size++] = elem`. -/
def Vec_add {α : Type} (v : List α) (elem : α) : List α := v ++ [elem]

/-- Reading `v.size` of a `VecDefine` vector that an allocator has initialised with
`slack = 0`.  The add function writes `size` (`v->size = 0` when `v->slack == 0`, then
`v->size++`); before the first add no statement has written it. -/
def Vec_size {α : Type} (v : List α) : Except Fault Nat :=
  match v with
  | [] => .error .unwritten
  | _ :: _ => .ok v.length

/-- Decoded string `JString` with members
`unsigned int Length; Str_c Text; Vec_Hashtags Hashtags; Str_c RetweetUser;`. -/
structure JString where
  Length : Nat
  Text : Str_c
  Hashtags : List HashTagData
  RetweetUser : Str_c
deriving DecidableEq, Repr

/-- The byte `source[i]`; the terminator when `i` is the length of the string. -/
def byteAt (source : List Nat) (i : Nat) : Nat := source.getD i 0

/-- The condition of the hashtag loop of `Alloc_JString`:
`a-z`, `A-Z`, `0-9` (bounds included) or `_`. -/
def isTagByte (b : Nat) : Bool :=
  (97 ≤ b && b ≤ 122) || (65 ≤ b && b ≤ 90) || (48 ≤ b && b ≤ 57) || b == 95

/-- The hashtag loop of `Alloc_JString`, from `readptr`:
`while (isTag(*readptr)) { STR_addChar(&hashtag.Tag, *readptr); readptr++; }`. -/
def readHashtag : List Nat → Str_c → Str_c
  | [], tag => tag
  | b :: rest, tag => if isTagByte b then readHashtag rest (STR_addChar tag b) else tag

/-- The condition of the retweet loop of `Alloc_JString`; the source compares with
`>` and `<`, so the bounds `a z A Z 0 9` are left out. -/
def isRetweetByte (b : Nat) : Bool :=
  (97 < b && b < 122) || (65 < b && b < 90) || (48 < b && b < 57) || b == 95

/-- The retweet loop of `Alloc_JString`, from `readptr = &source[4]`. -/
def readRetweetUser : List Nat → Str_c → Str_c
  | [], user => user
  | b :: rest, user =>
    if isRetweetByte b then readRetweetUser rest (STR_addChar user b) else user

/-- `STR_addChar(&s->Text, c); s->Length++;`. -/
def JString.addChar (s : JString) (c : Nat) : JString :=
  { s with Text := STR_addChar s.Text c, Length := s.Length + 1 }

/-- One pass through the body of the `for` loop of `Alloc_JString` (`flex_util.h`
549-666) at index `i`:
the value of `i` at the end of the body (before the loop's `++i`) and the new state.
Bytes: 92 backslash, 110 `n`, 117 `u`, 37 `%`, 50 `2`, 66 `B`, 49 `1`, 48 `0`, 67 `C`,
54 `6`, 35 `#`; 10 newline, 43 `+`, 33 `!`, 32 space, 44 `,`, 38 `&`. -/
def Alloc_JString.body (source : List Nat) (i : Nat) (s : JString) :
    Except Fault (Nat × JString) :=
  let c := byteAt source i
  if c = 92 then
    let esc := byteAt source (i + 1)
    if esc = 110 then .ok (i + 1, s.addChar 10)
    else if esc = 117 then
      let u_code := strtol16 (source.drop (i + 2))
      .ok (i + 5, { s with Text := STR_appendAsUtf8 s.Text u_code, Length := s.Length + 1 })
    else .ok (i + 1, s.addChar esc)
  else if c = 37 then
    if byteAt source (i + 1) = 50 then
      let d := byteAt source (i + 2)
      if d = 66 then .ok (i + 2, s.addChar 43)
      else if d = 49 then .ok (i + 2, s.addChar 33)
      else if d = 48 then .ok (i + 2, s.addChar 32)
      else if d = 67 then .ok (i + 2, s.addChar 44)
      else if d = 54 then .ok (i + 2, s.addChar 38)
      else .ok (i, s.addChar c)
    else .ok (i, s.addChar c)
  else if c = 35 then
    let Tag := readHashtag (source.drop (i + 1)) STR_makeEmpty
    let Hashtags :=
      if Tag.len > 0 then Vec_add s.Hashtags ⟨Tag.bytes, s.Length⟩ else s.Hashtags
    match STR_append (STR_addChar s.Text 35) Tag.ptr with
    | .error e => .error e
    | .ok Text =>
      .ok (i + Tag.len,
        { s with Hashtags := Hashtags, Text := Text, Length := s.Length + (Tag.len + 1) })
  else .ok (i, s.addChar c)

/-- The loop `for (int i = 0; i < sourcelen; ++i)` of `Alloc_JString`, entered at index
`i`.  Every pass moves `i` forward, so `fuel = sourcelen` passes are enough (see
`Alloc_JString.loop_fuel`). -/
def Alloc_JString.loop (source : List Nat) : Nat → Nat → JString → Except Fault JString
  | 0, _, s => .ok s
  | fuel + 1, i, s =>
    if i < source.length then
      match Alloc_JString.body source i s with
      | .error e => .error e
      | .ok (j, s1) => Alloc_JString.loop source fuel (j + 1) s1
    else .ok s

/-- `Alloc_JString(source)` (`flex_util.h` 540-685): decode the raw literal, then look
for `RT @user`.
Bytes: 82 `R`, 84 `T`, 32 space, 64 `@`. -/
def Alloc_JString (source : List Nat) : Except Fault JString :=
  match Alloc_JString.loop source source.length 0 ⟨0, STR_makeEmpty, [], STR_makeEmpty⟩ with
  | .error e => .error e
  | .ok s =>
    if byteAt source 0 = 82 ∧ byteAt source 1 = 84 ∧ byteAt source 2 = 32 ∧
        byteAt source 3 = 64 then
      .ok { s with RetweetUser := readRetweetUser (source.drop 4) s.RetweetUser }
    else .ok s

/-! ## Value tree -/

/-- Range `JRange` with members `long long Begin; long long End;`. -/
structure JRange where
  Begin : Int
  End : Int
deriving DecidableEq, Repr

/-- Tag `enum JValueType`. -/
inductive JValueType where
  | E_Object | E_Array | E_String | E_Float | E_Int | E_Bool | E_NullVal
deriving DecidableEq, Repr

/-- Role `enum JSpecialMember`. -/
inductive JSpecialMember where
  | E_None | E_IdStr | E_Text | E_CreatedAt | E_User | E_UName | E_UScreenName
  | E_ULocation | E_UId | E_TweetObj | E_ExTweet | E_Truncated | E_DisplayRange
  | E_Entities | E_Hashtags | E_Indices | E_FullText
deriving DecidableEq, Repr

/-- Schema fields `JSpecialMembers` of an object `O`; a null pointer is `none`, a bound
field holds the value it points at.  `UId` is a `long long*`. -/
structure JSpecialMembers (O : Type) where
  IdStr : Option JString
  Text : Option JString
  CreatedAt : Option JString
  User : Option O
  UName : Option JString
  UScreenName : Option JString
  ULocation : Option JString
  UId : Option Int
  TweetObj : Option O

/-- Extended schema fields `JExSpecialMembers` of an object `O` with arrays `A`.
`Truncated` is a `boolean*`, and `boolean` is `int`: 0 is `false`. -/
structure JExSpecialMembers (O A : Type) where
  ExTweet : Option O
  Truncated : Option Int
  DisplayRange : Option JRange
  Entities : Option O
  Hashtags : Option A
  Indices : Option JRange
  FullText : Option JString

mutual
/-- Value `JValue`: the tag `Type` together with the member of `union JValueData` that
the allocator of that tag (`JV_Null`, `JV_Object`, ...) sets.  A `float` is kept as its
bit pattern; the code under study never computes with it. -/
inductive JValue where
  | JV_Null
  | JV_Object (ObjectData : JObject)
  | JV_Array (ArrayData : JArray)
  | JV_StrObj (StringData : JString)
  | JV_Float (FloatData : Nat)
  | JV_Int (IntData : Int)
  | JV_Bool (BoolData : Int)
/-- Array `JArray` with members
`Vec_JValuePtr Elements; JRange AsRange; Vec_Hashtags Hashtags;`. -/
inductive JArray where
  | mk (Elements : List JValue) (AsRange : JRange) (Hashtags : List HashTagData)
/-- Member `JMember` with members `Str_c Name; JValue* Value; SpecialType`. -/
inductive JMember where
  | mk (Name : Str_c) (Value : JValue) (SpecialType : JSpecialMember)
/-- Object `JObject` with members `Vec_JMemberPtr Memberlist; Members; ExMembers`. -/
inductive JObject where
  | mk (Memberlist : List JMember) (Members : JSpecialMembers JObject)
      (ExMembers : JExSpecialMembers JObject JArray)
end

/-- Member `Type` of `JValue`. -/
def JValue.Type : JValue → JValueType
  | .JV_Null => .E_NullVal
  | .JV_Object _ => .E_Object
  | .JV_Array _ => .E_Array
  | .JV_StrObj _ => .E_String
  | .JV_Float _ => .E_Float
  | .JV_Int _ => .E_Int
  | .JV_Bool _ => .E_Bool

/-- Member `Elements` of `JArray`. -/
def JArray.Elements : JArray → List JValue
  | .mk e _ _ => e

/-- Member `AsRange` of `JArray`. -/
def JArray.AsRange : JArray → JRange
  | .mk _ r _ => r

/-- Member `Hashtags` of `JArray`, the hashtag-extraction list. -/
def JArray.Hashtags : JArray → List HashTagData
  | .mk _ _ h => h

/-- Member `Name` of `JMember`. -/
def JMember.Name : JMember → Str_c
  | .mk n _ _ => n

/-- Member `Value` of `JMember`. -/
def JMember.Value : JMember → JValue
  | .mk _ v _ => v

/-- Member `SpecialType` of `JMember`. -/
def JMember.SpecialType : JMember → JSpecialMember
  | .mk _ _ t => t

/-- Member `Memberlist` of `JObject`. -/
def JObject.Memberlist : JObject → List JMember
  | .mk l _ _ => l

/-- Member `Members` of `JObject`. -/
def JObject.Members : JObject → JSpecialMembers JObject
  | .mk _ m _ => m

/-- Member `ExMembers` of `JObject`. -/
def JObject.ExMembers : JObject → JExSpecialMembers JObject JArray
  | .mk _ _ x => x

/-! ## Validators -/

/-- The failure exit of a validator: `STR_append(FailMessage, text); return false;`. -/
def failWith (FailMessage : Str_c) (text : List Nat) : Except Fault (Bool × Str_c) :=
  match STR_append FailMessage (some text) with
  | .error e => .error e
  | .ok m => .ok (false, m)

/-- `FormsValidOuterObject(o, FailMessage)` (`flex_util.h` 718-760): the returned
`boolean` and the reason buffer after the call. -/
def FormsValidOuterObject (o : JObject) (FailMessage : Str_c) : Except Fault (Bool × Str_c) :=
  match o.Members.IdStr, o.Members.Text, o.Members.User, o.Members.CreatedAt with
  | some _, some Text, some _, some _ =>
    match o.ExMembers.Truncated with
    | none => .ok (true, FailMessage)
    | some Truncated =>
      if Truncated = 0 then .ok (true, FailMessage)
      else
        match o.ExMembers.DisplayRange with
        | none => failWith FailMessage (lit "Missing display range when truncated == true.")
        | some DisplayRange =>
          let TextSize := Text.Length
          if DisplayRange.Begin ≠ 0 ∨ DisplayRange.End ≠ (TextSize : Int) then
            failWith FailMessage (lit "Display Range did not match the given text.")
          else
            match o.ExMembers.ExTweet with
            | none => failWith FailMessage (lit "Missing extended tweet when truncated == true.")
            | some _ => .ok (true, FailMessage)
  | _, _, _, _ => failWith FailMessage (lit "Missing field IdStr/Text/User/CreatedAt")

/-- Decimal digits of a natural number, as `printf` writes them. -/
def decimal (n : Nat) : List Nat := (Nat.toDigits 10 n).map Char.toNat

/-- Conversion `%lli` of a `long long`. -/
def fmt_lli (x : Int) : List Nat :=
  if x < 0 then 45 :: decimal x.natAbs else decimal x.toNat

/-- Conversion `%d` applied to an `unsigned int`: the 32 bits are read as an `int`. -/
def fmt_d (x : Nat) : List Nat :=
  if x % 2 ^ 32 < 2 ^ 31 then decimal (x % 2 ^ 32) else 45 :: decimal (2 ^ 32 - x % 2 ^ 32)

/-- `sprintf` into a `char[200]`: the text and its terminator have to fit. -/
def sprintf200 (text : List Nat) : Except Fault (List Nat) :=
  if text.length < 200 then .ok text else .error .bufferOverflow

/-- The inner loop of `FormsValidExtendedTweetObj`: is there an `other` in the entities
list with `Outer->Begin == other->Begin && strcmp(Outer->Tag.ptr, other->Tag.ptr) == 0`? -/
def FormsValidExtendedTweetObj.found (Outer : HashTagData) : List HashTagData → Bool
  | [] => false
  | other :: rest =>
    if Outer.Begin = other.Begin ∧ cstr Outer.Tag = cstr other.Tag then true
    else FormsValidExtendedTweetObj.found Outer rest

/-- The outer loop of `FormsValidExtendedTweetObj` over the hashtags of the text. -/
def FormsValidExtendedTweetObj.check :
    List HashTagData → List HashTagData → Str_c → Except Fault (Bool × Str_c)
  | [], _, FailMessage => .ok (true, FailMessage)
  | Outer :: rest, EntitiesTags, FailMessage =>
    if FormsValidExtendedTweetObj.found Outer EntitiesTags then
      FormsValidExtendedTweetObj.check rest EntitiesTags FailMessage
    else
      match sprintf200 (lit "Hashtag: \'" ++ cstr Outer.Tag ++
          lit "\' is missing from the entities array or has incorrect Indices.") with
      | .error e => .error e
      | .ok AddedStr => failWith FailMessage AddedStr

/-- The vector `o->ExMembers.Entities->ExMembers.Hashtags->Hashtags`, read through both
pointers. -/
def EntitiesTags (o : JObject) : Except Fault (List HashTagData) :=
  match o.ExMembers.Entities with
  | none => .error .nullDeref
  | some Entities =>
    match Entities.ExMembers.Hashtags with
    | none => .error .nullDeref
    | some a => .ok a.Hashtags

/-- `FormsValidExtendedTweetObj(o, FailMessage)` (`flex_util.h` 762-836): the returned
`boolean` and the reason buffer after the call.  `HashtagsInArray` is 0 or the `size`
read from the entities' vector; it is compared with the `size` read from
`TextObj->Hashtags`. -/
def FormsValidExtendedTweetObj (o : JObject) (FailMessage : Str_c) :
    Except Fault (Bool × Str_c) :=
  match o.ExMembers.FullText, o.ExMembers.DisplayRange with
  | some TextObj, some DisplayRange =>
    let TextSize := TextObj.Length
    if DisplayRange.Begin ≠ 0 ∨ DisplayRange.End ≠ (TextSize : Int) then
      match sprintf200
          (lit "Display Range did not match the given full_text.\nText Size: " ++
            fmt_d TextSize ++ lit " DisplayRange: [" ++ fmt_lli DisplayRange.Begin ++
            lit ", " ++ fmt_lli DisplayRange.End ++ lit "]") with
      | .error e => .error e
      | .ok Message => failWith FailMessage Message
    else
      match (match o.ExMembers.Entities with
          | none => Except.ok 0
          | some _ =>
            match EntitiesTags o with
            | .error e => .error e
            | .ok Tags => Vec_size Tags) with
      | .error e => .error e
      | .ok HashtagsInArray =>
        match Vec_size TextObj.Hashtags with
        | .error e => .error e
        | .ok TextHashtags =>
          if HashtagsInArray ≠ TextHashtags then
            failWith FailMessage
              (lit "Hashtags found in text did not match all the hashtags in the entites.")
          else if HashtagsInArray = 0 then .ok (true, FailMessage)
          else
            match EntitiesTags o with
            | .error e => .error e
            | .ok Tags => FormsValidExtendedTweetObj.check TextObj.Hashtags Tags FailMessage
  | _, _ => failWith FailMessage (lit "Missing \'full_text\' and/or \'display_text_range\'.")

/-- The loop of `ExtractHashtags` over the elements that are left, with the
hashtag-extraction list and the reason buffer so far. -/
def ExtractHashtags.loop :
    List JValue → List HashTagData → Str_c → Except Fault (Bool × List HashTagData × Str_c)
  | [], Hashtags, Error => .ok (true, Hashtags, Error)
  | Element :: rest, Hashtags, Error =>
    match Element with
    | .JV_Object Subobject =>
      match Subobject.Members.Text, Subobject.ExMembers.Indices with
      | some Text, some Indices =>
        let IndiceLength := Indices.End - Indices.Begin
        if IndiceLength < -(2 ^ 63) ∨ 2 ^ 63 ≤ IndiceLength then .error .signedOverflow
        else if IndiceLength ≠ (((Text.Length + 1) % 2 ^ 32 : Nat) : Int) then
          match STR_append Error (some (lit "Indice range did not match the text length.")) with
          | .error e => .error e
          | .ok m => .ok (false, Hashtags, m)
        else
          match STR_make Text.Text.ptr with
          | .error e => .error e
          | .ok Tag =>
            ExtractHashtags.loop rest
              (Vec_add Hashtags ⟨Tag.bytes, (Indices.Begin % 2 ^ 32).toNat⟩) Error
      | _, _ =>
        match STR_append Error
            (some (lit "An element of the array is missing \'text\' and/or \'indices\'.")) with
        | .error e => .error e
        | .ok m => .ok (false, Hashtags, m)
    | _ =>
      match STR_append Error (some (lit "An element of the array is not an object.")) with
      | .error e => .error e
      | .ok m => .ok (false, Hashtags, m)

/-- `ExtractHashtags(a, Error)` (`flex_util.h` 838-876): the returned `boolean`, the
array after the call (its `Hashtags` vector grows) and the reason buffer after the
call.  The loop condition `i < a->Elements.size` reads the `size` of the element
vector. -/
def ExtractHashtags (a : JArray) (Error : Str_c) : Except Fault (Bool × JArray × Str_c) :=
  match Vec_size a.Elements with
  | .error e => .error e
  | .ok _ =>
    match ExtractHashtags.loop a.Elements a.Hashtags Error with
    | .error e => .error e
    | .ok (b, Hashtags, m) => .ok (b, .mk a.Elements a.AsRange Hashtags, m)

/-- The hashtag-extraction list of `Entities.Hashtags`, and the empty list when
`Entities` is unbound (or has no `Hashtags`). -/
def entityHashtags (o : JObject) : List HashTagData :=
  match o.ExMembers.Entities with
  | none => []
  | some Entities =>
    match Entities.ExMembers.Hashtags with
    | none => []
    | some a => a.Hashtags

/-- The decoder state invariant used for the relation between `Length` and the byte
length: `Length` never exceeds the byte length, and when the two are equal every byte
of the text is below `0x80`. -/
def asciiWhenEqual (s : JString) : Prop :=
  s.Length ≤ s.Text.len ∧ (s.Length = s.Text.len → ∀ b ∈ s.Text.bytes, b < 0x80)

/-- The schema fields as `Alloc_JObject` sets them: every pointer `NULL`. -/
def nullMembers : JSpecialMembers JObject :=
  ⟨none, none, none, none, none, none, none, none, none⟩

/-- The extended schema fields as `Alloc_JObject` sets them: every pointer `NULL`. -/
def nullExMembers : JExSpecialMembers JObject JArray :=
  ⟨none, none, none, none, none, none, none⟩

/-- `Alloc_JObject()` (`flex_util.h` 430-454): no members, every schema field `NULL`. -/
def Alloc_JObject : JObject := .mk [] nullMembers nullExMembers

/-- `Alloc_JArray()` (`flex_util.h` 335-344): no elements, `AsRange = [-1, -1]`, no
extracted hashtags. -/
def Alloc_JArray : JArray := .mk [] ⟨-1, -1⟩ []

/-! ## Schema projection -/

/-- `v->Data.StringData` as a value of its type `JString*`: the payload after
`JV_StrObj` / `JV_String`, and `NULL` after `JV_Null`, which stores `ObjectData = NULL`
(pointers to structure types share one representation).  `none`: the allocator of `v` set
a member of another type; reading `StringData` then takes the bytes of that payload for
a `JString*`. -/
def JValue.StringData : JValue → Option (Option JString)
  | .JV_StrObj s => some (some s)
  | .JV_Null => some none
  | _ => none

/-- `v->Data.ObjectData` as a value of its type `JObject*`: set by `JV_Object`, and set
to `NULL` by `JV_Null`; `none` after any other allocator. -/
def JValue.ObjectData : JValue → Option (Option JObject)
  | .JV_Object obj => some (some obj)
  | .JV_Null => some none
  | _ => none

/-- `v->Data.ArrayData` as a value of its type `JArray*`: set by `JV_Array`, `NULL` after
`JV_Null`; `none` after any other allocator. -/
def JValue.ArrayData : JValue → Option (Option JArray)
  | .JV_Array a => some (some a)
  | .JV_Null => some none
  | _ => none

/-- The `long long` that `&v->Data.IntData` points at: set by `JV_Int` only; `none` after
any other allocator (the pointer is formed all the same, it points at the union that
holds the other payload). -/
def JValue.IntData : JValue → Option Int
  | .JV_Int n => some n
  | _ => none

/-- The `boolean` that `&v->Data.BoolData` points at: set by `JV_Bool` only; `none` after
any other allocator. -/
def JValue.BoolData : JValue → Option Int
  | .JV_Bool b => some b
  | _ => none

/-- The range that `&v->Data.ArrayData->AsRange` points at: the range of the array after
`JV_Array`; `none` after any other allocator (the address is formed from the bytes of the
other payload, after `JV_Null` from the null pointer). -/
def JValue.AsRange : JValue → Option JRange
  | .JV_Array a => some a.AsRange
  | _ => none

/-- The state in which `AddMemberToObject` returns when the `case` of the member's role
reads a member of `union JValueData` that the allocator of the value did not set.  The
call has appended the member: `o` is the object with the member appended and with its
schema fields as they were before the call.  The assignment of the `case` has then stored
in the field of `role` what the bytes of `payload` are when they are taken for the member
read: for the String, Object and Array roles a pointer with the bits of the payload, for
`E_UId` and `E_Truncated` the address of the union that holds the payload, for
`E_DisplayRange` and `E_Indices` the address of `AsRange` behind the pointer read.
The embedding does not work out which pointer these bytes make (the `long long` 0 makes
the null pointer), and `JObject` has in general no value for such a field; the field of
`role` in `o` is the one that no longer holds. -/
structure Punned where
  o : JObject
  role : JSpecialMember
  payload : JValue

/-- The assignment of one `case` of `AddMemberToObject`, after `VMP_add`: the field is
set from what the `case` reads, when that is a value of the field's type. -/
def AddMemberToObject.assign {α : Type} (o : JObject) (member : JMember) (read : Option α)
    (set : α → JObject) : Except Punned JObject :=
  match read with
  | some p => .ok (set p)
  | none =>
    .error ⟨.mk (Vec_add o.Memberlist member) o.Members o.ExMembers, member.SpecialType,
      member.Value⟩

/-- `AddMemberToObject(o, member)` (`flex_util.h` 687-716): `VMP_add` the member, then
the `switch` on its role.  The `switch` does not look at `member->Value->Type`: each case
reads the union member of its own type (or takes its address, for `UId` and
`Truncated`, whose fields hold the value pointed at).  Role `E_None` has no case.  The
call always returns: with `.ok` the object after the call, with `.error` the state
`Punned` describes. -/
def AddMemberToObject (o : JObject) (member : JMember) : Except Punned JObject :=
  let Memberlist := Vec_add o.Memberlist member
  let M := o.Members
  let X := o.ExMembers
  match member.SpecialType with
  | .E_None => .ok (.mk Memberlist M X)
  | .E_IdStr =>
    AddMemberToObject.assign o member member.Value.StringData
      fun p => .mk Memberlist { M with IdStr := p } X
  | .E_Text =>
    AddMemberToObject.assign o member member.Value.StringData
      fun p => .mk Memberlist { M with Text := p } X
  | .E_CreatedAt =>
    AddMemberToObject.assign o member member.Value.StringData
      fun p => .mk Memberlist { M with CreatedAt := p } X
  | .E_User =>
    AddMemberToObject.assign o member member.Value.ObjectData
      fun p => .mk Memberlist { M with User := p } X
  | .E_UName =>
    AddMemberToObject.assign o member member.Value.StringData
      fun p => .mk Memberlist { M with UName := p } X
  | .E_UScreenName =>
    AddMemberToObject.assign o member member.Value.StringData
      fun p => .mk Memberlist { M with UScreenName := p } X
  | .E_ULocation =>
    AddMemberToObject.assign o member member.Value.StringData
      fun p => .mk Memberlist { M with ULocation := p } X
  | .E_UId =>
    AddMemberToObject.assign o member member.Value.IntData
      fun p => .mk Memberlist { M with UId := some p } X
  | .E_TweetObj =>
    AddMemberToObject.assign o member member.Value.ObjectData
      fun p => .mk Memberlist { M with TweetObj := p } X
  | .E_ExTweet =>
    AddMemberToObject.assign o member member.Value.ObjectData
      fun p => .mk Memberlist M { X with ExTweet := p }
  | .E_Truncated =>
    AddMemberToObject.assign o member member.Value.BoolData
      fun p => .mk Memberlist M { X with Truncated := some p }
  | .E_DisplayRange =>
    AddMemberToObject.assign o member member.Value.AsRange
      fun r => .mk Memberlist M { X with DisplayRange := some r }
  | .E_Entities =>
    AddMemberToObject.assign o member member.Value.ObjectData
      fun p => .mk Memberlist M { X with Entities := p }
  | .E_Hashtags =>
    AddMemberToObject.assign o member member.Value.ArrayData
      fun p => .mk Memberlist M { X with Hashtags := p }
  | .E_Indices =>
    AddMemberToObject.assign o member member.Value.AsRange
      fun r => .mk Memberlist M { X with Indices := some r }
  | .E_FullText =>
    AddMemberToObject.assign o member member.Value.StringData
      fun p => .mk Memberlist M { X with FullText := p }

/-- A sequence of `AddMemberToObject` calls on the same object, first call first, as far
as `JObject` can hold the state: it ends with the first call that leaves a state
`Punned`. -/
def AddMembers : JObject → List JMember → Except Punned JObject
  | o, [] => .ok o
  | o, member :: rest =>
    match AddMemberToObject o member with
    | .error e => .error e
    | .ok o1 => AddMembers o1 rest

/-- Is the schema field that belongs to a role bound (non-null)?  Role `E_None` has no
field. -/
def JObject.bound (o : JObject) : JSpecialMember → Bool
  | .E_None => false
  | .E_IdStr => o.Members.IdStr.isSome
  | .E_Text => o.Members.Text.isSome
  | .E_CreatedAt => o.Members.CreatedAt.isSome
  | .E_User => o.Members.User.isSome
  | .E_UName => o.Members.UName.isSome
  | .E_UScreenName => o.Members.UScreenName.isSome
  | .E_ULocation => o.Members.ULocation.isSome
  | .E_UId => o.Members.UId.isSome
  | .E_TweetObj => o.Members.TweetObj.isSome
  | .E_ExTweet => o.ExMembers.ExTweet.isSome
  | .E_Truncated => o.ExMembers.Truncated.isSome
  | .E_DisplayRange => o.ExMembers.DisplayRange.isSome
  | .E_Entities => o.ExMembers.Entities.isSome
  | .E_Hashtags => o.ExMembers.Hashtags.isSome
  | .E_Indices => o.ExMembers.Indices.isSome
  | .E_FullText => o.ExMembers.FullText.isSome

/-- Registry `JsonDB` with members `Vec_Str IdStrs; Vec_LongLong UserIds;`.  An entry of
`IdStrs` is the payload of its container: the only statement that stores one stores
`STR_make(data)`, whose buffer exists. -/
structure JsonDB where
  IdStrs : List (List Nat)
  UserIds : List Int
deriving DecidableEq, Repr

/-- The global `database` before the first insertion: both vectors empty. -/
def emptyDatabase : JsonDB := ⟨[], []⟩

/-- The loop of `MaybeInsertIdStr`: is there an entry with
`strcmp(data, database.IdStrs.data[i].ptr) == 0`? -/
def MaybeInsertIdStr.found (data : List Nat) : List (List Nat) → Bool
  | [] => false
  | entry :: rest =>
    if cstr data = cstr entry then true else MaybeInsertIdStr.found data rest

/-- `MaybeInsertIdStr(data)` (`flex_util.h` 460-468) on the registry `database`: the
returned `boolean` and the registry after the call.  `data` is the C string offered. -/
def MaybeInsertIdStr (database : JsonDB) (data : List Nat) : Bool × JsonDB :=
  if MaybeInsertIdStr.found data database.IdStrs then (false, database)
  else (true, { database with IdStrs := Vec_add database.IdStrs (cstr data) })

/-- The loop of `MaybeInsertUserId`: is there an entry with
`database.UserIds.data[i] == id`? -/
def MaybeInsertUserId.found (id : Int) : List Int → Bool
  | [] => false
  | entry :: rest => if entry = id then true else MaybeInsertUserId.found id rest

/-- `MaybeInsertUserId(id)` (`flex_util.h` 470-478) on the registry `database`. -/
def MaybeInsertUserId (database : JsonDB) (id : Int) : Bool × JsonDB :=
  if MaybeInsertUserId.found id database.UserIds then (false, database)
  else (true, { database with UserIds := Vec_add database.UserIds id })

/-- A call of one of the two insertion functions. -/
inductive RegistryCall where
  | idStr (data : List Nat)
  | userId (id : Int)
deriving DecidableEq, Repr

/-- The registry after a call. -/
def RegistryCall.run (database : JsonDB) : RegistryCall → JsonDB
  | .idStr data => (MaybeInsertIdStr database data).2
  | .userId id => (MaybeInsertUserId database id).2

/-- The registry after a sequence of calls, first call first. -/
def runCalls (database : JsonDB) (calls : List RegistryCall) : JsonDB :=
  calls.foldl RegistryCall.run database

/-- The id strings offered by a sequence of calls, in the order of the calls. -/
def offeredIdStrs : List RegistryCall → List (List Nat)
  | [] => []
  | .idStr data :: rest => cstr data :: offeredIdStrs rest
  | .userId _ :: rest => offeredIdStrs rest

/-- The user ids offered by a sequence of calls, in the order of the calls. -/
def offeredUserIds : List RegistryCall → List Int
  | [] => []
  | .idStr _ :: rest => offeredUserIds rest
  | .userId id :: rest => id :: offeredUserIds rest

/-- The distinct values of a list in the order of their first occurrence. -/
def firstOccurrences {α : Type} [DecidableEq α] (l : List α) : List α :=
  (l.reverse.dedup).reverse

/-! ## Range arrays and the output traversal -/

/-- `Alloc_JArrayRange(from, to)` (`flex_util.h` 346-361): `AsRange = [from, to]`, no
extracted hashtags, and the two statements `VVP_add(&a->Elements, JV_Int(to));
VVP_add(&a->Elements, JV_Int(from));` in this order. -/
def Alloc_JArrayRange (from_ to_ : Int) : JArray :=
  .mk (Vec_add (Vec_add [] (.JV_Int to_)) (.JV_Int from_)) ⟨from_, to_⟩ []

/-- The loop `for (i = 0; i < a->Elements.size; ++i)` of `Print_JArray` (`flex_util.h`
511-523), entered at index `i` with `fuel` passes left: the values handed to
`Print_JValue`, in the order of the calls.  (`i` stays below `size`, so `data[i]` is an
entry of the vector.) -/
def Print_JArray.loop (data : List JValue) : Nat → Nat → List JValue
  | 0, _ => []
  | fuel + 1, i =>
    match data[i]? with
    | some v => v :: Print_JArray.loop data fuel (i + 1)
    | none => []

/-- The values `Print_JArray(a)` prints, in the order it prints them, for an array that
holds an element (for one that was never added to, the loop is taken to make no pass). -/
def Print_JArray.visited (a : JArray) : List JValue :=
  Print_JArray.loop a.Elements a.Elements.length 0

/-- The loop `for (i = o->Memberlist.size - 1; i >= 0; --i)` of `Print_JObject`
(`flex_util.h` 525-538), entered with `i = k - 1`: the members whose name and value are
printed, in the order they are printed.  (`i` stays below `size`, so `data[i]` is an
entry of the vector.) -/
def Print_JObject.loop (data : List JMember) : Nat → List JMember
  | 0 => []
  | k + 1 =>
    match data[k]? with
    | some m => m :: Print_JObject.loop data k
    | none => Print_JObject.loop data k

/-- The members `Print_JObject(o)` prints, in the order it prints them, for an object
that holds a member (for one that was never added to, the loop is taken to make no
pass). -/
def Print_JObject.visited (o : JObject) : List JMember :=
  Print_JObject.loop o.Memberlist o.Memberlist.length

/-! ## Statements of the specification that the code is compared with

`utf8Encode`, `utf8Decode` and `outerObjectReason` are written from the words of the
specification, not from the source; the theorems compare the source with them. -/

/-- The UTF-8 encoding of a code point below `0x10000`, with the byte formulas of the
specification (C27). -/
def utf8Encode (c : Nat) : List Nat :=
  if c < 0x80 then [c]
  else if c < 0x800 then [0xC0 ||| (c >>> 6), 0x80 ||| (c &&& 0x3F)]
  else [0xE0 ||| (c >>> 12), 0x80 ||| ((c >>> 6) &&& 0x3F), 0x80 ||| (c &&& 0x3F)]

/-- Decoding one character with the standard UTF-8 bit layout: `0xxxxxxx`,
`110xxxxx 10xxxxxx`, `1110xxxx 10xxxxxx 10xxxxxx`. -/
def utf8Decode : List Nat → Option Nat
  | [b0] => if b0 < 0x80 then some b0 else none
  | [b0, b1] =>
    if b0 &&& 0xE0 = 0xC0 ∧ b1 &&& 0xC0 = 0x80 then
      some (((b0 &&& 0x1F) <<< 6) ||| (b1 &&& 0x3F))
    else none
  | [b0, b1, b2] =>
    if b0 &&& 0xF0 = 0xE0 ∧ b1 &&& 0xC0 = 0x80 ∧ b2 &&& 0xC0 = 0x80 then
      some (((b0 &&& 0x0F) <<< 12) ||| ((b1 &&& 0x3F) <<< 6) ||| (b2 &&& 0x3F))
    else none
  | _ => none

/-- The conditions of the outer-object rule in the order of the specification (4.3), each
with the message the source reports for it: (1) `IdStr`, `Text`, `User`, `CreatedAt`
bound, (2) `DisplayRange` bound, (3) `DisplayRange` equal to `[0, Text.Length]`,
(4) `ExTweet` bound. -/
def outerObjectConditions (o : JObject) : List (Bool × List Nat) :=
  [ (o.Members.IdStr.isSome && o.Members.Text.isSome && o.Members.User.isSome &&
      o.Members.CreatedAt.isSome,
      lit "Missing field IdStr/Text/User/CreatedAt"),
    (o.ExMembers.DisplayRange.isSome,
      lit "Missing display range when truncated == true."),
    (match o.ExMembers.DisplayRange, o.Members.Text with
      | some r, some t => decide (r.Begin = 0 ∧ r.End = (t.Length : Int))
      | _, _ => false,
      lit "Display Range did not match the given text."),
    (o.ExMembers.ExTweet.isSome,
      lit "Missing extended tweet when truncated == true.") ]

/-- Is `Truncated` bound and true (non-zero)? -/
def JObject.isTruncated (o : JObject) : Bool :=
  match o.ExMembers.Truncated with
  | some t => t != 0
  | none => false

/-- The message of the first condition that fails, in the order of the list; `none` when
every condition holds. -/
def firstFailure (conditions : List (Bool × List Nat)) : Option (List Nat) :=
  (conditions.find? (fun c => !c.1)).map Prod.snd

/-- The reason of the outer-object rule as the specification states it: the message of
the first failing condition, where conditions (2) to (4) are required only of a truncated
object; `none` for a valid object. -/
def outerObjectReason (o : JObject) : Option (List Nat) :=
  if o.isTruncated then firstFailure (outerObjectConditions o)
  else firstFailure ((outerObjectConditions o).take 1)

/-! ## Successive calls, accepted elements and the marker invariant -/

/-- The marker `ExtractHashtags` appends for an element that passes its checks and whose
text owns a buffer: the C string at `Text.ptr` and `Indices.Begin` converted to
`unsigned int`. -/
def ExtractHashtags.marker (Text : JString) (Indices : JRange) : HashTagData :=
  ⟨cstr Text.Text.bytes, (Indices.Begin % 2 ^ 32).toNat⟩

/-- The marker invariant of the decoder state: every tag is a non-empty run of word
bytes and ends at or in front of `Length`, and every marker begins behind the end
(`Begin + len(Tag) + 1`) of each earlier one. -/
def markersOrdered (s : JString) : Prop :=
  (∀ h ∈ s.Hashtags, h.Tag ≠ [] ∧ (∀ b ∈ h.Tag, isTagByte b = true) ∧
    h.Begin + h.Tag.length + 1 ≤ s.Length) ∧
  s.Hashtags.Pairwise (fun h1 h2 => h1.Begin + h1.Tag.length + 1 ≤ h2.Begin)

/-! ## Example values -/

/-- The decoded string of the literal `hi #ab`. -/
def exampleText : JString := ⟨6, ⟨some (lit "hi #ab")⟩, [⟨lit "ab", 3⟩], STR_makeEmpty⟩

/-- An `entities` object whose `hashtags` array has the extracted marker `ab` at 3. -/
def exampleEntities : JObject :=
  .mk [] nullMembers { nullExMembers with Hashtags := some (.mk [] ⟨-1, -1⟩ [⟨lit "ab", 3⟩]) }

/-- An extended tweet: `full_text` is `hi #ab`, `display_text_range` is `[0, 6]`, and the
entities list the hashtag. -/
def exampleExTweet : JObject :=
  .mk [] nullMembers
    { nullExMembers with
      FullText := some exampleText, DisplayRange := some ⟨0, 6⟩,
      Entities := some exampleEntities }

/-- The decoded string of the empty literal: `Alloc_JString("")` never writes `Text`, so
`Text.ptr` stays `NULL`. -/
def emptyText : JString := ⟨0, STR_makeEmpty, [], STR_makeEmpty⟩

/-- A hashtags array with the single element `{"text": "", "indices": [5, 6]}`. -/
def emptyTagArray : JArray :=
  .mk [.JV_Object (.mk []
        { nullMembers with Text := some emptyText }
        { nullExMembers with Indices := some ⟨5, 6⟩ })]
    ⟨-1, -1⟩ []

/-- A UTF-8 continuation byte, `10xxxxxx`. -/
def isContinuation (b : Nat) : Bool := 0x80 ≤ b && b < 0xC0

/-- The number of code points of a UTF-8 text: its bytes that are not continuation
bytes. -/
def codepointCount (bytes : List Nat) : Nat :=
  (bytes.filter (fun b => !isContinuation b)).length

/-- A hashtags array with the single element `{"text": "world", "indices": [2, 8]}`. -/
def exampleTagArray : JArray :=
  .mk [.JV_Object (.mk []
        { nullMembers with Text := some ⟨5, ⟨some (lit "world")⟩, [], STR_makeEmpty⟩ }
        { nullExMembers with Indices := some ⟨2, 8⟩ })]
    ⟨-1, -1⟩ []

/-- A member `"text": "a"` with role `E_Text`. -/
def exampleTextMemberA : JMember :=
  .mk ⟨some (lit "text")⟩ (.JV_StrObj ⟨1, ⟨some (lit "a")⟩, [], STR_makeEmpty⟩) .E_Text

/-- A member `"text": "b"` with role `E_Text`. -/
def exampleTextMemberB : JMember :=
  .mk ⟨some (lit "text")⟩ (.JV_StrObj ⟨1, ⟨some (lit "b")⟩, [], STR_makeEmpty⟩) .E_Text

/-- An extended tweet whose `entities` object has no `hashtags` member: `full_text` is
`hi #ab`, `display_text_range` is `[0, 6]`, `entities` is `{}`. -/
def exampleExTweetNoHashtags : JObject :=
  .mk [] nullMembers
    { nullExMembers with
      FullText := some exampleText, DisplayRange := some ⟨0, 6⟩,
      Entities := some Alloc_JObject }

/-- An extended tweet whose text is `#` followed by 128 times `a`, with an entities
array that lists another hashtag at the same offset. -/
def exampleExTweetLongTag : JObject :=
  .mk [] nullMembers
    { nullExMembers with
      FullText := some ⟨129, ⟨some (35 :: List.replicate 128 97)⟩,
        [⟨List.replicate 128 97, 0⟩], STR_makeEmpty⟩,
      DisplayRange := some ⟨0, 129⟩,
      Entities := some (.mk [] nullMembers
        { nullExMembers with Hashtags := some (.mk [] ⟨-1, -1⟩ [⟨lit "b", 0⟩]) }) }

/-- A hashtags array with the two elements `{"text": "world", "indices": [2, 8]}` and
`{"text": "", "indices": [5, 6]}`: both pass the three checks of `ExtractHashtags`. -/
def exampleTagArrayThenEmpty : JArray :=
  .mk (exampleTagArray.Elements ++ emptyTagArray.Elements) ⟨-1, -1⟩ []

/-- A hashtags array with the two elements `{"text": "world", "indices": [2, 8]}` and
`7`: the second element is not an object. -/
def exampleTagArrayThenInt : JArray :=
  .mk (exampleTagArray.Elements ++ [.JV_Int 7]) ⟨-1, -1⟩ []

/-- A hashtags array with the single element
`{"text": "ab", "indices": [4294967299, 4294967302]}`; 4294967299 is `2 ^ 32 + 3`. -/
def exampleTagArrayWide : JArray :=
  .mk [.JV_Object (.mk []
        { nullMembers with Text := some ⟨2, ⟨some (lit "ab")⟩, [], STR_makeEmpty⟩ }
        { nullExMembers with Indices := some ⟨4294967299, 4294967302⟩ })]
    ⟨-1, -1⟩ []

/-- An extended tweet whose `full_text` is `hi #ab` (hashtag at offset 3), whose
`display_text_range` is `[0, 6]` and whose entities hold `exampleTagArrayWide` after
`ExtractHashtags` has run on it. -/
def exampleExTweetWide : JObject :=
  .mk [] nullMembers
    { nullExMembers with
      FullText := some exampleText, DisplayRange := some ⟨0, 6⟩,
      Entities := some (.mk [] nullMembers
        { nullExMembers with
          Hashtags := some (.mk exampleTagArrayWide.Elements ⟨-1, -1⟩ [⟨lit "ab", 3⟩]) }) }

/-- A tweet object with the four required fields bound, `Truncated = true` and no
`DisplayRange`. -/
def exampleTruncatedNoRange : JObject :=
  .mk []
    { nullMembers with
      IdStr := some emptyText, Text := some exampleText, User := some Alloc_JObject,
      CreatedAt := some emptyText }
    { nullExMembers with Truncated := some 1 }

/-- The same tweet object with `DisplayRange = [0, 5]` (the text has `Length` 6) and no
`ExTweet`: conditions (3) and (4) both fail. -/
def exampleTruncatedBadRange : JObject :=
  .mk []
    { nullMembers with
      IdStr := some emptyText, Text := some exampleText, User := some Alloc_JObject,
      CreatedAt := some emptyText }
    { nullExMembers with Truncated := some 1, DisplayRange := some ⟨0, 5⟩ }

/-- The decoded string of the literal `\u0000!`: the bytes `00 21`, `Length` 2. -/
def exampleTextNul : JString := ⟨2, ⟨some [0, 33]⟩, [], STR_makeEmpty⟩

/-- A hashtags array with the single element `{"text": "\u0000!", "indices": [1, 4]}`. -/
def exampleTagArrayNul : JArray :=
  .mk [.JV_Object (.mk []
        { nullMembers with Text := some exampleTextNul }
        { nullExMembers with Indices := some ⟨1, 4⟩ })]
    ⟨-1, -1⟩ []

/-- The decoded string of the literal `0123456789`: `Length` 10 and no hashtag, so that
nothing was ever added to its `Hashtags` vector. -/
def examplePlainText : JString := ⟨10, ⟨some (lit "0123456789")⟩, [], STR_makeEmpty⟩

/-- An extended tweet whose `full_text` is `0123456789`, whose `display_text_range` is
`[0, 10]` and that has no `entities`. -/
def exampleExTweetPlain : JObject :=
  .mk [] nullMembers
    { nullExMembers with FullText := some examplePlainText, DisplayRange := some ⟨0, 10⟩ }

/-- An extended tweet whose `full_text` is `hi #ab`, whose `display_text_range` is
`[0, 6]` and whose entities hold a `hashtags` array without elements, as `Alloc_JArray`
returns it. -/
def exampleExTweetNoMarkers : JObject :=
  .mk [] nullMembers
    { nullExMembers with
      FullText := some exampleText, DisplayRange := some ⟨0, 6⟩,
      Entities := some (.mk [] nullMembers { nullExMembers with Hashtags := some Alloc_JArray }) }

/-! ## Theorems -/

theorem STR_append_empty (text : List Nat) :
    STR_append STR_makeEmpty (some text) = .ok ⟨some (cstr text)⟩ := by
  simp [STR_append, STR_makeEmpty, Str_c.len, Str_c.bytes]

theorem failWith_ne_true (fm : Str_c) (text : List Nat) (m : Str_c) :
    failWith fm text ≠ .ok (true, m) := by
  unfold failWith
  cases STR_append fm (some text) <;> simp

theorem failWith_empty (text : List Nat) :
    failWith STR_makeEmpty text = .ok (false, ⟨some (cstr text)⟩) := by
  simp [failWith, STR_append_empty]

theorem found_iff (Outer : HashTagData) (L : List HashTagData) :
    FormsValidExtendedTweetObj.found Outer L = true ↔
      ∃ e ∈ L, Outer.Begin = e.Begin ∧ cstr Outer.Tag = cstr e.Tag := by
  induction L with
  | nil => simp [FormsValidExtendedTweetObj.found]
  | cons other rest ih =>
    unfold FormsValidExtendedTweetObj.found
    by_cases h : Outer.Begin = other.Begin ∧ cstr Outer.Tag = cstr other.Tag
    · simp [h]
    · simp only [h, if_false, ih, List.mem_cons]
      constructor
      · rintro ⟨e, he, h2⟩
        exact ⟨e, Or.inr he, h2⟩
      · rintro ⟨e, he | he, h2⟩
        · subst he
          exact absurd h2 h
        · exact ⟨e, he, h2⟩

theorem check_true_iff (T L : List HashTagData) (fm : Str_c) :
    (∃ m, FormsValidExtendedTweetObj.check T L fm = .ok (true, m)) ↔
      ∀ t ∈ T, FormsValidExtendedTweetObj.found t L = true := by
  induction T with
  | nil => simp [FormsValidExtendedTweetObj.check]
  | cons Outer rest ih =>
    unfold FormsValidExtendedTweetObj.check
    by_cases h : FormsValidExtendedTweetObj.found Outer L = true
    · simp [h, ih]
    · simp only [h, if_false, List.mem_cons, forall_eq_or_imp, false_and, iff_false,
        Bool.false_eq_true, not_exists]
      intro m
      cases sprintf200 _ with
      | error e => simp
      | ok a => exact failWith_ne_true _ _ _

theorem Vec_size_cons {α : Type} (x : α) (l : List α) :
    Vec_size (x :: l) = .ok (l.length + 1) := rfl

theorem Vec_size_of_ne_nil {α : Type} {v : List α} (h : v ≠ []) :
    Vec_size v = .ok v.length := by
  cases v with
  | nil => exact absurd rfl h
  | cons x l => rfl

/-- When `FormsValidExtendedTweetObj` returns true: `FullText` and `DisplayRange` are
bound, the range is `[0, FullText.Length]`, the text has a marker (so that both sizes
read have been written), the entities list has as many markers as the text, and every
marker of the text has a match in the entities list. -/
theorem FormsValidExtendedTweetObj_iff_aux (o : JObject) (fm : Str_c)
    (hE : ∀ e, o.ExMembers.Entities = some e → e.ExMembers.Hashtags ≠ none) :
    ((∃ m, FormsValidExtendedTweetObj o fm = .ok (true, m)) ↔
      ∃ ft dr, o.ExMembers.FullText = some ft ∧ o.ExMembers.DisplayRange = some dr ∧
        dr.Begin = 0 ∧ dr.End = (ft.Length : Int) ∧ ft.Hashtags ≠ [] ∧
        (entityHashtags o).length = ft.Hashtags.length ∧
        ∀ t ∈ ft.Hashtags, ∃ e ∈ entityHashtags o,
          t.Begin = e.Begin ∧ cstr t.Tag = cstr e.Tag) := by
  obtain ⟨ml, mem, ⟨ex, tr, dr, en, ht, ind, ft⟩⟩ := o
  simp only [JObject.ExMembers] at hE
  rcases ft with _ | ft
  · simp [FormsValidExtendedTweetObj, JObject.ExMembers, failWith_ne_true]
  rcases dr with _ | dr
  · simp [FormsValidExtendedTweetObj, JObject.ExMembers, failWith_ne_true]
  obtain ⟨Length, Text, T, RetweetUser⟩ := ft
  simp only [FormsValidExtendedTweetObj, JObject.ExMembers]
  by_cases hr : dr.Begin ≠ 0 ∨ dr.End ≠ (Length : Int)
  · simp only [hr, if_true]
    constructor
    · rintro ⟨m, hm⟩
      cases hs : sprintf200 _ with
      | error e => rw [hs] at hm; simp at hm
      | ok a => rw [hs] at hm; exact absurd hm (failWith_ne_true _ _ _)
    · rintro ⟨ft2, dr2, h1, h2, h3, h4, -⟩
      simp at h1 h2
      subst h1 h2
      rcases hr with h | h
      · exact absurd h3 h
      · exact absurd h4 h
  · have hr2 : dr.Begin = 0 ∧ dr.End = (Length : Int) := by
      constructor
      · by_contra h; exact hr (Or.inl h)
      · by_contra h; exact hr (Or.inr h)
    simp only [hr, if_false]
    rcases en with _ | en
    · simp only [entityHashtags, JObject.ExMembers]
      rcases T with _ | ⟨t0, T⟩
      · constructor
        · rintro ⟨m, hm⟩
          simp [Vec_size] at hm
        · rintro ⟨ft2, dr2, h1, -, -, -, hne, -⟩
          simp only [Option.some.injEq] at h1
          subst h1
          exact absurd rfl hne
      · simp only [Vec_size_cons]
        have hn : (0 : Nat) ≠ T.length + 1 := by omega
        simp only [ne_eq, hn, not_false_eq_true, if_true]
        constructor
        · rintro ⟨m, hm⟩
          exact absurd hm (failWith_ne_true _ _ _)
        · rintro ⟨ft2, dr2, h1, -, -, -, -, hlen, -⟩
          simp only [Option.some.injEq] at h1
          subst h1
          simp at hlen
    · obtain ⟨eml, emem, ⟨eex, etr, edr, een, eht, eind, eft⟩⟩ := en
      have := hE _ rfl
      simp only [JObject.ExMembers] at this
      rcases eht with _ | a
      · exact absurd rfl this
      obtain ⟨els, rng, A⟩ := a
      simp only [entityHashtags, EntitiesTags, JObject.ExMembers, JArray.Hashtags]
      rcases A with _ | ⟨e0, A⟩
      · constructor
        · rintro ⟨m, hm⟩
          simp [Vec_size] at hm
        · rintro ⟨ft2, dr2, h1, -, -, -, hne, hlen, -⟩
          simp only [Option.some.injEq] at h1
          subst h1
          simp only [List.length_nil] at hlen
          exact absurd (List.length_eq_zero.mp hlen.symm) hne
      · simp only [Vec_size_cons]
        rcases T with _ | ⟨t0, T⟩
        · constructor
          · rintro ⟨m, hm⟩
            simp [Vec_size] at hm
          · rintro ⟨ft2, dr2, h1, -, -, -, hne, -⟩
            simp only [Option.some.injEq] at h1
            subst h1
            exact absurd rfl hne
        · simp only [Vec_size_cons]
          by_cases hn : A.length + 1 = T.length + 1
          · have h0 : ¬ (A.length + 1 = 0) := by omega
            simp only [ne_eq, hn, not_true_eq_false, if_false]
            rw [← hn]
            simp only [h0, if_false]
            rw [check_true_iff]
            simp only [found_iff]
            constructor
            · intro h
              exact ⟨_, dr, rfl, rfl, hr2.1, hr2.2, by simp, by simpa using hn, h⟩
            · rintro ⟨ft2, dr2, h1, h2, h3, h4, h5, h6, h7⟩
              simp only [Option.some.injEq] at h1
              subst h1
              exact h7
          · simp only [ne_eq, hn, not_false_eq_true, if_true]
            constructor
            · rintro ⟨m, hm⟩
              exact absurd hm (failWith_ne_true _ _ _)
            · rintro ⟨ft2, dr2, h1, -, -, -, -, hlen, -⟩
              simp only [Option.some.injEq] at h1
              subst h1
              simp only [List.length_cons] at hlen
              exact absurd hlen hn

/-! ### The string decoder -/

theorem isTagByte_ne_zero {b : Nat} (h : isTagByte b = true) : b ≠ 0 := by
  rintro rfl
  simp [isTagByte] at h

theorem isTagByte_lt {b : Nat} (h : isTagByte b = true) : b < 0x80 := by
  simp only [isTagByte, Bool.or_eq_true, Bool.and_eq_true, decide_eq_true_eq, beq_iff_eq] at h
  omega

theorem cstr_eq_self {t : List Nat} (h : ∀ b ∈ t, b ≠ 0) : cstr t = t := by
  unfold cstr
  rw [List.takeWhile_eq_self_iff]
  intro b hb
  simpa using h b hb

theorem STR_addChar_bytes (str : Str_c) (c : Nat) :
    (STR_addChar str c).bytes = str.bytes ++ [c] := rfl

theorem STR_addChar_len (str : Str_c) (c : Nat) :
    (STR_addChar str c).len = str.len + 1 := by
  simp [Str_c.len, STR_addChar_bytes]

theorem readHashtag_bytes (l : List Nat) (tag : Str_c) :
    (readHashtag l tag).bytes = tag.bytes ++ l.takeWhile isTagByte := by
  induction l generalizing tag with
  | nil => simp [readHashtag]
  | cons b rest ih =>
    unfold readHashtag
    by_cases h : isTagByte b = true
    · simp [h, ih, STR_addChar_bytes, List.takeWhile_cons]
    · simp [h, List.takeWhile_cons]

theorem readHashtag_ptr (l : List Nat) (tag : Str_c) :
    (readHashtag l tag).ptr =
      if l.takeWhile isTagByte = [] then tag.ptr
      else some (tag.bytes ++ l.takeWhile isTagByte) := by
  induction l generalizing tag with
  | nil => simp [readHashtag]
  | cons b rest ih =>
    unfold readHashtag
    by_cases h : isTagByte b = true
    · simp only [h, if_true, ih, List.takeWhile_cons, STR_addChar_bytes]
      by_cases h2 : List.takeWhile isTagByte rest = []
      · simp [h2, STR_addChar]
      · simp [h2]
    · simp [h, List.takeWhile_cons]

theorem STR_appendAsUtf8_len_ge (str : Str_c) (u : Int) :
    str.len + 1 ≤ (STR_appendAsUtf8 str u).len := by
  unfold STR_appendAsUtf8
  split_ifs <;> simp [STR_addChar_len]

theorem takeWhile_isTagByte_ne_zero (l : List Nat) :
    ∀ b ∈ l.takeWhile isTagByte, b ≠ 0 := by
  intro b hb
  exact isTagByte_ne_zero (List.mem_takeWhile_imp hb)

theorem readHashtag_len (l : List Nat) :
    (readHashtag l STR_makeEmpty).len = (l.takeWhile isTagByte).length := by
  rw [Str_c.len, readHashtag_bytes]
  simp [STR_makeEmpty, Str_c.bytes]

theorem readHashtag_empty_bytes (l : List Nat) :
    (readHashtag l STR_makeEmpty).bytes = l.takeWhile isTagByte := by
  rw [readHashtag_bytes]
  simp [STR_makeEmpty, Str_c.bytes]

/-- What `STR_addChar(&s->Text, '#'); STR_append(&s->Text, hashtag.Tag.ptr);` does. -/
theorem STR_append_hashtag (Text : Str_c) (l : List Nat) :
    STR_append (STR_addChar Text 35) (readHashtag l STR_makeEmpty).ptr =
      if l.takeWhile isTagByte = [] then .error .nullDeref
      else if 0 ∈ Text.bytes then .error .indeterminate
      else .ok ⟨some (Text.bytes ++ 35 :: l.takeWhile isTagByte)⟩ := by
  rw [readHashtag_ptr]
  by_cases h : l.takeWhile isTagByte = []
  · simp [h, STR_makeEmpty, STR_append]
  · have hc : cstr (l.takeWhile isTagByte) = l.takeWhile isTagByte :=
      cstr_eq_self (takeWhile_isTagByte_ne_zero l)
    have hb : (STR_makeEmpty).bytes = [] := rfl
    simp only [h, if_false, STR_append, STR_addChar_len, STR_addChar_bytes, hc, hb,
      List.nil_append]
    by_cases h0 : 0 ∈ Text.bytes
    · simp [h0, h]
    · simp [h0, h]

/-- The effect of one pass of the loop body, by the branch taken. -/
theorem Alloc_JString.body_cases {source : List Nat} {i j : Nat} {s s1 : JString}
    (h : Alloc_JString.body source i s = .ok (j, s1)) :
    i ≤ j ∧
    ((∃ c, (c ∈ source ∨ c ∈ [0, 10, 43, 33, 32, 44, 38]) ∧ s1 = s.addChar c) ∨
     (byteAt source i = 92 ∧ byteAt source (i + 1) = 117 ∧
        s1 = { s with Text := STR_appendAsUtf8 s.Text (strtol16 (source.drop (i + 2))),
                      Length := s.Length + 1 }) ∨
     (∃ t, t = (source.drop (i + 1)).takeWhile isTagByte ∧ t ≠ [] ∧ 0 ∉ s.Text.bytes ∧
        s1 = { s with Hashtags := s.Hashtags ++ [⟨t, s.Length⟩],
                      Text := ⟨some (s.Text.bytes ++ 35 :: t)⟩,
                      Length := s.Length + (t.length + 1) })) := by
  have hmem : ∀ k, byteAt source k ∈ source ∨ byteAt source k ∈ [0, 10, 43, 33, 32, 44, 38] := by
    intro k
    unfold byteAt
    by_cases hk : k < source.length
    · left
      rw [List.getD_eq_getElem _ _ hk]
      exact List.getElem_mem _
    · right
      rw [List.getD_eq_default _ _ (by omega)]
      simp
  unfold Alloc_JString.body at h
  simp only [STR_append_hashtag, readHashtag_len, readHashtag_empty_bytes] at h
  split_ifs at h with h1 h2 h3 h4 h5 h6 h7 h8 h9 h10 h11 h12 h13 h14
  all_goals first
    | (simp only [Except.ok.injEq, Prod.mk.injEq] at h
       obtain ⟨rfl, rfl⟩ := h
       refine ⟨by first | exact Nat.le_add_right _ _ | exact le_refl _, ?_⟩
       first
         | exact Or.inr (Or.inl ⟨h1, h3, rfl⟩)
         | exact Or.inl ⟨_, hmem _, rfl⟩
         | exact Or.inl ⟨_, Or.inr (by simp), rfl⟩)
    | skip
  · simp only [Except.ok.injEq, Prod.mk.injEq] at h
    obtain ⟨rfl, rfl⟩ := h
    exact ⟨Nat.le_add_right _ _, Or.inr (Or.inr ⟨_, rfl, h12, h13, rfl⟩)⟩
  · exact absurd (List.length_pos.mpr h12) h14

/-- A property of the decoder state that every pass of the body keeps holds for what
the loop returns. -/
theorem Alloc_JString.loop_induct (source : List Nat) (P : JString → Prop)
    (hstep : ∀ i j s s1, P s → Alloc_JString.body source i s = .ok (j, s1) → P s1) :
    ∀ fuel i s s2, P s → Alloc_JString.loop source fuel i s = .ok s2 → P s2 := by
  intro fuel
  induction fuel with
  | zero =>
    intro i s s2 hP h
    simp only [Alloc_JString.loop, Except.ok.injEq] at h
    exact h ▸ hP
  | succ n ih =>
    intro i s s2 hP h
    unfold Alloc_JString.loop at h
    split_ifs at h with hi
    · cases hb : Alloc_JString.body source i s with
      | error e => rw [hb] at h; simp at h
      | ok r =>
        obtain ⟨j, s1⟩ := r
        rw [hb] at h
        exact ih (j + 1) s1 s2 (hstep i j s s1 hP hb) h
    · simp only [Except.ok.injEq] at h
      exact h ▸ hP

/-- The loop does not depend on the fuel once there is enough of it. -/
theorem Alloc_JString.loop_fuel (source : List Nat) :
    ∀ fuel1 fuel2 i s, source.length ≤ i + fuel1 → source.length ≤ i + fuel2 →
      Alloc_JString.loop source fuel1 i s = Alloc_JString.loop source fuel2 i s := by
  intro fuel1
  induction fuel1 with
  | zero =>
    intro fuel2 i s h1 h2
    cases fuel2 with
    | zero => rfl
    | succ m =>
      have : ¬ i < source.length := by omega
      simp [Alloc_JString.loop, this]
  | succ n ih =>
    intro fuel2 i s h1 h2
    cases fuel2 with
    | zero =>
      have : ¬ i < source.length := by omega
      simp [Alloc_JString.loop, this]
    | succ m =>
      unfold Alloc_JString.loop
      split_ifs with hi
      · cases hb : Alloc_JString.body source i s with
        | error e => rfl
        | ok r =>
          obtain ⟨j, s1⟩ := r
          have hj := (Alloc_JString.body_cases hb).1
          exact ih m (j + 1) s1 (by omega) (by omega)
      · rfl

/-- What `Alloc_JString` returns is what the loop returns, up to `RetweetUser`. -/
theorem Alloc_JString_eq_loop {source : List Nat} {js : JString}
    (h : Alloc_JString source = .ok js) :
    ∃ s, Alloc_JString.loop source source.length 0 ⟨0, STR_makeEmpty, [], STR_makeEmpty⟩ = .ok s ∧
      js.Length = s.Length ∧ js.Text = s.Text ∧ js.Hashtags = s.Hashtags := by
  unfold Alloc_JString at h
  cases hl : Alloc_JString.loop source source.length 0 ⟨0, STR_makeEmpty, [], STR_makeEmpty⟩ with
  | error e => rw [hl] at h; simp at h
  | ok s =>
    rw [hl] at h
    refine ⟨s, rfl, ?_⟩
    split_ifs at h <;> simp only [Except.ok.injEq] at h <;> subst h <;> simp

theorem Alloc_JString.body_length_le {source : List Nat} {i j : Nat} {s s1 : JString}
    (hP : s.Length ≤ s.Text.len) (h : Alloc_JString.body source i s = .ok (j, s1)) :
    s1.Length ≤ s1.Text.len := by
  rcases (Alloc_JString.body_cases h).2 with ⟨c, -, rfl⟩ | ⟨-, -, rfl⟩ | ⟨t, -, -, -, rfl⟩
  · simp only [JString.addChar, STR_addChar_len]
    omega
  · have := STR_appendAsUtf8_len_ge s.Text (strtol16 (source.drop (i + 2)))
    simp only
    omega
  · simp only [Str_c.len, Str_c.bytes, Option.getD_some, List.length_append, List.length_cons]
    simp only [Str_c.len, Str_c.bytes] at hP
    omega

theorem Alloc_JString.length_le_of_ok (source : List Nat) (js : JString)
    (h : Alloc_JString source = .ok js) : js.Length ≤ js.Text.len := by
  obtain ⟨s, hl, h1, h2, -⟩ := Alloc_JString_eq_loop h
  rw [h1, h2]
  refine Alloc_JString.loop_induct source (fun s => s.Length ≤ s.Text.len) ?_ _ _ _ _ ?_ hl
  · intro i j s s1 hP hb
    exact Alloc_JString.body_length_le hP hb
  · simp [STR_makeEmpty, Str_c.len, Str_c.bytes]

theorem byteAt_mem_or_zero (source : List Nat) (k : Nat) :
    byteAt source k ∈ source ∨ byteAt source k = 0 := by
  unfold byteAt
  by_cases hk : k < source.length
  · left
    rw [List.getD_eq_getElem _ _ hk]
    exact List.getElem_mem _
  · right
    rw [List.getD_eq_default _ _ (by omega)]

/-- Without a `#` at the index the body cannot fault. -/
theorem Alloc_JString.body_ok_of_ne_hash (source : List Nat) (i : Nat) (s : JString)
    (h : byteAt source i ≠ 35) : ∃ r, Alloc_JString.body source i s = .ok r := by
  unfold Alloc_JString.body
  simp only [h, if_false]
  split_ifs <;> exact ⟨_, rfl⟩

theorem Alloc_JString.loop_ok_of_no_hash (source : List Nat) (hs : 35 ∉ source) :
    ∀ fuel i s, ∃ s2, Alloc_JString.loop source fuel i s = .ok s2 := by
  intro fuel
  induction fuel with
  | zero => intro i s; exact ⟨s, rfl⟩
  | succ n ih =>
    intro i s
    unfold Alloc_JString.loop
    split_ifs with hi
    · have hne : byteAt source i ≠ 35 := by
        rcases byteAt_mem_or_zero source i with hm | h0
        · intro h35
          exact hs (h35 ▸ hm)
        · omega
      obtain ⟨⟨j, s1⟩, hb⟩ := Alloc_JString.body_ok_of_ne_hash source i s hne
      rw [hb]
      exact ih (j + 1) s1
    · exact ⟨s, rfl⟩

theorem Alloc_JString_ok_of_no_hash (source : List Nat) (hs : 35 ∉ source) :
    ∃ js, Alloc_JString source = .ok js := by
  unfold Alloc_JString
  obtain ⟨s2, h2⟩ := Alloc_JString.loop_ok_of_no_hash source hs source.length 0
    ⟨0, STR_makeEmpty, [], STR_makeEmpty⟩
  rw [h2]
  split_ifs <;> exact ⟨_, rfl⟩

theorem hexDigitVal_some {d h : Nat} (e : hexDigitVal d = some h) :
    isspace d = false ∧ d ≠ 45 ∧ d ≠ 43 ∧ d ≠ 120 ∧ d ≠ 88 ∧ d ≠ 0 ∧ h < 16 := by
  unfold hexDigitVal at e
  split_ifs at e with a b c <;> simp only [Option.some.injEq] at e <;>
    simp [isspace] <;> omega

theorem strtol16_hex_head {d h : Nat} (e : hexDigitVal d = some h) (rest : List Nat) :
    strtol16 (d :: rest) =
      if strtolDigits (strtolSkip0x (d :: rest)) 0 > 2 ^ 63 - 1 then 2 ^ 63 - 1
      else ((strtolDigits (strtolSkip0x (d :: rest)) 0 : Nat) : Int) := by
  obtain ⟨a1, a2, a3, -, -, -, -⟩ := hexDigitVal_some e
  unfold strtol16
  simp [List.dropWhile_cons, a1, a2, a3]

theorem strtol16_hex_head_nonneg {d h : Nat} (e : hexDigitVal d = some h) (rest : List Nat) :
    0 ≤ strtol16 (d :: rest) := by
  rw [strtol16_hex_head e]
  split_ifs
  · norm_num
  · exact Int.natCast_nonneg _

theorem strtol16_hex4 {d1 d2 d3 d4 h1 h2 h3 h4 : Nat}
    (e1 : hexDigitVal d1 = some h1) (e2 : hexDigitVal d2 = some h2)
    (e3 : hexDigitVal d3 = some h3) (e4 : hexDigitVal d4 = some h4) :
    strtol16 [d1, d2, d3, d4] = ((((h1 * 16 + h2) * 16 + h3) * 16 + h4 : Nat) : Int) := by
  obtain ⟨-, -, -, -, -, -, b1⟩ := hexDigitVal_some e1
  obtain ⟨-, -, -, a4, a5, -, b2⟩ := hexDigitVal_some e2
  obtain ⟨-, -, -, -, -, -, b3⟩ := hexDigitVal_some e3
  obtain ⟨-, -, -, -, -, -, b4⟩ := hexDigitVal_some e4
  have hp3 : strtolSkip0x [d1, d2, d3, d4] = [d1, d2, d3, d4] := by
    unfold strtolSkip0x
    split
    · rename_i x rest heq
      simp only [List.cons.injEq] at heq
      obtain ⟨rfl, rfl, rfl⟩ := heq
      simp [a4, a5]
    · rfl
  have hv : strtolDigits [d1, d2, d3, d4] 0 = ((h1 * 16 + h2) * 16 + h3) * 16 + h4 := by
    simp [strtolDigits, e1, e2, e3, e4]
  rw [strtol16_hex_head e1, hp3, hv]
  have : ¬ ((h1 * 16 + h2) * 16 + h3) * 16 + h4 > 2 ^ 63 - 1 := by omega
  simp only [this, if_false]

theorem STR_makeEmpty_bytes : STR_makeEmpty.bytes = [] := rfl

theorem Alloc_JString.loop_succ (source : List Nat) (fuel i : Nat) (s : JString) :
    Alloc_JString.loop source (fuel + 1) i s =
      if i < source.length then
        match Alloc_JString.body source i s with
        | .error e => .error e
        | .ok (j, s1) => Alloc_JString.loop source fuel (j + 1) s1
      else .ok s := rfl

theorem byteAt_ne_zero_lt {source : List Nat} {i : Nat} (h : byteAt source i ≠ 0) :
    i < source.length := by
  by_contra hlt
  apply h
  unfold byteAt
  rw [List.getD_eq_default _ _ (by omega)]

theorem STR_appendAsUtf8_empty_len (c : Nat) :
    (STR_appendAsUtf8 STR_makeEmpty (c : Int)).len =
      if c < 0x80 then 1 else if c < 0x800 then 2 else 3 := by
  unfold STR_appendAsUtf8
  have e1 : ((c : Int) < 0x80) ↔ c < 0x80 := by omega
  have e2 : ((c : Int) < 0x800) ↔ c < 0x800 := by omega
  simp only [e1, e2]
  split_ifs <;> simp [Str_c.len, STR_addChar_bytes, STR_makeEmpty_bytes]

theorem Alloc_JString_u4 {d1 d2 d3 d4 h1 h2 h3 h4 : Nat}
    (e1 : hexDigitVal d1 = some h1) (e2 : hexDigitVal d2 = some h2)
    (e3 : hexDigitVal d3 = some h3) (e4 : hexDigitVal d4 = some h4) :
    Alloc_JString [92, 117, d1, d2, d3, d4] =
      .ok ⟨1, STR_appendAsUtf8 STR_makeEmpty ((((h1 * 16 + h2) * 16 + h3) * 16 + h4 : Nat) : Int),
        [], STR_makeEmpty⟩ := by
  have hs := strtol16_hex4 e1 e2 e3 e4
  simp [Alloc_JString, Alloc_JString.loop, Alloc_JString.body, byteAt, hs]

theorem Alloc_JString.loop_escape (source : List Nat) (fuel i : Nat) (s : JString)
    (hc : byteAt source i = 92) (hn : byteAt source (i + 1) ≠ 117) :
    Alloc_JString.loop source (fuel + 1) i s =
      Alloc_JString.loop source fuel (i + 2)
        { s with Text := ⟨some (s.Text.bytes ++
                    [if byteAt source (i + 1) = 110 then 10 else byteAt source (i + 1)])⟩,
                 Length := s.Length + 1 } := by
  have hi : i < source.length := byteAt_ne_zero_lt (by omega)
  rw [Alloc_JString.loop_succ]
  unfold Alloc_JString.body
  by_cases h110 : byteAt source (i + 1) = 110
  · simp [hi, hc, h110, JString.addChar, STR_addChar]
  · simp [hi, hc, h110, hn, JString.addChar, STR_addChar]

theorem Alloc_JString.loop_percent_code (source : List Nat) (fuel i : Nat) (s : JString)
    (d c : Nat) (hc : byteAt source i = 37) (h2 : byteAt source (i + 1) = 50)
    (hd : byteAt source (i + 2) = d)
    (hdc : (d, c) ∈ [(48, 32), (49, 33), (66, 43), (67, 44), (54, 38)]) :
    Alloc_JString.loop source (fuel + 1) i s =
      Alloc_JString.loop source fuel (i + 3)
        { s with Text := ⟨some (s.Text.bytes ++ [c])⟩, Length := s.Length + 1 } := by
  have hi : i < source.length := byteAt_ne_zero_lt (by omega)
  rw [Alloc_JString.loop_succ]
  unfold Alloc_JString.body
  simp only [List.mem_cons, Prod.mk.injEq, List.mem_singleton, List.not_mem_nil, or_false] at hdc
  rcases hdc with ⟨rfl, rfl⟩ | ⟨rfl, rfl⟩ | ⟨rfl, rfl⟩ | ⟨rfl, rfl⟩ | ⟨rfl, rfl⟩ <;>
    simp [hi, hc, h2, hd, JString.addChar, STR_addChar]

theorem Alloc_JString.loop_percent_literal (source : List Nat) (fuel i : Nat) (s : JString)
    (hc : byteAt source i = 37)
    (hno : ¬ (byteAt source (i + 1) = 50 ∧ byteAt source (i + 2) ∈ [48, 49, 66, 67, 54])) :
    Alloc_JString.loop source (fuel + 1) i s =
      Alloc_JString.loop source fuel (i + 1)
        { s with Text := ⟨some (s.Text.bytes ++ [37])⟩, Length := s.Length + 1 } := by
  have hi : i < source.length := byteAt_ne_zero_lt (by omega)
  rw [Alloc_JString.loop_succ]
  unfold Alloc_JString.body
  by_cases h2 : byteAt source (i + 1) = 50
  · have hd : byteAt source (i + 2) ∉ [48, 49, 66, 67, 54] := fun h => hno ⟨h2, h⟩
    simp only [List.mem_cons, List.mem_singleton, List.not_mem_nil, or_false, not_or] at hd
    obtain ⟨d1, d2, d3, d4, d5⟩ := hd
    simp [hi, hc, h2, d1, d2, d3, d4, d5, JString.addChar, STR_addChar]
  · simp [hi, hc, h2, JString.addChar, STR_addChar]

/-- The hashtag branch when the text so far holds no NUL byte. -/
theorem Alloc_JString.loop_hashtag (source : List Nat) (fuel i : Nat) (s : JString)
    (t : List Nat) (hc : byteAt source i = 35)
    (ht : t = (source.drop (i + 1)).takeWhile isTagByte) (hne : t ≠ [])
    (h0 : 0 ∉ s.Text.bytes) :
    Alloc_JString.loop source (fuel + 1) i s =
      Alloc_JString.loop source fuel (i + t.length + 1)
        { s with Hashtags := s.Hashtags ++ [⟨t, s.Length⟩],
                 Text := ⟨some (s.Text.bytes ++ 35 :: t)⟩,
                 Length := s.Length + (t.length + 1) } := by
  have hi : i < source.length := byteAt_ne_zero_lt (by omega)
  subst ht
  rw [Alloc_JString.loop_succ]
  unfold Alloc_JString.body
  simp only [STR_append_hashtag, readHashtag_len, readHashtag_empty_bytes]
  simp [hi, hc, hne, h0, List.length_pos, Vec_add]

/-- With a NUL byte in the text so far, the hashtag branch leaves the end of the text
unwritten. -/
theorem Alloc_JString.loop_hashtag_nul (source : List Nat) (fuel i : Nat) (s : JString)
    (hc : byteAt source i = 35)
    (hne : (source.drop (i + 1)).takeWhile isTagByte ≠ [])
    (h0 : 0 ∈ s.Text.bytes) :
    Alloc_JString.loop source (fuel + 1) i s = .error .indeterminate := by
  have hi : i < source.length := byteAt_ne_zero_lt (by omega)
  rw [Alloc_JString.loop_succ]
  unfold Alloc_JString.body
  simp only [STR_append_hashtag, readHashtag_len, readHashtag_empty_bytes]
  simp [hi, hc, hne, h0]

theorem asciiWhenEqual_addChar {s : JString} {c : Nat} (hP : asciiWhenEqual s) (hc : c < 0x80) :
    asciiWhenEqual (s.addChar c) := by
  obtain ⟨h1, h2⟩ := hP
  refine ⟨?_, ?_⟩
  · simp only [JString.addChar, STR_addChar_len]
    omega
  · simp only [JString.addChar, STR_addChar_len, STR_addChar_bytes, List.mem_append,
      List.mem_singleton]
    intro he b hb
    rcases hb with hb | rfl
    · exact h2 (by omega) b hb
    · exact hc

theorem asciiWhenEqual_utf8 {s : JString} {u : Int} (hP : asciiWhenEqual s) (hu : 0 ≤ u) :
    asciiWhenEqual { s with Text := STR_appendAsUtf8 s.Text u, Length := s.Length + 1 } := by
  obtain ⟨h1, h2⟩ := hP
  unfold STR_appendAsUtf8
  split_ifs with a b
  · have := asciiWhenEqual_addChar (c := (u % 256).toNat) ⟨h1, h2⟩ (by omega)
    exact this
  · refine ⟨?_, ?_⟩ <;> simp only [STR_addChar_len] <;> omega
  · refine ⟨?_, ?_⟩ <;> simp only [STR_addChar_len] <;> omega


theorem drop_eq_byteAt_cons {source : List Nat} {k : Nat} (h : byteAt source k ≠ 0) :
    source.drop k = byteAt source k :: source.drop (k + 1) := by
  have hk : k < source.length := byteAt_ne_zero_lt h
  unfold byteAt
  rw [List.getD_eq_getElem _ _ hk]
  exact List.drop_eq_getElem_cons hk

theorem Alloc_JString.body_asciiWhenEqual {source : List Nat}
    (hascii : ∀ b ∈ source, b < 0x80)
    (hhex : ∀ i, byteAt source i = 92 → byteAt source (i + 1) = 117 →
      hexDigitVal (byteAt source (i + 2)) ≠ none)
    {i j : Nat} {s s1 : JString} (hP : asciiWhenEqual s)
    (h : Alloc_JString.body source i s = .ok (j, s1)) : asciiWhenEqual s1 := by
  rcases (Alloc_JString.body_cases h).2 with
    ⟨c, hc, rfl⟩ | ⟨h92, h117, rfl⟩ | ⟨t, ht, -, -, rfl⟩
  · refine asciiWhenEqual_addChar hP ?_
    rcases hc with hc | hc
    · exact hascii c hc
    · simp only [List.mem_cons, List.mem_singleton, List.not_mem_nil, or_false] at hc
      omega
  · refine asciiWhenEqual_utf8 hP ?_
    have hd := hhex i h92 h117
    cases hv : hexDigitVal (byteAt source (i + 2)) with
    | none => exact absurd hv hd
    | some v =>
      have hne : byteAt source (i + 2) ≠ 0 := (hexDigitVal_some hv).2.2.2.2.2.1
      rw [drop_eq_byteAt_cons hne]
      exact strtol16_hex_head_nonneg hv _
  · obtain ⟨h1, h2⟩ := hP
    have htag : ∀ b ∈ t, b < 0x80 := by
      intro b hb
      rw [ht] at hb
      exact isTagByte_lt (List.mem_takeWhile_imp hb)
    refine ⟨?_, ?_⟩
    · simp only [Str_c.len, Str_c.bytes, Option.getD_some, List.length_append,
        List.length_cons]
      simp only [Str_c.len, Str_c.bytes] at h1
      omega
    · simp only [Str_c.len, Str_c.bytes, Option.getD_some, List.length_append,
        List.length_cons, List.mem_append, List.mem_cons]
      simp only [Str_c.len, Str_c.bytes] at h1 h2
      intro he b hb
      rcases hb with hb | rfl | hb
      · exact h2 (by omega) b hb
      · omega
      · exact htag b hb

theorem Alloc_JString_asciiWhenEqual (source : List Nat) (js : JString)
    (hascii : ∀ b ∈ source, b < 0x80)
    (hhex : ∀ i, byteAt source i = 92 → byteAt source (i + 1) = 117 →
      hexDigitVal (byteAt source (i + 2)) ≠ none)
    (h : Alloc_JString source = .ok js) : asciiWhenEqual js := by
  obtain ⟨s, hl, h1, h2, -⟩ := Alloc_JString_eq_loop h
  have hs : asciiWhenEqual s := by
    refine Alloc_JString.loop_induct source asciiWhenEqual ?_ _ _ _ _ ?_ hl
    · intro i j s s1 hP hb
      exact Alloc_JString.body_asciiWhenEqual hascii hhex hP hb
    · refine ⟨?_, ?_⟩ <;> simp [STR_makeEmpty, Str_c.len, Str_c.bytes]
  unfold asciiWhenEqual at hs ⊢
  rw [h1, h2]
  exact hs


theorem readRetweetUser_bytes (l : List Nat) (user : Str_c) :
    (readRetweetUser l user).bytes = user.bytes ++ l.takeWhile isRetweetByte := by
  induction l generalizing user with
  | nil => simp [readRetweetUser]
  | cons b rest ih =>
    unfold readRetweetUser
    by_cases h : isRetweetByte b = true
    · simp [h, ih, STR_addChar_bytes, List.takeWhile_cons]
    · simp [h, List.takeWhile_cons]

/-- What the code stores in `RetweetUser`: nothing unless the literal starts with `RT @`,
and then the run of bytes behind it that pass the test of the retweet loop, which leaves
out `a z A Z 0 9`. -/
theorem Alloc_JString_RetweetUser (source : List Nat) (js : JString)
    (h : Alloc_JString source = .ok js) :
    js.RetweetUser.bytes =
      if byteAt source 0 = 82 ∧ byteAt source 1 = 84 ∧ byteAt source 2 = 32 ∧
          byteAt source 3 = 64 then
        (source.drop 4).takeWhile isRetweetByte
      else [] := by
  unfold Alloc_JString at h
  cases hl : Alloc_JString.loop source source.length 0 ⟨0, STR_makeEmpty, [], STR_makeEmpty⟩ with
  | error e => rw [hl] at h; simp at h
  | ok s =>
    rw [hl] at h
    have hs : s.RetweetUser = STR_makeEmpty := by
      refine Alloc_JString.loop_induct source (fun s => s.RetweetUser = STR_makeEmpty)
        ?_ _ _ _ _ rfl hl
      intro i j s s1 hP hb
      rcases (Alloc_JString.body_cases hb).2 with
        ⟨c, -, rfl⟩ | ⟨-, -, rfl⟩ | ⟨t, -, -, -, rfl⟩ <;> exact hP
    split_ifs at h with hrt <;> simp only [Except.ok.injEq] at h <;> subst h
    · simp [hrt, readRetweetUser_bytes, hs, STR_makeEmpty_bytes]
    · simp [hrt, hs, STR_makeEmpty_bytes]

theorem or_mod_256 (z b : Nat) : (z ||| b) % 256 = (z % 256) ||| (b % 256) := by
  apply Nat.eq_of_testBit_eq
  intro i
  have h256 : (256 : Nat) = 2 ^ 8 := by norm_num
  rw [h256]
  simp only [Nat.testBit_mod_two_pow, Nat.testBit_or]
  by_cases hi : i < 8 <;> simp [hi]

theorem utf8_lead2 (x : Nat) (hx : x < 32) :
    isContinuation ((x ||| 0xC0) % 256) = false := by
  revert x
  decide

theorem utf8_cont (y : Nat) (hy : y < 64) : isContinuation ((y ||| 0x80) % 256) = true := by
  revert y
  decide

set_option maxRecDepth 100000 in
theorem utf8_lead3_aux : ∀ w < 256, isContinuation (w ||| 0xE0) = false := by
  decide

theorem utf8_lead3 (z : Nat) : isContinuation ((z ||| 0xE0) % 256) = false := by
  rw [or_mod_256]
  exact utf8_lead3_aux (z % 256) (Nat.mod_lt _ (by norm_num))

theorem codepointCount_append (a b : List Nat) :
    codepointCount (a ++ b) = codepointCount a + codepointCount b := by
  simp [codepointCount, List.filter_append]

theorem codepointCount_ascii {l : List Nat} (h : ∀ b ∈ l, b < 0x80) :
    codepointCount l = l.length := by
  unfold codepointCount
  rw [List.filter_eq_self.mpr]
  intro b hb
  have := h b hb
  simp only [isContinuation, Bool.not_eq_true', Bool.and_eq_false_imp, decide_eq_true_eq,
    decide_eq_false_iff_not]
  omega

theorem codepointCount_utf8 (str : Str_c) (u : Int) (hu : 0 ≤ u) :
    codepointCount (STR_appendAsUtf8 str u).bytes = codepointCount str.bytes + 1 := by
  unfold STR_appendAsUtf8
  split_ifs with a b
  · rw [STR_addChar_bytes, codepointCount_append,
      codepointCount_ascii (l := [(u % 256).toNat]) (by simp; omega)]
    rfl
  · have hx : u.toNat >>> 6 < 32 := by
      rw [Nat.shiftRight_eq_div_pow]
      omega
    have hy : u.toNat &&& 0x3F < 64 := Nat.and_lt_two_pow _ (by norm_num : 0x3F < 2 ^ 6)
    simp only [STR_addChar_bytes, codepointCount_append, List.append_assoc]
    simp [codepointCount, utf8_lead2 _ hx, utf8_cont _ hy]
  · have hy : u.toNat &&& 0x3F < 64 := Nat.and_lt_two_pow _ (by norm_num : 0x3F < 2 ^ 6)
    have hy2 : u.toNat >>> 6 &&& 0x3F < 64 :=
      Nat.and_lt_two_pow _ (by norm_num : 0x3F < 2 ^ 6)
    simp only [STR_addChar_bytes, codepointCount_append, List.append_assoc]
    simp [codepointCount, utf8_lead3, utf8_cont _ hy, utf8_cont _ hy2]

theorem Alloc_JString.body_codepoints {source : List Nat}
    (hascii : ∀ b ∈ source, b < 0x80)
    (hhex : ∀ i, byteAt source i = 92 → byteAt source (i + 1) = 117 →
      hexDigitVal (byteAt source (i + 2)) ≠ none)
    {i j : Nat} {s s1 : JString} (hP : codepointCount s.Text.bytes = s.Length)
    (h : Alloc_JString.body source i s = .ok (j, s1)) :
    codepointCount s1.Text.bytes = s1.Length := by
  rcases (Alloc_JString.body_cases h).2 with
    ⟨c, hc, rfl⟩ | ⟨h92, h117, rfl⟩ | ⟨t, ht, -, -, rfl⟩
  · have hlt : c < 0x80 := by
      rcases hc with hc | hc
      · exact hascii c hc
      · simp only [List.mem_cons, List.mem_singleton, List.not_mem_nil, or_false] at hc
        omega
    simp only [JString.addChar, STR_addChar_bytes, codepointCount_append, hP]
    rw [codepointCount_ascii (l := [c]) (by simpa using hlt)]
    rfl
  · have hd := hhex i h92 h117
    cases hv : hexDigitVal (byteAt source (i + 2)) with
    | none => exact absurd hv hd
    | some v =>
      have hne : byteAt source (i + 2) ≠ 0 := (hexDigitVal_some hv).2.2.2.2.2.1
      simp only
      rw [drop_eq_byteAt_cons hne, codepointCount_utf8 _ _ (strtol16_hex_head_nonneg hv _), hP]
  · have htag : ∀ b ∈ (35 :: t), b < 0x80 := by
      intro b hb
      rcases List.mem_cons.mp hb with rfl | hb
      · norm_num
      · rw [ht] at hb
        exact isTagByte_lt (List.mem_takeWhile_imp hb)
    simp only [Str_c.bytes, Option.getD_some, codepointCount_append]
    simp only [Str_c.bytes] at hP
    rw [codepointCount_ascii htag, hP]
    simp

theorem Alloc_JString_codepoints (source : List Nat) (js : JString)
    (hascii : ∀ b ∈ source, b < 0x80)
    (hhex : ∀ i, byteAt source i = 92 → byteAt source (i + 1) = 117 →
      hexDigitVal (byteAt source (i + 2)) ≠ none)
    (h : Alloc_JString source = .ok js) : codepointCount js.Text.bytes = js.Length := by
  obtain ⟨s, hl, h1, h2, -⟩ := Alloc_JString_eq_loop h
  rw [h1, h2]
  refine Alloc_JString.loop_induct source (fun s => codepointCount s.Text.bytes = s.Length)
    ?_ _ _ _ _ ?_ hl
  · intro i j s s1 hP hb
    exact Alloc_JString.body_codepoints hascii hhex hP hb
  · rfl


/-- The condition of C3 characterises the arrays `ExtractHashtags` accepts, as long as
every element's text owns a buffer (it is not the decoded empty string). -/
theorem ExtractHashtags.loop_true_iff (els : List JValue) :
    ∀ (H : List HashTagData) (E : Str_c),
    (∀ obj Text, JValue.JV_Object obj ∈ els → obj.Members.Text = some Text →
      Text.Text.ptr ≠ none ∧ Text.Length + 1 < 2 ^ 32) →
    ((∃ H2 m, ExtractHashtags.loop els H E = .ok (true, H2, m)) ↔
      ∀ v ∈ els, ∃ obj Text Indices, v = JValue.JV_Object obj ∧
        obj.Members.Text = some Text ∧ obj.ExMembers.Indices = some Indices ∧
        Indices.End - Indices.Begin = (Text.Length : Int) + 1) := by
  induction els with
  | nil =>
    intro H E _
    simp [ExtractHashtags.loop]
  | cons v rest ih =>
    intro H E hbuf
    have hrest : ∀ obj Text, JValue.JV_Object obj ∈ rest → obj.Members.Text = some Text →
        Text.Text.ptr ≠ none ∧ Text.Length + 1 < 2 ^ 32 :=
      fun obj Text hm ht => hbuf obj Text (List.mem_cons_of_mem _ hm) ht
    have hno : ∀ (x : Except Fault (Bool × List HashTagData × Str_c)),
        (∀ r, x = .ok r → r.1 = false) →
        ((∃ H2 m, x = .ok (true, H2, m)) ↔ False) := by
      intro x hx
      refine ⟨?_, False.elim⟩
      rintro ⟨H2, m, h⟩
      exact absurd (hx _ h) (by simp)
    have hfail : ∀ (text : Option (List Nat)) (r : Bool × List HashTagData × Str_c),
        (match STR_append E text with
          | .error e => (Except.error e : Except Fault (Bool × List HashTagData × Str_c))
          | .ok m => .ok (false, H, m)) = .ok r → r.1 = false := by
      intro text r h
      cases hs : STR_append E text with
      | error e => rw [hs] at h; simp at h
      | ok m =>
        rw [hs] at h
        simp only [Except.ok.injEq] at h
        rw [← h]
    simp only [List.mem_cons, forall_eq_or_imp]
    cases v with
    | JV_Object obj =>
      obtain ⟨ml, ⟨id, tx, ca, us, un, usn, ul, uid, tw⟩, ⟨ex, tr, dr, en, ht, ind, ft⟩⟩ := obj
      rcases tx with _ | Text
      · unfold ExtractHashtags.loop
        simp only [JObject.Members, JObject.ExMembers]
        rw [hno _ (hfail _)]
        simp [JObject.Members]
      rcases ind with _ | Indices
      · unfold ExtractHashtags.loop
        simp only [JObject.Members, JObject.ExMembers]
        rw [hno _ (hfail _)]
        simp [JObject.ExMembers]
      obtain ⟨hptr, hlen⟩ := hbuf _ Text (List.mem_cons_self _ _) rfl
      have hmod : (Text.Length + 1) % 2 ^ 32 = Text.Length + 1 := Nat.mod_eq_of_lt hlen
      unfold ExtractHashtags.loop
      simp only [JObject.Members, JObject.ExMembers, hmod]
      by_cases hov : Indices.End - Indices.Begin < -(2 ^ 63) ∨ 2 ^ 63 ≤ Indices.End - Indices.Begin
      · simp only [hov, if_true]
        constructor
        · rintro ⟨H2, m, h⟩
          simp at h
        · rintro ⟨⟨obj2, T2, I2, h1, h2, h3, h4⟩, -⟩
          simp only [JValue.JV_Object.injEq] at h1
          subst h1
          simp only [JObject.Members, JObject.ExMembers, Option.some.injEq] at h2 h3
          subst h2 h3
          omega
      · simp only [hov, if_false]
        by_cases hw : Indices.End - Indices.Begin = ((Text.Length + 1 : Nat) : Int)
        · simp only [hw, ne_eq, not_true_eq_false, if_false]
          cases hp : Text.Text.ptr with
          | none => exact absurd hp hptr
          | some t =>
            simp only [STR_make]
            rw [ih _ _ hrest]
            constructor
            · intro h
              refine ⟨⟨_, Text, Indices, rfl, rfl, rfl, ?_⟩, h⟩
              rw [hw]
              push_cast
              rfl
            · rintro ⟨-, h⟩
              exact h
        · simp only [ne_eq, hw, not_false_eq_true, if_true]
          rw [hno _ (hfail _)]
          simp only [false_iff, not_and]
          rintro ⟨obj2, T2, I2, h1, h2, h3, h4⟩
          simp only [JValue.JV_Object.injEq] at h1
          subst h1
          simp only [JObject.Members, JObject.ExMembers, Option.some.injEq] at h2 h3
          subst h2 h3
          exfalso
          apply hw
          rw [h4]
          push_cast
          rfl
    | _ =>
      unfold ExtractHashtags.loop
      rw [hno _ (hfail _)]
      simp

/-- The same characterisation for `ExtractHashtags` itself, on an array that holds an
element. -/
theorem ExtractHashtags_true_iff_of_buffers (a : JArray) (E : Str_c)
    (hne : a.Elements ≠ [])
    (hbuf : ∀ obj Text, JValue.JV_Object obj ∈ a.Elements → obj.Members.Text = some Text →
      Text.Text.ptr ≠ none ∧ Text.Length + 1 < 2 ^ 32) :
    (∃ a2 m, ExtractHashtags a E = .ok (true, a2, m)) ↔
      ∀ v ∈ a.Elements, ∃ obj Text Indices, v = JValue.JV_Object obj ∧
        obj.Members.Text = some Text ∧ obj.ExMembers.Indices = some Indices ∧
        Indices.End - Indices.Begin = (Text.Length : Int) + 1 := by
  rw [← ExtractHashtags.loop_true_iff a.Elements a.Hashtags E hbuf]
  unfold ExtractHashtags
  rw [Vec_size_of_ne_nil hne]
  simp only
  cases hl : ExtractHashtags.loop a.Elements a.Hashtags E with
  | error e => simp
  | ok r =>
    obtain ⟨b, H, m⟩ := r
    constructor
    · rintro ⟨a2, m2, h⟩
      simp only [Except.ok.injEq, Prod.mk.injEq] at h
      obtain ⟨rfl, -, rfl⟩ := h
      exact ⟨H, m, rfl⟩
    · rintro ⟨H2, m2, h⟩
      simp only [Except.ok.injEq, Prod.mk.injEq] at h
      obtain ⟨rfl, rfl, rfl⟩ := h
      exact ⟨_, _, rfl⟩

/-- The examples of the specification.  For the array without elements, as `Alloc_JArray`
returns it, the loop condition reads the `size` that no statement has written; the loop
itself makes no pass on no elements.  The element with a five-byte text and indices
`[2, 8]` is accepted and the marker `world` at 2 is extracted. -/
theorem ExtractHashtags_examples :
    ExtractHashtags Alloc_JArray STR_makeEmpty = .error .unwritten ∧
    ExtractHashtags.loop [] [] STR_makeEmpty = .ok (true, [], STR_makeEmpty) ∧
    ExtractHashtags exampleTagArray STR_makeEmpty =
      .ok (true, .mk exampleTagArray.Elements ⟨-1, -1⟩ [⟨lit "world", 2⟩], STR_makeEmpty) :=
  ⟨rfl, rfl, rfl⟩

/-! ### Literals without escapes, percent codes and hashtags -/

theorem Alloc_JString.body_plain (source : List Nat) (i : Nat) (s : JString)
    (h1 : byteAt source i ≠ 92) (h2 : byteAt source i ≠ 37) (h3 : byteAt source i ≠ 35) :
    Alloc_JString.body source i s = .ok (i, s.addChar (byteAt source i)) := by
  unfold Alloc_JString.body
  simp [h1, h2, h3]

theorem byteAt_mem {source : List Nat} {i : Nat} (hi : i < source.length) :
    byteAt source i ∈ source := by
  unfold byteAt
  rw [List.getD_eq_getElem _ _ hi]
  exact List.getElem_mem _

theorem byteAt_eq_getElem {source : List Nat} {i : Nat} (hi : i < source.length) :
    byteAt source i = source[i] := by
  unfold byteAt
  exact List.getD_eq_getElem _ _ hi

theorem Alloc_JString.loop_plain (source : List Nat)
    (h92 : 92 ∉ source) (h37 : 37 ∉ source) (h35 : 35 ∉ source) :
    ∀ fuel i s, source.length ≤ i + fuel →
      ∃ s2, Alloc_JString.loop source fuel i s = .ok s2 ∧
        s2.Text.bytes = s.Text.bytes ++ source.drop i ∧
        s2.Length = s.Length + (source.length - i) ∧
        s2.Hashtags = s.Hashtags ∧ s2.RetweetUser = s.RetweetUser := by
  intro fuel
  induction fuel with
  | zero =>
    intro i s hle
    refine ⟨s, rfl, ?_, ?_, rfl, rfl⟩
    · rw [List.drop_eq_nil_of_le (by omega)]
      simp
    · omega
  | succ n ih =>
    intro i s hle
    rw [Alloc_JString.loop_succ]
    by_cases hi : i < source.length
    · have hm := byteAt_mem hi
      have e1 : byteAt source i ≠ 92 := fun h => h92 (h ▸ hm)
      have e2 : byteAt source i ≠ 37 := fun h => h37 (h ▸ hm)
      have e3 : byteAt source i ≠ 35 := fun h => h35 (h ▸ hm)
      simp only [hi, if_true, Alloc_JString.body_plain source i s e1 e2 e3]
      obtain ⟨s2, hl, ht, hlen, hh, hr⟩ := ih (i + 1) (s.addChar (byteAt source i)) (by omega)
      refine ⟨s2, hl, ?_, ?_, ?_, ?_⟩
      · rw [ht]
        simp only [JString.addChar, STR_addChar_bytes, List.append_assoc, List.singleton_append]
        rw [byteAt_eq_getElem hi, ← List.drop_eq_getElem_cons hi]
      · rw [hlen]
        simp only [JString.addChar]
        omega
      · rw [hh]
        rfl
      · rw [hr]
        rfl
    · simp only [hi, if_false]
      refine ⟨s, rfl, ?_, ?_, rfl, rfl⟩
      · rw [List.drop_eq_nil_of_le (by omega)]
        simp
      · omega

/-! ### A `#` without a tag -/

theorem takeWhile_drop_nil {source : List Nat} {k : Nat}
    (h : isTagByte (byteAt source k) = false) :
    (source.drop k).takeWhile isTagByte = [] := by
  by_cases hk : k < source.length
  · rw [List.drop_eq_getElem_cons hk, List.takeWhile_cons]
    rw [byteAt_eq_getElem hk] at h
    simp [h]
  · rw [List.drop_eq_nil_of_le (by omega)]
    rfl

/-- The hashtag branch when no word byte follows the `#`: `hashtag.Tag` is never
written, `hashtag.Tag.ptr` is `NULL`, and `STR_append(&s->Text, hashtag.Tag.ptr)` reads
through it (`strlen(NULL)`). -/
theorem Alloc_JString.loop_bare_hash (source : List Nat) (fuel i : Nat) (s : JString)
    (hc : byteAt source i = 35) (hn : isTagByte (byteAt source (i + 1)) = false) :
    Alloc_JString.loop source (fuel + 1) i s = .error .nullDeref := by
  have hi : i < source.length := byteAt_ne_zero_lt (by omega)
  rw [Alloc_JString.loop_succ]
  unfold Alloc_JString.body
  simp only [STR_append_hashtag, readHashtag_len, readHashtag_empty_bytes]
  simp [hi, hc, takeWhile_drop_nil hn]

/-! ### The identity registry -/

theorem MaybeInsertIdStr_found_iff (data : List Nat) (l : List (List Nat)) :
    MaybeInsertIdStr.found data l = true ↔ ∃ e ∈ l, cstr data = cstr e := by
  induction l with
  | nil => simp [MaybeInsertIdStr.found]
  | cons entry rest ih =>
    unfold MaybeInsertIdStr.found
    by_cases h : cstr data = cstr entry
    · simp [h]
    · simp [h, ih]

theorem MaybeInsertUserId_found_iff (id : Int) (l : List Int) :
    MaybeInsertUserId.found id l = true ↔ id ∈ l := by
  induction l with
  | nil => simp [MaybeInsertUserId.found]
  | cons entry rest ih =>
    unfold MaybeInsertUserId.found
    by_cases h : entry = id
    · simp [h]
    · have h2 : ¬ id = entry := fun e => h e.symm
      simp [h, h2, ih]

theorem cstr_idem (p : List Nat) : cstr (cstr p) = cstr p := by
  apply cstr_eq_self
  intro b hb
  have := List.mem_takeWhile_imp hb
  simpa using this

theorem firstOccurrences_append_singleton {α : Type} [DecidableEq α] (l : List α) (x : α) :
    firstOccurrences (l ++ [x]) =
      if x ∈ firstOccurrences l then firstOccurrences l else firstOccurrences l ++ [x] := by
  unfold firstOccurrences
  rw [List.reverse_append, List.reverse_singleton, List.singleton_append]
  by_cases h : x ∈ l.reverse
  · rw [List.dedup_cons_of_mem h]
    simp [List.mem_dedup, List.mem_reverse.mp h]
  · rw [List.dedup_cons_of_not_mem h]
    have h2 : x ∉ l := fun hm => h (List.mem_reverse.mpr hm)
    simp [List.mem_dedup, h2]

theorem firstOccurrences_nodup {α : Type} [DecidableEq α] (l : List α) :
    (firstOccurrences l).Nodup := by
  unfold firstOccurrences
  exact List.nodup_reverse.mpr (List.nodup_dedup _)

theorem mem_firstOccurrences {α : Type} [DecidableEq α] (l : List α) (x : α) :
    x ∈ firstOccurrences l ↔ x ∈ l := by
  simp [firstOccurrences]

theorem offeredIdStrs_append (a b : List RegistryCall) :
    offeredIdStrs (a ++ b) = offeredIdStrs a ++ offeredIdStrs b := by
  induction a with
  | nil => rfl
  | cons c rest ih => cases c <;> simp [offeredIdStrs, ih]

theorem offeredUserIds_append (a b : List RegistryCall) :
    offeredUserIds (a ++ b) = offeredUserIds a ++ offeredUserIds b := by
  induction a with
  | nil => rfl
  | cons c rest ih => cases c <;> simp [offeredUserIds, ih]

theorem offeredIdStrs_cstr (calls : List RegistryCall) :
    ∀ e ∈ offeredIdStrs calls, cstr e = e := by
  induction calls with
  | nil => simp [offeredIdStrs]
  | cons c rest ih =>
    cases c with
    | idStr data =>
      intro e he
      simp only [offeredIdStrs, List.mem_cons] at he
      rcases he with rfl | he
      · exact cstr_idem data
      · exact ih e he
    | userId id => simpa [offeredIdStrs] using ih

/-- The registry reached from the empty one holds the distinct values offered, in the
order of their first offer. -/
theorem runCalls_eq (calls : List RegistryCall) :
    runCalls emptyDatabase calls =
      ⟨firstOccurrences (offeredIdStrs calls), firstOccurrences (offeredUserIds calls)⟩ := by
  induction calls using List.reverseRecOn with
  | nil => rfl
  | append_singleton l c ih =>
    unfold runCalls at ih ⊢
    rw [List.foldl_append, ih, offeredIdStrs_append, offeredUserIds_append]
    cases c with
    | idStr data =>
      simp only [List.foldl_cons, List.foldl_nil, RegistryCall.run, offeredIdStrs,
        offeredUserIds, List.append_nil, MaybeInsertIdStr, Vec_add]
      rw [firstOccurrences_append_singleton]
      have hiff : MaybeInsertIdStr.found data (firstOccurrences (offeredIdStrs l)) = true ↔
          cstr data ∈ firstOccurrences (offeredIdStrs l) := by
        rw [MaybeInsertIdStr_found_iff]
        constructor
        · rintro ⟨e, he, heq⟩
          have := offeredIdStrs_cstr l e ((mem_firstOccurrences _ _).mp he)
          rw [heq, this]
          exact he
        · intro hm
          refine ⟨cstr data, hm, (cstr_idem data).symm⟩
      by_cases hf : MaybeInsertIdStr.found data (firstOccurrences (offeredIdStrs l)) = true
      · simp [hf, hiff.mp hf]
      · have hnm : cstr data ∉ firstOccurrences (offeredIdStrs l) := fun hm => hf (hiff.mpr hm)
        simp [hf, hnm]
    | userId id =>
      simp only [List.foldl_cons, List.foldl_nil, RegistryCall.run, offeredIdStrs,
        offeredUserIds, List.append_nil, MaybeInsertUserId, Vec_add]
      rw [firstOccurrences_append_singleton]
      by_cases hf : MaybeInsertUserId.found id (firstOccurrences (offeredUserIds l)) = true
      · simp [hf, (MaybeInsertUserId_found_iff _ _).mp hf]
      · have hnm : id ∉ firstOccurrences (offeredUserIds l) :=
          fun hm => hf ((MaybeInsertUserId_found_iff _ _).mpr hm)
        simp [hf, hnm]

/-! ### Schema projection -/

theorem AddMemberToObject.assign_eq_ok {α : Type} {o o1 : JObject} {member : JMember}
    {read : Option α} {set : α → JObject}
    (h : AddMemberToObject.assign o member read set = .ok o1) :
    ∃ p, read = some p ∧ set p = o1 := by
  cases read with
  | none => simp [AddMemberToObject.assign] at h
  | some p =>
    simp only [AddMemberToObject.assign, Except.ok.injEq] at h
    exact ⟨p, rfl, h⟩

/-- One call of `AddMemberToObject` that returns: the member is appended, and a schema
field that is bound afterwards was bound before or is the field of the member's role. -/
theorem AddMemberToObject_step {o o1 : JObject} {member : JMember}
    (h : AddMemberToObject o member = .ok o1) :
    o1.Memberlist = o.Memberlist ++ [member] ∧
    ∀ role, o1.bound role = true → o.bound role = true ∨ role = member.SpecialType := by
  obtain ⟨name, v, t⟩ := member
  obtain ⟨ml, M, X⟩ := o
  cases t <;>
    simp only [AddMemberToObject, JMember.SpecialType, JMember.Value, JObject.Memberlist,
      JObject.Members, JObject.ExMembers, Vec_add] at h
  case E_None =>
    simp only [Except.ok.injEq] at h
    subst h
    exact ⟨rfl, fun role hb => Or.inl hb⟩
  all_goals
    obtain ⟨p, -, hp⟩ := AddMemberToObject.assign_eq_ok h
    subst hp
    refine ⟨rfl, fun role hb => ?_⟩
    cases role <;>
      first
        | exact Or.inr rfl
        | exact Or.inl hb

set_option maxRecDepth 20000 in
/-- The reason for an unmatched hashtag is formatted into `char AddedStr[200]`: with a
tag of 128 bytes the 72 bytes of fixed text, the tag and the terminator do not fit. -/
theorem FormsValidExtendedTweetObj_long_tag_overflow :
    FormsValidExtendedTweetObj exampleExTweetLongTag STR_makeEmpty = .error .bufferOverflow := by
  decide

/-! ### Running a validator again -/

theorem cstr_lit_messages :
    cstr (lit "Missing field IdStr/Text/User/CreatedAt") =
      lit "Missing field IdStr/Text/User/CreatedAt" ∧
    cstr (lit "Missing display range when truncated == true.") =
      lit "Missing display range when truncated == true." ∧
    cstr (lit "Display Range did not match the given text.") =
      lit "Display Range did not match the given text." ∧
    cstr (lit "Missing extended tweet when truncated == true.") =
      lit "Missing extended tweet when truncated == true." := by
  refine ⟨?_, ?_, ?_, ?_⟩ <;> decide

/-- The code reports what the specification's rule says: no message for a valid object,
else the message of the first failing condition. -/
theorem FormsValidOuterObject_eq_reason (o : JObject) (fm : Str_c) :
    FormsValidOuterObject o fm =
      match outerObjectReason o with
      | none => .ok (true, fm)
      | some msg => failWith fm msg := by
  obtain ⟨ml, ⟨id, tx, ca, us, un, usn, ul, uid, tw⟩, ⟨ex, tr, dr, en, ht, ind, ft⟩⟩ := o
  rcases tr with _ | t
  · rcases id with _ | id <;> rcases tx with _ | tx <;> rcases us with _ | us <;>
      rcases ca with _ | ca <;>
      simp [FormsValidOuterObject, outerObjectReason, outerObjectConditions, firstFailure,
        JObject.isTruncated, JObject.Members, JObject.ExMembers]
  · by_cases ht0 : t = 0
    · rcases id with _ | id <;> rcases tx with _ | tx <;> rcases us with _ | us <;>
        rcases ca with _ | ca <;>
        simp [FormsValidOuterObject, outerObjectReason, outerObjectConditions, firstFailure,
          JObject.isTruncated, JObject.Members, JObject.ExMembers, ht0]
    · rcases id with _ | id <;> rcases tx with _ | tx <;> rcases us with _ | us <;>
        rcases ca with _ | ca <;>
        simp [FormsValidOuterObject, outerObjectReason, outerObjectConditions, firstFailure,
          JObject.isTruncated, JObject.Members, JObject.ExMembers, ht0]
      rcases dr with _ | r
      · simp [List.find?]
      · by_cases hr : r.Begin = 0 ∧ r.End = (tx.Length : Int)
        · rcases ex with _ | ex <;> simp [List.find?, hr, hr.1, hr.2]
        · have hr2 : r.Begin ≠ 0 ∨ r.End ≠ (tx.Length : Int) := by
            by_contra hc
            push_neg at hc
            exact hr hc
          rcases hr2 with h | h <;> simp [List.find?, h]

theorem failWith_no_nul {fm : Str_c} {text : List Nat} (h0 : 0 ∉ fm.bytes)
    (ht : cstr text = text) :
    failWith fm text = .ok (false, ⟨some (fm.bytes ++ text)⟩) := by
  unfold failWith STR_append
  by_cases hl : fm.len = 0
  · have hb : fm.bytes = [] := List.length_eq_zero.mp hl
    simp [hl, hb, ht]
  · simp [hl, h0, ht]

theorem firstFailure_mem {conditions : List (Bool × List Nat)} {msg : List Nat}
    (h : firstFailure conditions = some msg) : msg ∈ conditions.map Prod.snd := by
  unfold firstFailure at h
  cases hf : conditions.find? (fun c => !c.1) with
  | none => rw [hf] at h; simp at h
  | some c =>
    rw [hf] at h
    simp only [Option.map_some', Option.some.injEq] at h
    subst h
    exact List.mem_map_of_mem _ (List.mem_of_find?_eq_some hf)

/-- Every reason of the outer-object rule is one of the four messages of the source. -/
theorem outerObjectReason_mem {o : JObject} {msg : List Nat}
    (h : outerObjectReason o = some msg) :
    msg ∈ [lit "Missing field IdStr/Text/User/CreatedAt",
      lit "Missing display range when truncated == true.",
      lit "Display Range did not match the given text.",
      lit "Missing extended tweet when truncated == true."] := by
  unfold outerObjectReason at h
  split_ifs at h
  · have := firstFailure_mem h
    simpa [outerObjectConditions] using this
  · have := firstFailure_mem h
    simp only [outerObjectConditions, List.take_succ_cons, List.take_zero, List.map_cons,
      List.map_nil, List.mem_singleton] at this
    simp [this]

theorem outerObjectReason_cstr {o : JObject} {msg : List Nat}
    (h : outerObjectReason o = some msg) : cstr msg = msg := by
  have hm := outerObjectReason_mem h
  simp only [List.mem_cons, List.mem_singleton, List.not_mem_nil, or_false] at hm
  obtain ⟨c1, c2, c3, c4⟩ := cstr_lit_messages
  rcases hm with rfl | rfl | rfl | rfl
  · exact c1
  · exact c2
  · exact c3
  · exact c4

/-! ### What `ExtractHashtags` appends -/

/-- What the loop of `ExtractHashtags` leaves when it returns: the list it started with,
followed by one marker for each of the first `k` elements, in their order; `k` is the
number of elements when it returns true and the index of the rejected element when it
returns false. -/
theorem ExtractHashtags.loop_frame (els : List JValue) (E : Str_c) :
    ∀ (H H2 : List HashTagData) (b : Bool) (m : Str_c),
      ExtractHashtags.loop els H E = .ok (b, H2, m) →
      ∃ k added, (b = true → k = els.length) ∧ (b = false → k < els.length) ∧
        H2 = H ++ added ∧
        List.Forall₂ (fun v h => ∃ obj Text Indices, v = JValue.JV_Object obj ∧
          obj.Members.Text = some Text ∧ obj.ExMembers.Indices = some Indices ∧
          h = ExtractHashtags.marker Text Indices) (els.take k) added := by
  induction els with
  | nil =>
    intro H H2 b m h
    simp only [ExtractHashtags.loop, Except.ok.injEq, Prod.mk.injEq] at h
    obtain ⟨rfl, rfl, rfl⟩ := h
    exact ⟨0, [], fun _ => rfl, fun hb => absurd hb (by simp), by simp, by simp⟩
  | cons v rest ih =>
    intro H H2 b m h
    have hfail : ∀ (text : Option (List Nat)),
        (match STR_append E text with
          | .error e => (Except.error e : Except Fault (Bool × List HashTagData × Str_c))
          | .ok m => .ok (false, H, m)) = .ok (b, H2, m) →
        ∃ k added, (b = true → k = (v :: rest).length) ∧
          (b = false → k < (v :: rest).length) ∧ H2 = H ++ added ∧
          List.Forall₂ (fun v h => ∃ obj Text Indices, v = JValue.JV_Object obj ∧
            obj.Members.Text = some Text ∧ obj.ExMembers.Indices = some Indices ∧
            h = ExtractHashtags.marker Text Indices) ((v :: rest).take k) added := by
      intro text h
      cases hs : STR_append E text with
      | error e => rw [hs] at h; simp at h
      | ok m1 =>
        rw [hs] at h
        simp only [Except.ok.injEq, Prod.mk.injEq] at h
        obtain ⟨rfl, rfl, rfl⟩ := h
        exact ⟨0, [], fun hb => absurd hb (by simp), fun _ => by simp, by simp, by simp⟩
    cases v with
    | JV_Object obj =>
      obtain ⟨ml, ⟨id, tx, ca, us, un, usn, ul, uid, tw⟩, ⟨ex, tr, dr, en, ht, ind, ft⟩⟩ := obj
      rcases tx with _ | Text
      · unfold ExtractHashtags.loop at h
        simp only [JObject.Members, JObject.ExMembers] at h
        exact hfail _ h
      rcases ind with _ | Indices
      · unfold ExtractHashtags.loop at h
        simp only [JObject.Members, JObject.ExMembers] at h
        exact hfail _ h
      unfold ExtractHashtags.loop at h
      simp only [JObject.Members, JObject.ExMembers] at h
      split_ifs at h with hov hw
      · exact hfail _ h
      · cases hp : Text.Text.ptr with
        | none => rw [hp] at h; simp [STR_make] at h
        | some t =>
          rw [hp] at h
          simp only [STR_make] at h
          obtain ⟨k, added, hk1, hk2, hH, hall⟩ := ih _ _ _ _ h
          refine ⟨k + 1, ExtractHashtags.marker Text Indices :: added, ?_, ?_, ?_, ?_⟩
          · intro hb
            simp [hk1 hb]
          · intro hb
            have := hk2 hb
            simp only [List.length_cons]
            omega
          · rw [hH]
            simp [Vec_add, ExtractHashtags.marker, Str_c.bytes, hp]
          · rw [List.take_succ_cons]
            exact List.Forall₂.cons ⟨_, Text, Indices, rfl, rfl, rfl, rfl⟩ hall
    | _ =>
      unfold ExtractHashtags.loop at h
      exact hfail _ h

/-- The same for `ExtractHashtags` itself: the elements and the range of the array stay,
and the hashtag-extraction list grows by the markers of the accepted elements. -/
theorem ExtractHashtags_frame {a a2 : JArray} {E m : Str_c} {b : Bool}
    (h : ExtractHashtags a E = .ok (b, a2, m)) :
    a2.Elements = a.Elements ∧ a2.AsRange = a.AsRange ∧
    ∃ k added, (b = true → k = a.Elements.length) ∧ (b = false → k < a.Elements.length) ∧
      a2.Hashtags = a.Hashtags ++ added ∧
      List.Forall₂ (fun v h => ∃ obj Text Indices, v = JValue.JV_Object obj ∧
        obj.Members.Text = some Text ∧ obj.ExMembers.Indices = some Indices ∧
        h = ExtractHashtags.marker Text Indices) (a.Elements.take k) added := by
  obtain ⟨els, rng, H0⟩ := a
  unfold ExtractHashtags at h
  simp only [JArray.Elements, JArray.Hashtags, JArray.AsRange] at h ⊢
  have hne : els ≠ [] := by
    rintro rfl
    simp [Vec_size] at h
  rw [Vec_size_of_ne_nil hne] at h
  simp only at h
  cases hl : ExtractHashtags.loop els H0 E with
  | error e => rw [hl] at h; simp at h
  | ok r =>
    obtain ⟨b0, H, m0⟩ := r
    rw [hl] at h
    simp only [Except.ok.injEq, Prod.mk.injEq] at h
    obtain ⟨rfl, rfl, rfl⟩ := h
    exact ⟨rfl, rfl, ExtractHashtags.loop_frame els E _ _ _ _ hl⟩

/-- The marker's `Begin` is `Indices.Begin` exactly when that value fits an
`unsigned int`. -/
theorem ExtractHashtags.marker_Begin (Text : JString) (Indices : JRange) :
    (((ExtractHashtags.marker Text Indices).Begin : Int) = Indices.Begin ↔
      0 ≤ Indices.Begin ∧ Indices.Begin < 2 ^ 32) := by
  simp only [ExtractHashtags.marker]
  have h1 : 0 ≤ Indices.Begin % 2 ^ 32 := Int.emod_nonneg _ (by norm_num)
  have h2 : Indices.Begin % 2 ^ 32 < 2 ^ 32 := Int.emod_lt_of_pos _ (by norm_num)
  rw [Int.toNat_of_nonneg h1]
  constructor
  · intro h
    rw [h] at h1 h2
    exact ⟨h1, h2⟩
  · rintro ⟨h3, h4⟩
    exact Int.emod_eq_of_lt h3 h4

/-! ### The output traversal -/

theorem Print_JArray_loop_eq (data : List JValue) :
    ∀ fuel i, i + fuel = data.length → Print_JArray.loop data fuel i = data.drop i := by
  intro fuel
  induction fuel with
  | zero =>
    intro i hi
    rw [List.drop_eq_nil_of_le (by omega)]
    rfl
  | succ n ih =>
    intro i hi
    have hlt : i < data.length := by omega
    unfold Print_JArray.loop
    rw [List.getElem?_eq_getElem hlt, List.drop_eq_getElem_cons hlt]
    simp [ih (i + 1) (by omega)]

theorem Print_JArray_visited_eq (a : JArray) : Print_JArray.visited a = a.Elements := by
  unfold Print_JArray.visited
  rw [Print_JArray_loop_eq _ _ _ (by omega)]
  rfl

theorem utf8_lead2_bits : ∀ x < 32,
    (x ||| 0xC0) % 256 = 0xC0 ||| x ∧ (0xC0 ||| x) &&& 0xE0 = 0xC0 ∧
      (0xC0 ||| x) &&& 0x1F = x := by
  decide

theorem utf8_cont_bits : ∀ y < 64,
    (y ||| 0x80) % 256 = 0x80 ||| y ∧ (0x80 ||| y) &&& 0xC0 = 0x80 ∧
      (0x80 ||| y) &&& 0x3F = y := by
  decide

theorem utf8_lead3_bits : ∀ z < 16,
    (z ||| 0xE0) % 256 = 0xE0 ||| z ∧ (0xE0 ||| z) &&& 0xF0 = 0xE0 ∧
      (0xE0 ||| z) &&& 0x0F = z := by
  decide

theorem shiftLeft_or_lt (x y i : Nat) (hy : y < 2 ^ i) : (x <<< i) ||| y = 2 ^ i * x + y := by
  rw [Nat.shiftLeft_eq, Nat.mul_comm]
  exact (Nat.mul_add_lt_is_or hy x).symm

theorem and_3F (c : Nat) : c &&& 0x3F = c % 64 :=
  Nat.and_pow_two_sub_one_eq_mod c 6

theorem STR_appendAsUtf8_bytes (str : Str_c) (c : Nat) (hc : c < 0x10000) :
    (STR_appendAsUtf8 str (c : Int)).bytes = str.bytes ++ utf8Encode c := by
  have hy : c &&& 0x3F < 64 := by rw [and_3F]; omega
  have hy1 : (c >>> 6) &&& 0x3F < 64 := by rw [and_3F]; omega
  unfold STR_appendAsUtf8 utf8Encode
  have e1 : ((c : Int) < 0x80) ↔ c < 0x80 := by omega
  have e2 : ((c : Int) < 0x800) ↔ c < 0x800 := by omega
  simp only [e1, e2, Int.toNat_ofNat]
  split_ifs with h1 h2
  · have : ((c : Int) % 256).toNat = c := by omega
    rw [this, STR_addChar_bytes]
  · have hx : c >>> 6 < 32 := by rw [Nat.shiftRight_eq_div_pow]; omega
    rw [(utf8_lead2_bits _ hx).1, (utf8_cont_bits _ hy).1]
    simp only [STR_addChar_bytes, List.append_assoc, List.singleton_append]
  · have hz : c >>> 12 < 16 := by rw [Nat.shiftRight_eq_div_pow]; omega
    rw [(utf8_lead3_bits _ hz).1, (utf8_cont_bits _ hy).1, (utf8_cont_bits _ hy1).1]
    simp only [STR_addChar_bytes, List.append_assoc, List.singleton_append, List.cons_append,
      List.nil_append]

theorem utf8Decode_utf8Encode (c : Nat) (hc : c < 0x10000) :
    utf8Decode (utf8Encode c) = some c := by
  have hy : c &&& 0x3F < 64 := by rw [and_3F]; omega
  have hy1 : (c >>> 6) &&& 0x3F < 64 := by rw [and_3F]; omega
  unfold utf8Encode
  split_ifs with h1 h2
  · simp [utf8Decode, h1]
  · have hx : c >>> 6 < 32 := by rw [Nat.shiftRight_eq_div_pow]; omega
    obtain ⟨-, a1, a2⟩ := utf8_lead2_bits _ hx
    obtain ⟨-, b1, b2⟩ := utf8_cont_bits _ hy
    simp only [utf8Decode, a1, a2, b1, b2, and_self, if_true, Option.some.injEq]
    rw [shiftLeft_or_lt _ _ 6 hy, and_3F, Nat.shiftRight_eq_div_pow]
    omega
  · have hz : c >>> 12 < 16 := by rw [Nat.shiftRight_eq_div_pow]; omega
    obtain ⟨-, a1, a2⟩ := utf8_lead3_bits _ hz
    obtain ⟨-, b1, b2⟩ := utf8_cont_bits _ hy1
    obtain ⟨-, d1, d2⟩ := utf8_cont_bits _ hy
    simp only [utf8Decode, a1, a2, b1, b2, d1, d2, and_self, if_true, Option.some.injEq]
    have hw : (((c >>> 6) &&& 0x3F) <<< 6) ||| (c &&& 0x3F) < 2 ^ 12 := by
      rw [shiftLeft_or_lt _ _ 6 hy]
      omega
    rw [Nat.or_assoc, shiftLeft_or_lt _ _ 12 hw, shiftLeft_or_lt _ _ 6 hy, and_3F, and_3F,
      Nat.shiftRight_eq_div_pow, Nat.shiftRight_eq_div_pow]
    omega

/-! ### The markers of a decoded string -/

theorem Alloc_JString.body_markersOrdered {source : List Nat} {i j : Nat} {s s1 : JString}
    (hP : markersOrdered s) (h : Alloc_JString.body source i s = .ok (j, s1)) :
    markersOrdered s1 := by
  obtain ⟨hall, hpw⟩ := hP
  rcases (Alloc_JString.body_cases h).2 with ⟨c, -, rfl⟩ | ⟨-, -, rfl⟩ | ⟨t, ht, hne, -, rfl⟩
  · refine ⟨fun h hh => ?_, hpw⟩
    obtain ⟨a1, a2, a3⟩ := hall h hh
    exact ⟨a1, a2, by simp only [JString.addChar]; omega⟩
  · refine ⟨fun h hh => ?_, hpw⟩
    obtain ⟨a1, a2, a3⟩ := hall h hh
    exact ⟨a1, a2, by simp only; omega⟩
  · refine ⟨?_, ?_⟩
    · intro h hh
      simp only [List.mem_append, List.mem_singleton] at hh
      rcases hh with hh | rfl
      · obtain ⟨a1, a2, a3⟩ := hall h hh
        exact ⟨a1, a2, by simp only; omega⟩
      · refine ⟨hne, ?_, by simp only; omega⟩
        intro b hb
        rw [ht] at hb
        exact List.mem_takeWhile_imp hb
    · simp only
      rw [List.pairwise_append]
      refine ⟨hpw, List.pairwise_singleton _ _, ?_⟩
      intro a ha b hb
      simp only [List.mem_singleton] at hb
      subst hb
      exact (hall a ha).2.2

theorem Alloc_JString_markersOrdered {source : List Nat} {js : JString}
    (h : Alloc_JString source = .ok js) : markersOrdered js := by
  obtain ⟨s, hl, h1, -, h3⟩ := Alloc_JString_eq_loop h
  have hs : markersOrdered s := by
    refine Alloc_JString.loop_induct source markersOrdered ?_ _ _ _ _ ?_ hl
    · intro i j s s1 hP hb
      exact Alloc_JString.body_markersOrdered hP hb
    · exact ⟨by simp, by simp⟩
  unfold markersOrdered at hs ⊢
  rw [h1, h3]
  exact hs

/-- The offsets of the markers of a decoded string are pairwise distinct, and no tag
holds a NUL byte. -/
theorem Alloc_JString_markers_distinct {source : List Nat} {js : JString}
    (h : Alloc_JString source = .ok js) :
    (js.Hashtags.map HashTagData.Begin).Nodup ∧ ∀ t ∈ js.Hashtags, cstr t.Tag = t.Tag := by
  obtain ⟨hall, hpw⟩ := Alloc_JString_markersOrdered h
  refine ⟨?_, ?_⟩
  · unfold List.Nodup
    rw [List.pairwise_map]
    refine hpw.imp ?_
    intro a b hab
    omega
  · intro t ht
    apply cstr_eq_self
    intro b hb
    exact isTagByte_ne_zero ((hall t ht).2.1 b hb)

/-- In a literal without a backslash in which a word byte follows every `#`, a pass of the
loop body returns and leaves the text without a NUL byte. -/
theorem Alloc_JString.body_ok_of_tagged {source : List Nat} {i : Nat} {s : JString}
    (hi : i < source.length) (h92 : 92 ∉ source) (h0 : 0 ∉ source)
    (htag : ∀ i, byteAt source i = 35 → isTagByte (byteAt source (i + 1)) = true)
    (hs : 0 ∉ s.Text.bytes) :
    ∃ j s1, Alloc_JString.body source i s = .ok (j, s1) ∧ 0 ∉ s1.Text.bytes := by
  have hm := byteAt_mem hi
  have hc92 : byteAt source i ≠ 92 := fun h => h92 (h ▸ hm)
  have hc0 : byteAt source i ≠ 0 := fun h => h0 (h ▸ hm)
  by_cases hc : byteAt source i = 35
  · have hb := htag i hc
    have hne0 : byteAt source (i + 1) ≠ 0 := isTagByte_ne_zero hb
    have hne : (source.drop (i + 1)).takeWhile isTagByte ≠ [] := by
      rw [drop_eq_byteAt_cons hne0, List.takeWhile_cons]
      simp [hb]
    unfold Alloc_JString.body
    simp only [STR_append_hashtag, readHashtag_len, readHashtag_empty_bytes]
    simp only [hc, hne, hs, if_false, if_true, reduceIte]
    refine ⟨_, _, rfl, ?_⟩
    simp only [Str_c.bytes, Option.getD_some, List.mem_append, List.mem_cons]
    simp only [Str_c.bytes] at hs
    rintro (h | h | h)
    · exact hs h
    · omega
    · exact takeWhile_isTagByte_ne_zero _ 0 h rfl
  · unfold Alloc_JString.body
    simp only [hc92, hc, if_false]
    split_ifs <;>
      refine ⟨_, _, rfl, ?_⟩ <;>
      simp only [JString.addChar, STR_addChar_bytes, List.mem_append, List.mem_singleton,
        not_or] <;>
      refine ⟨hs, ?_⟩ <;> omega

theorem Alloc_JString.loop_ok_of_tagged {source : List Nat}
    (h92 : 92 ∉ source) (h0 : 0 ∉ source)
    (htag : ∀ i, byteAt source i = 35 → isTagByte (byteAt source (i + 1)) = true) :
    ∀ fuel i s, 0 ∉ s.Text.bytes → ∃ s2, Alloc_JString.loop source fuel i s = .ok s2 := by
  intro fuel
  induction fuel with
  | zero => intro i s _; exact ⟨s, rfl⟩
  | succ n ih =>
    intro i s hs
    rw [Alloc_JString.loop_succ]
    by_cases hi : i < source.length
    · obtain ⟨j, s1, hb, hs1⟩ := Alloc_JString.body_ok_of_tagged hi h92 h0 htag hs
      simp only [hi, if_true, hb]
      exact ih (j + 1) s1 hs1
    · simp only [hi, if_false]
      exact ⟨s, rfl⟩

theorem Alloc_JString_ok_of_tagged {source : List Nat}
    (h92 : 92 ∉ source) (h0 : 0 ∉ source)
    (htag : ∀ i, byteAt source i = 35 → isTagByte (byteAt source (i + 1)) = true) :
    ∃ js, Alloc_JString source = .ok js := by
  unfold Alloc_JString
  obtain ⟨s2, h2⟩ := Alloc_JString.loop_ok_of_tagged h92 h0 htag source.length 0
    ⟨0, STR_makeEmpty, [], STR_makeEmpty⟩ (by simp [STR_makeEmpty_bytes])
  rw [h2]
  split_ifs <;> exact ⟨_, rfl⟩

/-! ### Acceptance of an extended tweet is symmetric -/

/-- The counting argument: when the markers `T` have pairwise distinct offsets, every
marker of `T` has a match (same offset, same tag string) in `E`, and `E` is as long as `T`,
then `E` holds the markers of `T` and nothing else. -/
theorem markers_perm_of_matched (T E : List HashTagData)
    (hnd : (T.map HashTagData.Begin).Nodup) (hlen : E.length = T.length)
    (hmatch : ∀ t ∈ T, ∃ e ∈ E, t.Begin = e.Begin ∧ cstr t.Tag = cstr e.Tag) :
    (E.map (fun e => (e.Begin, cstr e.Tag))).Perm (T.map (fun t => (t.Begin, cstr t.Tag))) := by
  have hnd2 : (T.map (fun t => (t.Begin, cstr t.Tag))).Nodup := by
    have : T.map HashTagData.Begin = (T.map (fun t => (t.Begin, cstr t.Tag))).map Prod.fst := by
      rw [List.map_map]
      rfl
    rw [this] at hnd
    exact List.Nodup.of_map _ hnd
  have hsub : T.map (fun t => (t.Begin, cstr t.Tag)) ⊆ E.map (fun e => (e.Begin, cstr e.Tag)) := by
    intro x hx
    obtain ⟨t, ht, rfl⟩ := List.mem_map.mp hx
    obtain ⟨e, he, h1, h2⟩ := hmatch t ht
    exact List.mem_map.mpr ⟨e, he, by simp [h1, h2]⟩
  have hsp := List.subperm_of_subset hnd2 hsub
  exact (hsp.perm_of_length_le (by simp [hlen])).symm

/-! ## The claims -/

/-- C1 (the code falls short of the claim).  `Alloc_JString` sets `Hashtags.slack = 0`
and writes `Hashtags.size` nowhere; `VH_add` writes it when the first marker is added.
The extended tweet with the text `0123456789` (`Length` 10, no hashtag),
`display_text_range` `[0, 10]` and no entities meets the conditions of the claim with
`n = 0` and no marker, so the claim has the call return true.  The code compares
`HashtagsInArray`, which is 0, with `TextObj->Hashtags.size`, which no statement has
written: what it returns depends on an indeterminate value.  The same holds for the text
`hi #ab` with entities whose `hashtags` array is without markers, where the `size` of the
entities' vector is read unwritten.  With one hashtag in the text and no entities the call
does return false with the count-mismatch reason. -/
theorem FormsValidExtendedTweetObj_unwritten_size :
    Alloc_JString (lit "0123456789") = .ok examplePlainText ∧
    exampleExTweetPlain.ExMembers.Entities = none ∧
    exampleExTweetPlain.ExMembers.FullText = some examplePlainText ∧
    exampleExTweetPlain.ExMembers.DisplayRange = some ⟨0, (examplePlainText.Length : Int)⟩ ∧
    examplePlainText.Hashtags = [] ∧
    Vec_size examplePlainText.Hashtags = .error .unwritten ∧
    FormsValidExtendedTweetObj exampleExTweetPlain STR_makeEmpty = .error .unwritten ∧
    FormsValidExtendedTweetObj exampleExTweetNoMarkers STR_makeEmpty = .error .unwritten ∧
    FormsValidExtendedTweetObj
        (.mk [] nullMembers
          { nullExMembers with FullText := some exampleText, DisplayRange := some ⟨0, 6⟩ })
        STR_makeEmpty =
      .ok (false,
        ⟨some (lit "Hashtags found in text did not match all the hashtags in the entites.")⟩) := by
  refine ⟨by decide, rfl, rfl, rfl, rfl, rfl, rfl, rfl, rfl⟩

/-- C2. `FormsValidOuterObject` returns true if and only if `IdStr`, `Text`, `User` and
`CreatedAt` are all bound and either `Truncated` is unbound or false, or `Truncated` is
true (non-zero), `DisplayRange` is bound and equal to `[0, Text.Length]` and `ExTweet` is
bound.  Started with an empty reason buffer the call always returns a boolean, and no
other field of the object influences the result: two objects that agree on these fields
give the same boolean and the same reason. -/
theorem FormsValidOuterObject_true_iff (o : JObject) (fm : Str_c) :
    ((∃ m, FormsValidOuterObject o fm = .ok (true, m)) ↔
      (o.Members.IdStr ≠ none ∧ o.Members.User ≠ none ∧ o.Members.CreatedAt ≠ none ∧
        ∃ Text, o.Members.Text = some Text ∧
          ((o.ExMembers.Truncated = none ∨ o.ExMembers.Truncated = some 0) ∨
            ((∃ t, o.ExMembers.Truncated = some t ∧ t ≠ 0) ∧
              (∃ r, o.ExMembers.DisplayRange = some r ∧ r.Begin = 0 ∧
                r.End = (Text.Length : Int)) ∧
              o.ExMembers.ExTweet ≠ none)))) ∧
    (∃ b m, FormsValidOuterObject o STR_makeEmpty = .ok (b, m)) ∧
    (∀ o2 : JObject,
      o2.Members.IdStr.isSome = o.Members.IdStr.isSome →
      o2.Members.Text.map JString.Length = o.Members.Text.map JString.Length →
      o2.Members.User.isSome = o.Members.User.isSome →
      o2.Members.CreatedAt.isSome = o.Members.CreatedAt.isSome →
      o2.ExMembers.Truncated = o.ExMembers.Truncated →
      o2.ExMembers.DisplayRange = o.ExMembers.DisplayRange →
      o2.ExMembers.ExTweet.isSome = o.ExMembers.ExTweet.isSome →
      FormsValidOuterObject o2 fm = FormsValidOuterObject o fm) := by
  obtain ⟨ml, ⟨id, tx, ca, us, un, usn, ul, uid, tw⟩, ⟨ex, tr, dr, en, ht, ind, ft⟩⟩ := o
  refine ⟨?_, ?_, ?_⟩
  · rcases id with _ | id <;> rcases tx with _ | tx <;> rcases us with _ | us <;>
      rcases ca with _ | ca <;>
      simp [FormsValidOuterObject, JObject.Members, JObject.ExMembers, failWith_ne_true]
    rcases tr with _ | t
    · simp
    · by_cases ht0 : t = 0
      · simp [ht0]
      · rcases dr with _ | r
        · simp [ht0, failWith_ne_true]
        · by_cases hr : r.Begin ≠ 0 ∨ r.End ≠ (tx.Length : Int)
          · simp only [ht0, hr, if_true, if_false, failWith_ne_true]
            simp
            refine ⟨ht0, fun _ h1 h2 => ?_⟩
            rcases hr with h | h
            · exact absurd h1 h
            · exact absurd h2 h
          · have hr2 : r.Begin = 0 ∧ r.End = (tx.Length : Int) := by
              constructor
              · by_contra h; exact hr (Or.inl h)
              · by_contra h; exact hr (Or.inr h)
            rcases ex with _ | ex <;> simp [ht0, hr, hr2.1, hr2.2, failWith_ne_true]
  · rcases id with _ | id <;> rcases tx with _ | tx <;> rcases us with _ | us <;>
      rcases ca with _ | ca <;>
      simp [FormsValidOuterObject, JObject.Members, JObject.ExMembers, failWith_empty]
    rcases tr with _ | t
    · simp
    · by_cases ht0 : t = 0
      · simp [ht0]
      · rcases dr with _ | r
        · simp [ht0, failWith_empty]
        · by_cases hr : r.Begin ≠ 0 ∨ r.End ≠ (tx.Length : Int)
          · simp only [ht0, hr, if_true, if_false, failWith_empty]
            simp
          · rcases ex with _ | ex <;> simp [ht0, hr, failWith_empty]
  · intro o2 h1 h2 h3 h4 h5 h6 h7
    obtain ⟨ml2, ⟨id2, tx2, ca2, us2, un2, usn2, ul2, uid2, tw2⟩,
      ⟨ex2, tr2, dr2, en2, ht2, ind2, ft2⟩⟩ := o2
    simp only [JObject.Members, JObject.ExMembers] at h1 h2 h3 h4 h5 h6 h7
    subst h5 h6
    rcases id with _ | id <;> rcases id2 with _ | id2 <;> simp at h1 <;>
    rcases tx with _ | tx <;> rcases tx2 with _ | tx2 <;> simp at h2 <;>
    rcases us with _ | us <;> rcases us2 with _ | us2 <;> simp at h3 <;>
    rcases ca with _ | ca <;> rcases ca2 with _ | ca2 <;> simp at h4 <;>
    rcases ex with _ | ex <;> rcases ex2 with _ | ex2 <;> simp at h7 <;>
      simp [FormsValidOuterObject, JObject.Members, JObject.ExMembers, h2]

/-- C3 (the code falls short of the claim).  The array with the single element
`{"text": "", "indices": [5, 6]}` satisfies the condition of C3: its element is an
object with `Text` and `Indices` bound and `End - Begin = 1 = Text.Length + 1`.  The
decoded empty string has `Text.ptr == NULL` (nothing was ever written to it), and
`ExtractHashtags` hands that pointer to `STR_make`, whose `strlen` reads through it: the
call does not return true. -/
theorem ExtractHashtags_empty_text_faults :
    Alloc_JString [] = .ok emptyText ∧
    (∀ v ∈ emptyTagArray.Elements, ∃ obj Text Indices, v = .JV_Object obj ∧
      obj.Members.Text = some Text ∧ obj.ExMembers.Indices = some Indices ∧
      Indices.End - Indices.Begin = (Text.Length : Int) + 1) ∧
    ExtractHashtags emptyTagArray STR_makeEmpty = .error .nullDeref := by
  refine ⟨rfl, ?_, rfl⟩
  intro v hv
  simp only [emptyTagArray, JArray.Elements, List.mem_singleton] at hv
  subst hv
  exact ⟨_, emptyText, ⟨5, 6⟩, rfl, rfl, rfl, by simp [emptyText]⟩

/-- C4 (the code falls short of the claim).  In the literal `\u0000#a` the scan reaches
the `#` at index 6 with the text holding the NUL byte decoded from `\u0000`.  The tag `a`
is a maximal run of one word byte, but `STR_append` copies it with `strcat` to the first
NUL of the text (offset 0) while `len` grows to 3: the bytes `#`, `a` are not appended and
the end of the text is never written.  Without a NUL byte in front the same step works:
`hello #world_1 bye` yields the single marker `world_1` at 6. -/
theorem Alloc_JString_hashtag_after_nul :
    Alloc_JString (lit "\\u0000") = .ok ⟨1, ⟨some [0]⟩, [], STR_makeEmpty⟩ ∧
    Alloc_JString.body (lit "\\u0000#a") 6 ⟨1, ⟨some [0]⟩, [], STR_makeEmpty⟩ =
      .error .indeterminate ∧
    Alloc_JString (lit "\\u0000#a") = .error .indeterminate ∧
    Alloc_JString (lit "hello #world_1 bye") =
      .ok ⟨18, ⟨some (lit "hello #world_1 bye")⟩, [⟨lit "world_1", 6⟩], STR_makeEmpty⟩ := by
  refine ⟨?_, ?_, ?_, ?_⟩ <;> decide

/-- C5 (the code falls short of the claim).  The retweet loop compares with `>` and `<`
although its comments say `Allow a-z`, so the bytes `a z A Z 0 9` stop it: for the literal
`RT @alice reposted` the loop stops at once on `a` and `RetweetUser` stays empty
(`ptr == NULL`), not `alice`. -/
theorem Alloc_JString_retweet_alice :
    isRetweetByte 97 = false ∧
    Alloc_JString (lit "RT @alice reposted") =
      .ok ⟨18, ⟨some (lit "RT @alice reposted")⟩, [], STR_makeEmpty⟩ := by
  refine ⟨?_, ?_⟩ <;> decide

/-- C6. When the scan stands on a `%` (index `i`, state `s`): if the next two bytes are
`20`, `21`, `2B`, `2C` or `26` the loop goes on at `i + 3` with space, `!`, `+`, `,` or `&`
appended to the text and `Length` one larger; in every other case it goes on at `i + 1`
with a literal `%` appended and `Length` one larger.  So `%20%21%2B%2C%26` decodes to
` !+,&` with `Length` 5 and `%99` to `%99` with `Length` 3; lower-case `%2b%2c`, a lone
`%2` and a final `%` are copied through. -/
theorem Alloc_JString_percent (source : List Nat) (fuel i : Nat) (s : JString)
    (hc : byteAt source i = 37) :
    (∀ d c, (d, c) ∈ [(48, 32), (49, 33), (66, 43), (67, 44), (54, 38)] →
      byteAt source (i + 1) = 50 → byteAt source (i + 2) = d →
      Alloc_JString.loop source (fuel + 1) i s =
        Alloc_JString.loop source fuel (i + 3)
          { s with Text := ⟨some (s.Text.bytes ++ [c])⟩, Length := s.Length + 1 }) ∧
    (¬ (byteAt source (i + 1) = 50 ∧ byteAt source (i + 2) ∈ [48, 49, 66, 67, 54]) →
      Alloc_JString.loop source (fuel + 1) i s =
        Alloc_JString.loop source fuel (i + 1)
          { s with Text := ⟨some (s.Text.bytes ++ [37])⟩, Length := s.Length + 1 }) ∧
    Alloc_JString (lit "%20%21%2B%2C%26") = .ok ⟨5, ⟨some (lit " !+,&")⟩, [], STR_makeEmpty⟩ ∧
    Alloc_JString (lit "%99") = .ok ⟨3, ⟨some (lit "%99")⟩, [], STR_makeEmpty⟩ ∧
    Alloc_JString (lit "%2b%2c") = .ok ⟨6, ⟨some (lit "%2b%2c")⟩, [], STR_makeEmpty⟩ ∧
    Alloc_JString (lit "%2") = .ok ⟨2, ⟨some (lit "%2")⟩, [], STR_makeEmpty⟩ ∧
    Alloc_JString (lit "%") = .ok ⟨1, ⟨some (lit "%")⟩, [], STR_makeEmpty⟩ := by
  refine ⟨?_, ?_, by decide, by decide, by decide, by decide, by decide⟩
  · intro d c hdc h2 hd
    exact Alloc_JString.loop_percent_code source fuel i s d c hc h2 hd hdc
  · intro hno
    exact Alloc_JString.loop_percent_literal source fuel i s hc hno

/-- C6, at the literal `%20x`: the scan stands on `%` at index 0, and the loop goes on at
index 3 with a space appended and `Length` 1. -/
theorem Alloc_JString_percent_witness :
    byteAt (lit "%20x") 0 = 37 ∧
    Alloc_JString.loop (lit "%20x") 4 0 ⟨0, STR_makeEmpty, [], STR_makeEmpty⟩ =
      Alloc_JString.loop (lit "%20x") 3 3 ⟨1, ⟨some [32]⟩, [], STR_makeEmpty⟩ :=
  ⟨rfl,
    (Alloc_JString_percent (lit "%20x") 3 0 ⟨0, STR_makeEmpty, [], STR_makeEmpty⟩
      rfl).1 48 32 (by simp) rfl rfl⟩

/-- C7. For four hexadecimal digits with value `c`, the literal that consists of the
single escape `\uXXXX` decodes to `Length = 1` and a text of 1 byte if `c < 0x80`, of 2
bytes if `c < 0x800` and of 3 bytes otherwise.  When the scan stands on a backslash that
is followed by `X` other than `u`, the loop goes on behind `X` with exactly one byte
appended (newline for `n`, else `X` itself) and `Length` one larger. -/
theorem Alloc_JString_escapes (d1 d2 d3 d4 h1 h2 h3 h4 : Nat)
    (e1 : hexDigitVal d1 = some h1) (e2 : hexDigitVal d2 = some h2)
    (e3 : hexDigitVal d3 = some h3) (e4 : hexDigitVal d4 = some h4) :
    (∃ js, Alloc_JString [92, 117, d1, d2, d3, d4] = .ok js ∧ js.Length = 1 ∧
      js.Text.len =
        if ((h1 * 16 + h2) * 16 + h3) * 16 + h4 < 0x80 then 1
        else if ((h1 * 16 + h2) * 16 + h3) * 16 + h4 < 0x800 then 2 else 3) ∧
    (∀ (source : List Nat) (fuel i : Nat) (s : JString),
      byteAt source i = 92 → byteAt source (i + 1) ≠ 117 →
      Alloc_JString.loop source (fuel + 1) i s =
        Alloc_JString.loop source fuel (i + 2)
          { s with Text := ⟨some (s.Text.bytes ++
                      [if byteAt source (i + 1) = 110 then 10 else byteAt source (i + 1)])⟩,
                   Length := s.Length + 1 }) := by
  refine ⟨⟨_, Alloc_JString_u4 e1 e2 e3 e4, rfl, ?_⟩, ?_⟩
  · simp only
    exact STR_appendAsUtf8_empty_len (((h1 * 16 + h2) * 16 + h3) * 16 + h4)
  · intro source fuel i s hc hn
    exact Alloc_JString.loop_escape source fuel i s hc hn

/-- C7, at the escape `\u00e9` (value `0xE9`, two bytes). -/
theorem Alloc_JString_escapes_witness :
    ∃ js, Alloc_JString (lit "\\u00e9") = .ok js ∧ js.Length = 1 ∧ js.Text.len = 2 :=
  (Alloc_JString_escapes 48 48 101 57 0 0 14 9 (by decide) (by decide) (by decide)
    (by decide)).1

/-- C8 (the code falls short of the claim).  `strtol` reads every hexadecimal digit that
follows `\u`, not four: in the literal `\u00410` it reads `00410`, so the escape decodes
to the code point `0x410` (bytes `D0 90`) instead of `0x41` (`A`), although the scan
resumes behind the fourth digit and decodes the `0` again.  The claim asks for the text
`A0`. -/
theorem Alloc_JString_u_escape_reads_fifth_digit :
    strtol16 (lit "00410") = 0x410 ∧
    Alloc_JString (lit "\\u00410") = .ok ⟨2, ⟨some [0xD0, 0x90, 48]⟩, [], STR_makeEmpty⟩ ∧
    STR_appendAsUtf8 STR_makeEmpty 0x41 = ⟨some [0x41]⟩ ∧
    Alloc_JString (lit "0") = .ok ⟨1, ⟨some [48]⟩, [], STR_makeEmpty⟩ := by
  refine ⟨?_, ?_, ?_, ?_⟩ <;> decide

/-- C9. Whenever `Alloc_JString` builds a decoded string, its `Length` is at most the
byte length of its `Text`; and it builds one for every literal without a `#`. -/
theorem Alloc_JString_Length_le_len (source : List Nat) :
    (∀ js, Alloc_JString source = .ok js → js.Length ≤ js.Text.len) ∧
    (35 ∉ source → ∃ js, Alloc_JString source = .ok js) :=
  ⟨Alloc_JString.length_le_of_ok source, Alloc_JString_ok_of_no_hash source⟩

/-- C9, at the literal `\u00e9 #ab`: a decoded string is built, with `Length` 5 and 6
bytes of text. -/
theorem Alloc_JString_Length_le_len_witness :
    Alloc_JString (lit "\\u00e9 #ab") =
      .ok ⟨5, ⟨some [0xC3, 0xA9, 32, 35, 97, 98]⟩, [⟨lit "ab", 2⟩], STR_makeEmpty⟩ ∧
    (5 : Nat) ≤ (Str_c.mk (some [0xC3, 0xA9, 32, 35, 97, 98])).len :=
  ⟨by decide,
    (Alloc_JString_Length_le_len (lit "\\u00e9 #ab")).1
      ⟨5, ⟨some [0xC3, 0xA9, 32, 35, 97, 98]⟩, [⟨lit "ab", 2⟩], STR_makeEmpty⟩ (by decide)⟩

/-- C10 fails as stated: the two raw bytes `C3 A9` (the UTF-8 form of `é`) are copied
through and counted one logical character each, so `Length = 2` equals the byte length
although no byte of the text is below `0x80`; and `\u-1` (no hexadecimal digit behind
`\u`) decodes to the single byte `FF` with `Length = 1`. -/
theorem Alloc_JString_raw_bytes_counted_each :
    Alloc_JString [0xC3, 0xA9] = .ok ⟨2, ⟨some [0xC3, 0xA9]⟩, [], STR_makeEmpty⟩ ∧
    Alloc_JString (lit "\\u-1") = .ok ⟨1, ⟨some [0xFF]⟩, [], STR_makeEmpty⟩ ∧
    ¬ (∀ source js, Alloc_JString source = .ok js → js.Length = js.Text.len →
        ∀ b ∈ js.Text.bytes, b < 0x80) := by
  refine ⟨by decide, by decide, ?_⟩
  intro hall
  have := hall [0xC3, 0xA9] ⟨2, ⟨some [0xC3, 0xA9]⟩, [], STR_makeEmpty⟩ (by decide) (by decide)
    0xC3 (by decide)
  omega

/-- C10, amended.  For every raw literal whose bytes are all below `0x80` and in which
every backslash-`u` pair is followed by a hexadecimal digit: `Length` is the number of
code points of `Text` (its bytes that are not UTF-8 continuation bytes); if `Length`
equals the byte length of `Text` then every byte of `Text` is below `0x80`; and `Length`
is strictly smaller than the byte length whenever `Text` holds a byte of a multi-byte
character. -/
theorem Alloc_JString_equal_length_ascii (source : List Nat) (js : JString)
    (hascii : ∀ b ∈ source, b < 0x80)
    (hhex : ∀ i, byteAt source i = 92 → byteAt source (i + 1) = 117 →
      hexDigitVal (byteAt source (i + 2)) ≠ none)
    (h : Alloc_JString source = .ok js) :
    js.Length = codepointCount js.Text.bytes ∧
    (js.Length = js.Text.len → ∀ b ∈ js.Text.bytes, b < 0x80) ∧
    ((∃ b ∈ js.Text.bytes, 0x80 ≤ b) → js.Length < js.Text.len) := by
  obtain ⟨h1, h2⟩ := Alloc_JString_asciiWhenEqual source js hascii hhex h
  refine ⟨(Alloc_JString_codepoints source js hascii hhex h).symm, h2, ?_⟩
  rintro ⟨b, hb, hge⟩
  rcases Nat.lt_or_ge js.Length js.Text.len with hlt | hge2
  · exact hlt
  · have := h2 (by omega) b hb
    omega

/-- C10 amended, at the literal `\u00e9!`: the literal is ASCII, its only backslash-`u`
pair is followed by `0`, and the decoded text has 3 bytes and `Length` 2. -/
theorem Alloc_JString_equal_length_ascii_witness :
    (∀ b ∈ lit "\\u00e9!", b < 0x80) ∧
    Alloc_JString (lit "\\u00e9!") = .ok ⟨2, ⟨some [0xC3, 0xA9, 33]⟩, [], STR_makeEmpty⟩ ∧
    (2 : Nat) = codepointCount [0xC3, 0xA9, 33] ∧
    (2 : Nat) < (Str_c.mk (some [0xC3, 0xA9, 33])).len := by
  have hascii : ∀ b ∈ lit "\\u00e9!", b < 0x80 := by decide
  have hhex : ∀ i, byteAt (lit "\\u00e9!") i = 92 → byteAt (lit "\\u00e9!") (i + 1) = 117 →
      hexDigitVal (byteAt (lit "\\u00e9!") (i + 2)) ≠ none := by
    intro i h92 _
    have hi : i < (lit "\\u00e9!").length := byteAt_ne_zero_lt (by omega)
    have hi7 : i < 7 := hi
    interval_cases i <;> first | decide | exact absurd h92 (by decide)
  have hthm := Alloc_JString_equal_length_ascii (lit "\\u00e9!")
    ⟨2, ⟨some [0xC3, 0xA9, 33]⟩, [], STR_makeEmpty⟩ hascii hhex (by decide)
  exact ⟨hascii, by decide, hthm.1, hthm.2.2 ⟨0xC3, by decide, by decide⟩⟩

/-- C11. For every literal that contains none of the bytes backslash, `%` and `#`,
`Alloc_JString` builds a decoded string whose text is the literal byte for byte, whose
`Length` (and byte length) is the byte length of the literal and whose `Hashtags` list is
empty. -/
theorem Alloc_JString_plain (source : List Nat)
    (h92 : 92 ∉ source) (h37 : 37 ∉ source) (h35 : 35 ∉ source) :
    ∃ js, Alloc_JString source = .ok js ∧ js.Text.bytes = source ∧
      js.Length = source.length ∧ js.Text.len = source.length ∧ js.Hashtags = [] := by
  obtain ⟨s2, hl, ht, hlen, hh, -⟩ :=
    Alloc_JString.loop_plain source h92 h37 h35 source.length 0
      ⟨0, STR_makeEmpty, [], STR_makeEmpty⟩ (by omega)
  have ht2 : s2.Text.bytes = source := by
    rw [ht]
    simp [STR_makeEmpty_bytes]
  have hlen2 : s2.Length = source.length := by
    rw [hlen]
    simp
  unfold Alloc_JString
  rw [hl]
  split_ifs
  · exact ⟨_, rfl, ht2, hlen2, by simp only [Str_c.len, ht2], hh⟩
  · exact ⟨_, rfl, ht2, hlen2, by simp only [Str_c.len, ht2], hh⟩

/-- C11, at the literal `hello world`. -/
theorem Alloc_JString_plain_witness :
    ∃ js, Alloc_JString (lit "hello world") = .ok js ∧
      js.Text.bytes = lit "hello world" ∧ js.Length = 11 ∧ js.Text.len = 11 ∧
      js.Hashtags = [] :=
  Alloc_JString_plain (lit "hello world") (by decide) (by decide) (by decide)

/-- C12 (the code falls short of the claim).  When the byte behind a `#` is not a word
byte, `hashtag.Tag` is never written and `hashtag.Tag.ptr` stays `NULL`; the statement
`STR_append(&s->Text, hashtag.Tag.ptr)` then calls `strlen(NULL)`.  For the literals
`a# b` and `#!` no decoded string is built: the `#` is not appended with `Length` one
larger, as the claim says, and the literal does not yield zero markers. -/
theorem Alloc_JString_bare_hash_faults :
    Alloc_JString.body (lit "a# b") 1 ⟨1, ⟨some (lit "a")⟩, [], STR_makeEmpty⟩ =
      .error .nullDeref ∧
    Alloc_JString (lit "a# b") = .error .nullDeref ∧
    Alloc_JString (lit "#!") = .error .nullDeref := by
  refine ⟨?_, ?_, ?_⟩ <;> decide

/-- C13. In every registry state `MaybeInsertIdStr(x)` returns true if and only if no
id string stored equals `x` (as a C string), and `MaybeInsertUserId(n)` returns true if
and only if `n` is not stored.  From the empty registry: inserting `id1` returns true,
inserting `id1` again returns false, and inserting `id2` after that returns true. -/
theorem MaybeInsert_true_iff (database : JsonDB) :
    (∀ x, (MaybeInsertIdStr database x).1 = true ↔
      ¬ ∃ e ∈ database.IdStrs, cstr x = cstr e) ∧
    (∀ n, (MaybeInsertUserId database n).1 = true ↔ n ∉ database.UserIds) ∧
    (MaybeInsertIdStr emptyDatabase (lit "id1")).1 = true ∧
    (MaybeInsertIdStr (MaybeInsertIdStr emptyDatabase (lit "id1")).2 (lit "id1")).1 = false ∧
    (MaybeInsertIdStr
      (MaybeInsertIdStr (MaybeInsertIdStr emptyDatabase (lit "id1")).2 (lit "id1")).2
      (lit "id2")).1 = true := by
  refine ⟨?_, ?_, by decide, by decide, by decide⟩
  · intro x
    rw [← MaybeInsertIdStr_found_iff]
    unfold MaybeInsertIdStr
    by_cases h : MaybeInsertIdStr.found x database.IdStrs = true <;> simp [h]
  · intro n
    rw [← MaybeInsertUserId_found_iff]
    unfold MaybeInsertUserId
    by_cases h : MaybeInsertUserId.found n database.UserIds = true <;> simp [h]

/-- C14. A call of `MaybeInsertIdStr` or `MaybeInsertUserId` that returns false leaves
the registry as it was.  A call that returns true appends the offered value (for an id
string, the C string offered) at the end of its own sequence, in front of which every
earlier entry stays in place, and leaves the other sequence as it was. -/
theorem MaybeInsert_frame (database : JsonDB) (x : List Nat) (n : Int) :
    ((MaybeInsertIdStr database x).1 = false → (MaybeInsertIdStr database x).2 = database) ∧
    ((MaybeInsertIdStr database x).1 = true →
      (MaybeInsertIdStr database x).2.IdStrs = database.IdStrs ++ [cstr x] ∧
      (MaybeInsertIdStr database x).2.UserIds = database.UserIds) ∧
    (0 ∉ x → cstr x = x) ∧
    ((MaybeInsertUserId database n).1 = false → (MaybeInsertUserId database n).2 = database) ∧
    ((MaybeInsertUserId database n).1 = true →
      (MaybeInsertUserId database n).2.UserIds = database.UserIds ++ [n] ∧
      (MaybeInsertUserId database n).2.IdStrs = database.IdStrs) := by
  refine ⟨?_, ?_, ?_, ?_, ?_⟩
  · unfold MaybeInsertIdStr
    by_cases h : MaybeInsertIdStr.found x database.IdStrs = true <;> simp [h]
  · unfold MaybeInsertIdStr
    by_cases h : MaybeInsertIdStr.found x database.IdStrs = true <;> simp [h, Vec_add]
  · intro h0
    apply cstr_eq_self
    intro b hb hz
    exact h0 (hz ▸ hb)
  · unfold MaybeInsertUserId
    by_cases h : MaybeInsertUserId.found n database.UserIds = true <;> simp [h]
  · unfold MaybeInsertUserId
    by_cases h : MaybeInsertUserId.found n database.UserIds = true <;> simp [h, Vec_add]

/-- C15. In the registry reached from the empty one by any finite sequence of
`MaybeInsertIdStr` and `MaybeInsertUserId` calls, neither sequence holds a duplicate,
each sequence consists of the distinct values offered to it, in the order of their first
offer, and no call makes either sequence shorter. -/
theorem runCalls_invariant (calls : List RegistryCall) :
    (runCalls emptyDatabase calls).IdStrs.Nodup ∧
    (runCalls emptyDatabase calls).UserIds.Nodup ∧
    (runCalls emptyDatabase calls).IdStrs = firstOccurrences (offeredIdStrs calls) ∧
    (runCalls emptyDatabase calls).UserIds = firstOccurrences (offeredUserIds calls) ∧
    (∀ (database : JsonDB) (c : RegistryCall),
      database.IdStrs.length ≤ (c.run database).IdStrs.length ∧
      database.UserIds.length ≤ (c.run database).UserIds.length) := by
  rw [runCalls_eq]
  refine ⟨firstOccurrences_nodup _, firstOccurrences_nodup _, rfl, rfl, ?_⟩
  intro database c
  cases c with
  | idStr data =>
    simp only [RegistryCall.run, MaybeInsertIdStr]
    by_cases h : MaybeInsertIdStr.found data database.IdStrs = true <;> simp [h, Vec_add]
  | userId id =>
    simp only [RegistryCall.run, MaybeInsertUserId]
    by_cases h : MaybeInsertUserId.found id database.UserIds = true <;> simp [h, Vec_add]

/-- C16. For every object `o` and member `m` whose value has the type its role expects,
`AddMemberToObject(o, m)` appends `m` at the end of the member list and sets exactly the
schema field of the role: the String payload for `IdStr`, `Text`, `CreatedAt`, `UName`,
`UScreenName`, `ULocation`, `FullText`; the Object payload for `User`, `TweetObj`,
`ExTweet`, `Entities`; the Int payload for `UId`; the Bool payload for `Truncated`; the
range of the Array payload for `DisplayRange` and `Indices`; the Array payload itself for
`Hashtags`.  Every other schema field keeps its value, and role `E_None` changes no
schema field (whatever the value). -/
theorem AddMemberToObject_expected (o : JObject) (Name : Str_c) :
    (∀ v, AddMemberToObject o (.mk Name v .E_None) =
      .ok (.mk (o.Memberlist ++ [.mk Name v .E_None]) o.Members o.ExMembers)) ∧
    (∀ s, AddMemberToObject o (.mk Name (.JV_StrObj s) .E_IdStr) =
      .ok (.mk (o.Memberlist ++ [.mk Name (.JV_StrObj s) .E_IdStr])
        { o.Members with IdStr := some s } o.ExMembers)) ∧
    (∀ s, AddMemberToObject o (.mk Name (.JV_StrObj s) .E_Text) =
      .ok (.mk (o.Memberlist ++ [.mk Name (.JV_StrObj s) .E_Text])
        { o.Members with Text := some s } o.ExMembers)) ∧
    (∀ s, AddMemberToObject o (.mk Name (.JV_StrObj s) .E_CreatedAt) =
      .ok (.mk (o.Memberlist ++ [.mk Name (.JV_StrObj s) .E_CreatedAt])
        { o.Members with CreatedAt := some s } o.ExMembers)) ∧
    (∀ s, AddMemberToObject o (.mk Name (.JV_StrObj s) .E_UName) =
      .ok (.mk (o.Memberlist ++ [.mk Name (.JV_StrObj s) .E_UName])
        { o.Members with UName := some s } o.ExMembers)) ∧
    (∀ s, AddMemberToObject o (.mk Name (.JV_StrObj s) .E_UScreenName) =
      .ok (.mk (o.Memberlist ++ [.mk Name (.JV_StrObj s) .E_UScreenName])
        { o.Members with UScreenName := some s } o.ExMembers)) ∧
    (∀ s, AddMemberToObject o (.mk Name (.JV_StrObj s) .E_ULocation) =
      .ok (.mk (o.Memberlist ++ [.mk Name (.JV_StrObj s) .E_ULocation])
        { o.Members with ULocation := some s } o.ExMembers)) ∧
    (∀ s, AddMemberToObject o (.mk Name (.JV_StrObj s) .E_FullText) =
      .ok (.mk (o.Memberlist ++ [.mk Name (.JV_StrObj s) .E_FullText])
        o.Members { o.ExMembers with FullText := some s })) ∧
    (∀ p, AddMemberToObject o (.mk Name (.JV_Object p) .E_User) =
      .ok (.mk (o.Memberlist ++ [.mk Name (.JV_Object p) .E_User])
        { o.Members with User := some p } o.ExMembers)) ∧
    (∀ p, AddMemberToObject o (.mk Name (.JV_Object p) .E_TweetObj) =
      .ok (.mk (o.Memberlist ++ [.mk Name (.JV_Object p) .E_TweetObj])
        { o.Members with TweetObj := some p } o.ExMembers)) ∧
    (∀ p, AddMemberToObject o (.mk Name (.JV_Object p) .E_ExTweet) =
      .ok (.mk (o.Memberlist ++ [.mk Name (.JV_Object p) .E_ExTweet])
        o.Members { o.ExMembers with ExTweet := some p })) ∧
    (∀ p, AddMemberToObject o (.mk Name (.JV_Object p) .E_Entities) =
      .ok (.mk (o.Memberlist ++ [.mk Name (.JV_Object p) .E_Entities])
        o.Members { o.ExMembers with Entities := some p })) ∧
    (∀ n, AddMemberToObject o (.mk Name (.JV_Int n) .E_UId) =
      .ok (.mk (o.Memberlist ++ [.mk Name (.JV_Int n) .E_UId])
        { o.Members with UId := some n } o.ExMembers)) ∧
    (∀ b, AddMemberToObject o (.mk Name (.JV_Bool b) .E_Truncated) =
      .ok (.mk (o.Memberlist ++ [.mk Name (.JV_Bool b) .E_Truncated])
        o.Members { o.ExMembers with Truncated := some b })) ∧
    (∀ a, AddMemberToObject o (.mk Name (.JV_Array a) .E_DisplayRange) =
      .ok (.mk (o.Memberlist ++ [.mk Name (.JV_Array a) .E_DisplayRange])
        o.Members { o.ExMembers with DisplayRange := some a.AsRange })) ∧
    (∀ a, AddMemberToObject o (.mk Name (.JV_Array a) .E_Indices) =
      .ok (.mk (o.Memberlist ++ [.mk Name (.JV_Array a) .E_Indices])
        o.Members { o.ExMembers with Indices := some a.AsRange })) ∧
    (∀ a, AddMemberToObject o (.mk Name (.JV_Array a) .E_Hashtags) =
      .ok (.mk (o.Memberlist ++ [.mk Name (.JV_Array a) .E_Hashtags])
        o.Members { o.ExMembers with Hashtags := some a })) :=
  ⟨fun _ => rfl, fun _ => rfl, fun _ => rfl, fun _ => rfl, fun _ => rfl, fun _ => rfl,
    fun _ => rfl, fun _ => rfl, fun _ => rfl, fun _ => rfl, fun _ => rfl, fun _ => rfl,
    fun _ => rfl, fun _ => rfl, fun _ => rfl, fun _ => rfl, fun _ => rfl⟩

/-- C18 fails as stated: after the two calls that add `"text": "a"` and `"text": "b"`
to a fresh object, `Text` is bound although two members of the member list carry the role
`E_Text`, not exactly one. -/
theorem AddMembers_duplicate_role :
    ∃ o, AddMembers Alloc_JObject [exampleTextMemberA, exampleTextMemberB] = .ok o ∧
      o.bound .E_Text = true ∧
      (o.Memberlist.filter (fun m => m.SpecialType = .E_Text)).length = 2 :=
  ⟨_, rfl, rfl, by decide⟩

/-- C18, amended.  For every object built from a fresh `Alloc_JObject` by a sequence of
`AddMemberToObject` calls, the member list holds the members added, in the order of the
calls, and a schema field is non-null only if at least one member carrying the
corresponding role is in the member list; a freshly allocated object has every schema
field null. -/
theorem AddMembers_bound (members : List JMember) (o : JObject)
    (h : AddMembers Alloc_JObject members = .ok o) :
    o.Memberlist = members ∧
    (∀ role, o.bound role = true → ∃ m ∈ o.Memberlist, m.SpecialType = role) ∧
    (∀ role, Alloc_JObject.bound role = false) := by
  have key : ∀ (ms : List JMember) (o0 o1 : JObject), AddMembers o0 ms = .ok o1 →
      (∀ role, o0.bound role = true → ∃ m ∈ o0.Memberlist, m.SpecialType = role) →
      o1.Memberlist = o0.Memberlist ++ ms ∧
      (∀ role, o1.bound role = true → ∃ m ∈ o1.Memberlist, m.SpecialType = role) := by
    intro ms
    induction ms with
    | nil =>
      intro o0 o1 h0 hinv
      simp only [AddMembers, Except.ok.injEq] at h0
      subst h0
      exact ⟨by simp, hinv⟩
    | cons m rest ih =>
      intro o0 o1 h0 hinv
      unfold AddMembers at h0
      cases hs : AddMemberToObject o0 m with
      | error e => rw [hs] at h0; simp at h0
      | ok o2 =>
        rw [hs] at h0
        obtain ⟨hml, hb⟩ := AddMemberToObject_step hs
        have hinv2 : ∀ role, o2.bound role = true →
            ∃ m ∈ o2.Memberlist, m.SpecialType = role := by
          intro role hr
          rw [hml]
          rcases hb role hr with h1 | h1
          · obtain ⟨m1, hm1, hr1⟩ := hinv role h1
            exact ⟨m1, List.mem_append_left _ hm1, hr1⟩
          · exact ⟨m, by simp, h1.symm⟩
        obtain ⟨h3, h4⟩ := ih o2 o1 h0 hinv2
        refine ⟨?_, h4⟩
        rw [h3, hml]
        simp
  have hfresh : ∀ role, Alloc_JObject.bound role = false := by
    intro role
    cases role <;> rfl
  obtain ⟨h1, h2⟩ := key members Alloc_JObject o h (by
    intro role hr
    rw [hfresh role] at hr
    exact absurd hr (by simp))
  refine ⟨?_, h2, hfresh⟩
  rw [h1]
  rfl

/-- C18 amended, at the two calls that add `"text": "a"` and `"text": "b"`. -/
theorem AddMembers_bound_witness :
    ∃ o, AddMembers Alloc_JObject [exampleTextMemberA, exampleTextMemberB] = .ok o ∧
      o.Memberlist = [exampleTextMemberA, exampleTextMemberB] ∧
      ∃ m ∈ o.Memberlist, m.SpecialType = .E_Text :=
  ⟨_, rfl,
    (AddMembers_bound [exampleTextMemberA, exampleTextMemberB] _ rfl).1,
    (AddMembers_bound [exampleTextMemberA, exampleTextMemberB] _ rfl).2.1 .E_Text rfl⟩

/-- C19 (the code falls short of the claim).  For an extended tweet whose display range
matches and whose `Entities` is bound to an object without a `Hashtags` member,
`FormsValidExtendedTweetObj` reads `o->ExMembers.Entities->ExMembers.Hashtags->Hashtags.size`
through the null `Hashtags` pointer.  For a hashtags array with an element whose text is
the empty string and whose indices are one wide, `ExtractHashtags` hands the null
`Text.ptr` to `STR_make`, whose `strlen` reads through it.  Neither call returns a
boolean. -/
theorem validators_null_reads :
    exampleExTweetNoHashtags.ExMembers.Entities = some Alloc_JObject ∧
    Alloc_JObject.ExMembers.Hashtags = none ∧
    FormsValidExtendedTweetObj exampleExTweetNoHashtags STR_makeEmpty = .error .nullDeref ∧
    emptyText.Text.ptr = none ∧
    ExtractHashtags emptyTagArray STR_makeEmpty = .error .nullDeref :=
  ⟨rfl, rfl, rfl, rfl, rfl⟩

/-- C20 (the code falls short of the claim).  The scan index moves forward in every
pass, a `%` as last byte and a trailing backslash are decoded, but for a `#` that is not
followed by a word byte the tag container is never written, its `ptr` is `NULL`, and
`STR_append(&s->Text, hashtag.Tag.ptr)` hands this absent buffer to `strlen`: for the
literals `#` and `# a` `Alloc_JString` does not return a decoded string. -/
theorem Alloc_JString_null_tag_buffer :
    (readHashtag (lit " a") STR_makeEmpty).ptr = none ∧
    STR_append (STR_addChar STR_makeEmpty 35) none = .error .nullDeref ∧
    Alloc_JString (lit "#") = .error .nullDeref ∧
    Alloc_JString (lit "# a") = .error .nullDeref ∧
    Alloc_JString (lit "%") = .ok ⟨1, ⟨some (lit "%")⟩, [], STR_makeEmpty⟩ ∧
    Alloc_JString (lit "\\") = .ok ⟨1, ⟨some [0]⟩, [], STR_makeEmpty⟩ ∧
    (∀ source i j s s1, Alloc_JString.body source i s = .ok (j, s1) → i < j + 1) := by
  refine ⟨by decide, by decide, by decide, by decide, by decide, by decide, ?_⟩
  intro source i j s s1 h
  have := (Alloc_JString.body_cases h).1
  omega

/-- C22. `FormsValidOuterObject` reports the first failing condition only.  When it
returns true the reason buffer is as it was.  Otherwise it returns false with exactly one
message appended, the message of the first condition that fails in the order (1) `IdStr`,
`Text`, `User`, `CreatedAt` bound, (2) `DisplayRange` bound, (3) `DisplayRange` equal to
`[0, Text.Length]`, (4) `ExTweet` bound, where (2) to (4) are required of an object whose
`Truncated` is true.  So an object with the four required fields, `Truncated` true and
no `DisplayRange` gets the reason `Missing display range when truncated == true.`, and
one whose `DisplayRange` does not match gets `Display Range did not match the given
text.` whether `ExTweet` is bound or not. -/
theorem FormsValidOuterObject_first_failure (o : JObject) (fm : Str_c) :
    (∀ m, FormsValidOuterObject o fm = .ok (true, m) → m = fm) ∧
    (outerObjectReason o = none → FormsValidOuterObject o fm = .ok (true, fm)) ∧
    (∀ msg, outerObjectReason o = some msg → 0 ∉ fm.bytes →
      FormsValidOuterObject o fm = .ok (false, ⟨some (fm.bytes ++ msg)⟩) ∧
      msg ∈ [lit "Missing field IdStr/Text/User/CreatedAt",
        lit "Missing display range when truncated == true.",
        lit "Display Range did not match the given text.",
        lit "Missing extended tweet when truncated == true."]) ∧
    (∀ t Text, o.Members.IdStr ≠ none → o.Members.Text = some Text → o.Members.User ≠ none →
      o.Members.CreatedAt ≠ none → o.ExMembers.Truncated = some t → t ≠ 0 →
      (o.ExMembers.DisplayRange = none →
        FormsValidOuterObject o STR_makeEmpty =
          .ok (false, ⟨some (lit "Missing " ++ lit "display range" ++
            lit " when truncated == true.")⟩)) ∧
      (∀ r, o.ExMembers.DisplayRange = some r → r.Begin ≠ 0 ∨ r.End ≠ (Text.Length : Int) →
        FormsValidOuterObject o STR_makeEmpty =
          .ok (false, ⟨some (lit "Display Range did not match the given text.")⟩))) := by
  have key := FormsValidOuterObject_eq_reason o fm
  refine ⟨?_, ?_, ?_, ?_⟩
  · intro m hm
    rw [key] at hm
    cases hr : outerObjectReason o with
    | none =>
      rw [hr] at hm
      simp only [Except.ok.injEq, Prod.mk.injEq, true_and] at hm
      exact hm.symm
    | some msg =>
      rw [hr] at hm
      exact absurd hm (failWith_ne_true _ _ _)
  · intro hr
    rw [key, hr]
  · intro msg hr h0
    refine ⟨?_, outerObjectReason_mem hr⟩
    rw [key, hr]
    exact failWith_no_nul h0 (outerObjectReason_cstr hr)
  · intro t Text h1 h2 h3 h4 h5 h6
    obtain ⟨ml, ⟨id, tx, ca, us, un, usn, ul, uid, tw⟩, ⟨ex, tr, dr, en, ht, ind, ft⟩⟩ := o
    simp only [JObject.Members, JObject.ExMembers] at h1 h2 h3 h4 h5
    subst h2 h5
    rcases id with _ | id
    · exact absurd rfl h1
    rcases us with _ | us
    · exact absurd rfl h3
    rcases ca with _ | ca
    · exact absurd rfl h4
    refine ⟨?_, ?_⟩
    · intro hd
      simp only [JObject.ExMembers] at hd
      subst hd
      simp only [FormsValidOuterObject, JObject.Members, JObject.ExMembers, h6, if_false,
        failWith_empty]
      rfl
    · intro r hd hr
      simp only [JObject.ExMembers, Option.some.injEq] at hd
      subst hd
      simp only [FormsValidOuterObject, JObject.Members, JObject.ExMembers, h6, if_false,
        ne_eq, hr, if_true, failWith_empty]
      rfl

/-- C22, at two truncated tweet objects with the four required fields: the one without a
`DisplayRange` gets the missing-display-range message; the one whose `DisplayRange` is
`[0, 5]` for a text of `Length` 6 and that has no `ExTweet` gets the display-range
message only. -/
theorem FormsValidOuterObject_first_failure_witness :
    outerObjectReason exampleTruncatedNoRange =
      some (lit "Missing display range when truncated == true.") ∧
    FormsValidOuterObject exampleTruncatedNoRange STR_makeEmpty =
      .ok (false, ⟨some (lit "Missing display range when truncated == true.")⟩) ∧
    FormsValidOuterObject exampleTruncatedBadRange STR_makeEmpty =
      .ok (false, ⟨some (lit "Display Range did not match the given text.")⟩) :=
  ⟨by decide,
    ((FormsValidOuterObject_first_failure exampleTruncatedNoRange STR_makeEmpty).2.2.1
      (lit "Missing display range when truncated == true.") (by decide) (by decide)).1,
    ((FormsValidOuterObject_first_failure exampleTruncatedBadRange STR_makeEmpty).2.2.2
      1 exampleText (by decide) rfl (by simp [exampleTruncatedBadRange, JObject.Members])
      (by decide) rfl (by decide)).2 ⟨0, 5⟩ rfl (by decide)⟩

/-- C23 (the code falls short of the claim).  Both elements of the array
`[{"text": "world", "indices": [2, 8]}, {"text": "", "indices": [5, 6]}]` pass the three
checks, so the claim has the call leave two markers.  The text of the second element is the
decoded empty string, whose `Text.ptr` is `NULL`; `ExtractHashtags` hands it to `STR_make`,
whose `strlen` reads through it, and the call does not return.  For the element
`{"text": "\u0000!", "indices": [1, 4]}` the call returns true, but `STR_make` copies the
C string at `Text.ptr`, which ends at the NUL byte: the marker's tag is empty, not the two
bytes of the decoded text.  An element that fails a check does leave the markers of the
elements in front of it in place. -/
theorem ExtractHashtags_accepted_text_lost :
    (∀ v ∈ exampleTagArrayThenEmpty.Elements, ∃ obj Text Indices, v = .JV_Object obj ∧
      obj.Members.Text = some Text ∧ obj.ExMembers.Indices = some Indices ∧
      Indices.End - Indices.Begin = (Text.Length : Int) + 1) ∧
    ExtractHashtags exampleTagArrayThenEmpty STR_makeEmpty = .error .nullDeref ∧
    Alloc_JString (lit "\\u0000!") = .ok exampleTextNul ∧
    ExtractHashtags exampleTagArrayNul STR_makeEmpty =
      .ok (true, .mk exampleTagArrayNul.Elements ⟨-1, -1⟩ [⟨[], 1⟩], STR_makeEmpty) ∧
    ExtractHashtags exampleTagArrayThenInt STR_makeEmpty =
      .ok (false, .mk exampleTagArrayThenInt.Elements ⟨-1, -1⟩ [⟨lit "world", 2⟩],
        ⟨some (lit "An element of the array is not an object.")⟩) := by
  refine ⟨?_, rfl, by decide, rfl, rfl⟩
  intro v hv
  simp only [exampleTagArrayThenEmpty, exampleTagArray, emptyTagArray, JArray.Elements,
    List.cons_append, List.nil_append, List.mem_cons, List.mem_singleton,
    List.not_mem_nil, or_false] at hv
  rcases hv with rfl | rfl
  · exact ⟨_, ⟨5, ⟨some (lit "world")⟩, [], STR_makeEmpty⟩, ⟨2, 8⟩, rfl, rfl, rfl, by norm_num⟩
  · exact ⟨_, emptyText, ⟨5, 6⟩, rfl, rfl, rfl, by simp [emptyText]⟩

/-- C24 (the code falls short of the claim).  `HashTagData.Begin` is an `unsigned int`,
and `Data.Begin = Subobject->ExMembers.Indices->Begin` converts the `long long` to it: of
`Indices.Begin = 4294967299` (`2 ^ 32 + 3`) the marker keeps 3.  The element
`{"text": "ab", "indices": [4294967299, 4294967302]}` is accepted with a marker at 3, and
`FormsValidExtendedTweetObj` then accepts the text `hi #ab`, whose hashtag is at offset 3,
with these entities.  The example of the claim (`[2, 8]`, five bytes of text) does give
`Begin = 2`. -/
theorem ExtractHashtags_Begin_truncated :
    ExtractHashtags exampleTagArrayWide STR_makeEmpty =
      .ok (true, .mk exampleTagArrayWide.Elements ⟨-1, -1⟩ [⟨lit "ab", 3⟩], STR_makeEmpty) ∧
    (ExtractHashtags.marker ⟨2, ⟨some (lit "ab")⟩, [], STR_makeEmpty⟩
      ⟨4294967299, 4294967302⟩).Begin = 3 ∧
    Alloc_JString (lit "hi #ab") = .ok exampleText ∧
    FormsValidExtendedTweetObj exampleExTweetWide STR_makeEmpty = .ok (true, STR_makeEmpty) ∧
    ExtractHashtags exampleTagArray STR_makeEmpty =
      .ok (true, .mk exampleTagArray.Elements ⟨-1, -1⟩ [⟨lit "world", 2⟩], STR_makeEmpty) := by
  refine ⟨rfl, by decide, by decide, rfl, rfl⟩

/-- C26 fails as stated: `Alloc_JArrayRange(0, 5)` inserts the range end first, so the
element list, and with it the forward traversal of `Print_JArray`, is `5` and then `0`,
not `0` and then `5`. -/
theorem Alloc_JArrayRange_end_first :
    (Alloc_JArrayRange 0 5).Elements = [.JV_Int 5, .JV_Int 0] ∧
    Print_JArray.visited (Alloc_JArrayRange 0 5) = [.JV_Int 5, .JV_Int 0] ∧
    Print_JArray.visited (Alloc_JArrayRange 0 5) ≠ [.JV_Int 0, .JV_Int 5] := by
  refine ⟨rfl, rfl, ?_⟩
  intro h
  have h2 : Print_JArray.visited (Alloc_JArrayRange 0 5) = [.JV_Int 5, .JV_Int 0] := rfl
  rw [h2] at h
  simp at h

/-- C26, amended.  For all 64-bit integers `from` and `to`, `Alloc_JArrayRange(from, to)`
returns an array whose range is `(Begin = from, End = to)`, whose hashtag-extraction list
is empty, and whose element list has exactly two elements, both `Int` values, inserted
range end first and begin value second, so that the forward element traversal yields `to`
and then `from`. -/
theorem Alloc_JArrayRange_spec (from_ to_ : Int) :
    (Alloc_JArrayRange from_ to_).AsRange = ⟨from_, to_⟩ ∧
    (Alloc_JArrayRange from_ to_).Hashtags = [] ∧
    (Alloc_JArrayRange from_ to_).Elements = [.JV_Int to_, .JV_Int from_] ∧
    (Alloc_JArrayRange from_ to_).Elements.length = 2 ∧
    (∀ v ∈ (Alloc_JArrayRange from_ to_).Elements, v.Type = .E_Int) ∧
    Print_JArray.visited (Alloc_JArrayRange from_ to_) = [.JV_Int to_, .JV_Int from_] := by
  refine ⟨rfl, rfl, rfl, rfl, ?_, ?_⟩
  · intro v hv
    have he : (Alloc_JArrayRange from_ to_).Elements = [.JV_Int to_, .JV_Int from_] := rfl
    rw [he] at hv
    simp only [List.mem_cons, List.mem_singleton, List.not_mem_nil, or_false] at hv
    rcases hv with rfl | rfl <;> rfl
  · rw [Print_JArray_visited_eq]
    rfl

/-- C27. For every code point `c` with `0 <= c < 0x10000`, `STR_appendAsUtf8` leaves the
bytes of the container in place and appends the UTF-8 encoding of `c`: the single byte
`c` when `c < 0x80`; the two bytes `0xC0 | (c >> 6)`, `0x80 | (c & 0x3F)` when
`c < 0x800`; otherwise the three bytes `0xE0 | (c >> 12)`, `0x80 | ((c >> 6) & 0x3F)`,
`0x80 | (c & 0x3F)`.  Decoding these bytes with the standard UTF-8 bit layout gives back
`c`. -/
theorem STR_appendAsUtf8_standard (str : Str_c) (c : Nat) (hc : c < 0x10000) :
    (STR_appendAsUtf8 str (c : Int)).bytes = str.bytes ++ utf8Encode c ∧
    (c < 0x80 → utf8Encode c = [c]) ∧
    (0x80 ≤ c → c < 0x800 → utf8Encode c = [0xC0 ||| (c >>> 6), 0x80 ||| (c &&& 0x3F)]) ∧
    (0x800 ≤ c → utf8Encode c =
      [0xE0 ||| (c >>> 12), 0x80 ||| ((c >>> 6) &&& 0x3F), 0x80 ||| (c &&& 0x3F)]) ∧
    utf8Decode (utf8Encode c) = some c := by
  refine ⟨STR_appendAsUtf8_bytes str c hc, ?_, ?_, ?_, utf8Decode_utf8Encode c hc⟩
  · intro h
    simp [utf8Encode, h]
  · intro h1 h2
    have : ¬ c < 0x80 := by omega
    simp [utf8Encode, this, h2]
  · intro h1
    have a : ¬ c < 0x80 := by omega
    have b : ¬ c < 0x800 := by omega
    simp [utf8Encode, a, b]

/-- C27, at the code point `0x20AC` appended to the text `a`: the bytes `E2 82 AC` follow
the `a`, and they decode to `0x20AC`. -/
theorem STR_appendAsUtf8_standard_witness :
    (STR_appendAsUtf8 ⟨some (lit "a")⟩ 0x20AC).bytes = [97, 0xE2, 0x82, 0xAC] ∧
    utf8Decode [0xE2, 0x82, 0xAC] = some 0x20AC := by
  have h := STR_appendAsUtf8_standard ⟨some (lit "a")⟩ 0x20AC (by norm_num)
  exact ⟨h.1, h.2.2.2.2⟩

/-- C28. Whenever `Alloc_JString` builds a decoded string, its `Hashtags` list satisfies:
every tag is non-empty and consists of bytes from `[A-Za-z0-9_]` only; every marker has
`Begin + len(Tag) + 1 <= Length`; each marker's `Begin` is at least the previous marker's
`Begin + len(Tag) + 1`, so the offsets are strictly increasing and pairwise distinct.
A decoded string is built for every literal without a backslash in which a word byte
follows every `#`. -/
theorem Alloc_JString_markers (source : List Nat) :
    (∀ js, Alloc_JString source = .ok js →
      (∀ h ∈ js.Hashtags, h.Tag ≠ [] ∧
        (∀ b ∈ h.Tag, (97 ≤ b ∧ b ≤ 122) ∨ (65 ≤ b ∧ b ≤ 90) ∨ (48 ≤ b ∧ b ≤ 57) ∨ b = 95) ∧
        h.Begin + h.Tag.length + 1 ≤ js.Length) ∧
      js.Hashtags.Chain' (fun h1 h2 => h1.Begin + h1.Tag.length + 1 ≤ h2.Begin) ∧
      js.Hashtags.Pairwise (fun h1 h2 => h1.Begin < h2.Begin) ∧
      (js.Hashtags.map HashTagData.Begin).Nodup) ∧
    (92 ∉ source → 0 ∉ source →
      (∀ i, byteAt source i = 35 → isTagByte (byteAt source (i + 1)) = true) →
      ∃ js, Alloc_JString source = .ok js) := by
  refine ⟨?_, fun h92 h0 htag => Alloc_JString_ok_of_tagged h92 h0 htag⟩
  intro js h
  obtain ⟨hall, hpw⟩ := Alloc_JString_markersOrdered h
  refine ⟨?_, hpw.chain', ?_, (Alloc_JString_markers_distinct h).1⟩
  · intro t ht
    obtain ⟨a1, a2, a3⟩ := hall t ht
    refine ⟨a1, ?_, a3⟩
    intro b hb
    have := a2 b hb
    simp only [isTagByte, Bool.or_eq_true, Bool.and_eq_true, decide_eq_true_eq,
      beq_iff_eq] at this
    omega
  · refine hpw.imp ?_
    intro a b hab
    omega

/-- C28, at the literal `#a #b_1 x`: the markers `a` at 0 and `b_1` at 3, `Length` 9. -/
theorem Alloc_JString_markers_witness :
    Alloc_JString (lit "#a #b_1 x") =
      .ok ⟨9, ⟨some (lit "#a #b_1 x")⟩, [⟨lit "a", 0⟩, ⟨lit "b_1", 3⟩], STR_makeEmpty⟩ ∧
    List.Chain' (fun h1 h2 : HashTagData => h1.Begin + h1.Tag.length + 1 ≤ h2.Begin)
      [⟨lit "a", 0⟩, ⟨lit "b_1", 3⟩] :=
  ⟨by decide,
    ((Alloc_JString_markers (lit "#a #b_1 x")).1
      ⟨9, ⟨some (lit "#a #b_1 x")⟩, [⟨lit "a", 0⟩, ⟨lit "b_1", 3⟩], STR_makeEmpty⟩
      (by decide)).2.1⟩

/-- C29. For every object whose `FullText` was built by `Alloc_JString` and whose
`Entities` (if bound) has `Hashtags` bound: if `FormsValidExtendedTweetObj` returns true,
the hashtag-extraction list of `Entities.Hashtags` is a permutation of `FullText.Hashtags`
as a list of (`Begin`, tag string) pairs, and of `FullText.Hashtags` itself when its tags
hold no NUL byte (as every tag stored by `ExtractHashtags` does).  So every marker of the
entities array has a marker of the text with the same offset and the same tag string,
although the code checks the other direction and the counts only. -/
theorem FormsValidExtendedTweetObj_entities_perm (o : JObject) (source : List Nat)
    (ft : JString) (fm m : Str_c)
    (hft : o.ExMembers.FullText = some ft) (hsrc : Alloc_JString source = .ok ft)
    (hE : ∀ e, o.ExMembers.Entities = some e → e.ExMembers.Hashtags ≠ none)
    (hv : FormsValidExtendedTweetObj o fm = .ok (true, m)) :
    ((entityHashtags o).map (fun e => (e.Begin, cstr e.Tag))).Perm
      (ft.Hashtags.map (fun t => (t.Begin, t.Tag))) ∧
    ((∀ e ∈ entityHashtags o, 0 ∉ e.Tag) → (entityHashtags o).Perm ft.Hashtags) ∧
    (∀ e ∈ entityHashtags o, ∃ t ∈ ft.Hashtags, t.Begin = e.Begin ∧ t.Tag = cstr e.Tag) := by
  obtain ⟨ft2, dr, h1, -, -, -, -, hlen, hmatch⟩ :=
    (FormsValidExtendedTweetObj_iff_aux o fm hE).mp ⟨m, hv⟩
  rw [hft] at h1
  simp only [Option.some.injEq] at h1
  subst h1
  obtain ⟨hnd, hc⟩ := Alloc_JString_markers_distinct hsrc
  have hmap : ft.Hashtags.map (fun t => (t.Begin, cstr t.Tag)) =
      ft.Hashtags.map (fun t => (t.Begin, t.Tag)) := by
    apply List.map_congr_left
    intro t ht
    rw [hc t ht]
  have hperm := markers_perm_of_matched ft.Hashtags (entityHashtags o) hnd hlen hmatch
  rw [hmap] at hperm
  refine ⟨hperm, ?_, ?_⟩
  · intro h0
    have hce : ∀ e ∈ entityHashtags o, cstr e.Tag = e.Tag := by
      intro e he
      apply cstr_eq_self
      intro b hb hz
      exact h0 e he (hz ▸ hb)
    have hndT : ft.Hashtags.Nodup := List.Nodup.of_map _ hnd
    have hsub : ft.Hashtags ⊆ entityHashtags o := by
      intro t ht
      obtain ⟨e, he, a1, a2⟩ := hmatch t ht
      rw [hc t ht, hce e he] at a2
      have : t = e := by
        cases t
        cases e
        simp only [HashTagData.mk.injEq]
        exact ⟨a2, a1⟩
      exact this ▸ he
    exact ((List.subperm_of_subset hndT hsub).perm_of_length_le (by omega)).symm
  · intro e he
    have hmem : (e.Begin, cstr e.Tag) ∈ (entityHashtags o).map (fun e => (e.Begin, cstr e.Tag)) :=
      List.mem_map.mpr ⟨e, he, rfl⟩
    obtain ⟨t, ht, heq⟩ := List.mem_map.mp (hperm.mem_iff.mp hmem)
    simp only [Prod.mk.injEq] at heq
    exact ⟨t, ht, heq.1, heq.2⟩

/-- C29, at the example extended tweet: the text `hi #ab` and an entities array with the
marker `ab` at 3. -/
theorem FormsValidExtendedTweetObj_entities_perm_witness :
    Alloc_JString (lit "hi #ab") = .ok exampleText ∧
    FormsValidExtendedTweetObj exampleExTweet STR_makeEmpty = .ok (true, STR_makeEmpty) ∧
    (entityHashtags exampleExTweet).Perm exampleText.Hashtags := by
  have hsrc : Alloc_JString (lit "hi #ab") = .ok exampleText := by decide
  have hv : FormsValidExtendedTweetObj exampleExTweet STR_makeEmpty =
      .ok (true, STR_makeEmpty) := rfl
  have hE : ∀ e, exampleExTweet.ExMembers.Entities = some e → e.ExMembers.Hashtags ≠ none := by
    intro e he
    simp only [exampleExTweet, JObject.ExMembers, Option.some.injEq] at he
    subst he
    simp [exampleEntities, JObject.ExMembers]
  refine ⟨hsrc, hv,
    (FormsValidExtendedTweetObj_entities_perm exampleExTweet (lit "hi #ab") exampleText
      STR_makeEmpty STR_makeEmpty rfl hsrc hE hv).2.1 ?_⟩
  intro e he
  have : entityHashtags exampleExTweet = [⟨lit "ab", 3⟩] := rfl
  rw [this] at he
  simp only [List.mem_singleton] at he
  subst he
  decide
